import Mathlib

/-! # Verification of the superstep orchestration of `rerorero/graph` (prerogel)

A shallow embedding of `src/worker/coordinator.go`:

* `assignPartition` — the partition assignment, with Go's `uint64` wrap-around
  arithmetic, the `int` conversion of slice lengths and the panics of `make` made
  explicit (a 64-bit platform is assumed: `int` is 64 bits wide, a slice header
  has 24 bytes; the runtime's limit on one allocation is a parameter);
* the coordinator actor — a step function over an explicit state, one
  function per behaviour (`setup`, `idle`, `waitLoadPartitionVertices`,
  `superstep`, `computing`), the messages it sends being returned as a list
  of effects. What the coordinator calls outside of `coordinator.go` is a
  parameter (`Collaborators`); the ack recorder is modelled from the spec.

The partition actor, of which the repository's files at hand hold the test only,
is modelled from the spec (`partitionReceive`): the acks of the vertices are
collected in an ack set, a vertex is acknowledged to the parent once it has
confirmed its initialisation, and the `ComputeAck` of a vertex is held back while
a message it emitted is in flight.

Two example plugins are embedded as well:

* `src/examples/maximum/plugin.go` — the vertex, the aggregator and the combiner
  of the maximum-value example; a `ComputeContext` is the record of the calls made
  on it, and the superstep loop that runs the vertices is modelled from the spec
  (`bspRun`);
* `src/examples/sssp/proto/sssp.pb.go` — the wire encoding of `SSSPMessage`, byte
  slices being lists of numbers, with the bounds checks and the `int` wrap-around
  of `Unmarshal` and `skipSssp` made explicit.

The file has two parts: the definitions, then the theorems.
-/

namespace Prerogel

/-! ## Machine integers -/

/-- The modulus of Go's `uint64`. -/
def U64 : Nat := 2 ^ 64

/-- The first value that does not fit a (64-bit) Go `int`. -/
def IntMax1 : Nat := 2 ^ 63

/-- Addition on `uint64`. -/
def u64add (a b : Nat) : Nat := (a + b) % U64

/-- Subtraction on `uint64` (wraps below zero). -/
def u64sub (a b : Nat) : Nat := (a + (U64 - b % U64)) % U64

/-- The conversion `(int)(x)` of a `uint64`: a two's complement reinterpretation. -/
def toGoInt (x : Nat) : Int :=
  if x % U64 < IntMax1 then ((x % U64 : Nat) : Int) else ((x % U64 : Nat) : Int) - (U64 : Int)

/-! ## Outcomes of a Go call -/

/-- What a Go function of type `(T, error)` can do: return a value with a nil
error, return a non-nil error, or panic at run time. -/
inductive GoResult (α : Type) where
  | ok : α → GoResult α
  | error : String → GoResult α
  | panicked : GoResult α
  deriving DecidableEq, Repr

/-! ## Allocation of slices -/

/-- Go's `make([]T, n)` for elements of `elemSize` bytes, as the runtime's
`makeslice` decides it: the call panics when `n` is negative, when the size in
bytes overflows a `uintptr`, or when that size exceeds `maxAlloc`, the runtime's
limit on one allocation (a `uintptr`; `1 << 48` on the 64-bit platforms). That
the memory below the limit is there to be had is assumed: running out of it ends
the process and is outside the model. -/
def makeslicePanics (maxAlloc elemSize : Nat) (n : Int) : Bool :=
  decide (n < 0) || decide (U64 ≤ elemSize * n.toNat) || decide (maxAlloc < elemSize * n.toNat)

/-- The value of the runtime's `maxAlloc` on the 64-bit platforms, used where the
model is evaluated. -/
def maxAlloc64 : Nat := 2 ^ 48

/-! ## `assignPartition` (coordinator.go, lines 381-412) -/

/-- The body of `for i := range pairs` of `assignPartition`, run for the `n`
remaining workers, the loop variables `part` and `surplus` being threaded
through. `to` is assigned afresh in every iteration. `none` is the panic of
`make([]uint64, n)`, whose elements have 8 bytes. -/
def assignLoop (maxAlloc max nrOfPartitions : Nat) :
    Nat → Nat → Nat → Option (List (List Nat))
  | 0, _, _ => some []
  | n + 1, part, surplus =>
    -- to = part + max - 1
    let to0 := u64sub (u64add part max) 1
    -- if surplus > 0 { to++; surplus-- }
    let to1 := if surplus > 0 then u64add to0 1 else to0
    let surplus1 := if surplus > 0 then surplus - 1 else surplus
    -- if to > nrOfPartitions { to = nrOfPartitions - 1 }
    let to2 := if to1 > nrOfPartitions then u64sub nrOfPartitions 1 else to1
    -- parts := make([]uint64, (int)(to-part+1))
    let len := toGoInt (u64add (u64sub to2 part) 1)
    if makeslicePanics maxAlloc 8 len then none
    else
      -- parts[j] = part + uint64(j)
      let parts := (List.range len.toNat).map (fun j => u64add part j)
      -- part += uint64(len(parts))
      match assignLoop maxAlloc max nrOfPartitions n (u64add part parts.length) surplus1 with
      | none => none
      | some rest => some (parts :: rest)

/-- The function `assignPartition(nrOfWorkers int, nrOfPartitions uint64)`, run
with the allocation limit `maxAlloc`. `nrOfWorkers` is a non-negative `int` (it
is always `len(cmd.Workers)`). The elements of `pairs`, slice headers, have 24
bytes (a 64-bit platform). -/
def assignPartition (maxAlloc nrOfWorkers nrOfPartitions : Nat) : GoResult (List (List Nat)) :=
  if nrOfWorkers = 0 then GoResult.error "no available workers"
  else if nrOfPartitions = 0 then GoResult.error "no partitions"
  else
    let max := nrOfPartitions / (nrOfWorkers % U64)
    let surplus := nrOfPartitions % (nrOfWorkers % U64)
    -- pairs := make([][]uint64, nrOfWorkers)
    if makeslicePanics maxAlloc 24 (nrOfWorkers : Int) then GoResult.panicked
    else
      match assignLoop maxAlloc max nrOfPartitions nrOfWorkers 0 surplus with
      | none => GoResult.panicked
      | some pairs => GoResult.ok pairs

/-- The length the specification gives to the list of worker `i`. -/
def expectedLen (W P i : Nat) : Nat := P / W + (if i < P % W then 1 else 0)

/-- The largest list length of an assignment of `P` partitions to `W` workers. -/
def maxLen (W P : Nat) : Nat := P / W + (if P % W > 0 then 1 else 0)

/-- The lists of the assignment in closed form: `n` consecutive blocks starting
at `part`, of `max + 1` elements while a surplus remains and `max` after. -/
def blocks (max : Nat) : Nat → Nat → Nat → List (List Nat)
  | 0, _, _ => []
  | n + 1, part, surplus =>
    let b := if surplus > 0 then 1 else 0
    List.range' part (max + b) :: blocks max n (part + (max + b)) (surplus - b)

/-! ## Data carried by the coordinator -/

/-- The protobuf `types.Any`: a type URL and the serialized bytes. -/
structure AnyValue where
  typeUrl : String
  value : List Nat
  deriving DecidableEq, Repr

/-- A Go `map[string]*types.Any`; `none` is the nil map, `some []` the map
returned by `make`. -/
abbrev GoMap := Option (List (String × AnyValue))

/-- The struct `aggregator.VertexStats`. -/
structure VertexStats where
  activeVertices : Nat
  messagesSent : Nat
  deriving DecidableEq, Repr

/-- A `plugin.AggregatableValue` (`interface{}`) as the coordinator can tell it
apart: a `*aggregator.VertexStats`, or any other value. -/
inductive AggregatableValue where
  | vertexStats : VertexStats → AggregatableValue
  | other : AnyValue → AggregatableValue
  deriving DecidableEq, Repr

/-- The actor address `actor.PID`. -/
structure PID where
  address : String
  id : String
  deriving DecidableEq, Repr

/-- The request `command.NewCluster_WorkerReq`. -/
structure WorkerReq where
  remote : Bool
  hostAndPort : String
  deriving DecidableEq, Repr

/-- The entry `command.ClusterInfo_WorkerInfo`. -/
structure WorkerInfo where
  workerPid : PID
  partitions : List Nat
  deriving DecidableEq, Repr

/-- The message `command.ClusterInfo`. -/
structure ClusterInfo where
  workerInfo : List WorkerInfo
  deriving DecidableEq, Repr

/-- The struct `lastAggregated`. -/
structure LastAggregated where
  superstep : Nat
  values : GoMap
  deriving DecidableEq, Repr

/-! ## The ack recorder -/

/-- Modelled from the spec: `util.AckRecorder`, whose source is not part of the
files at hand. The spec describes it as the AckSet, "an expected-id set with
`add(id)`, `ack(id) → bool(known)`, `complete() → bool`, `clear()`", where "`ack`
is a membership removal returning whether the id was known; `complete` is
emptiness". `waiting` holds the ids added and not yet acked, without
duplicates. -/
structure AckRecorder where
  waiting : List String
  deriving DecidableEq, Repr

namespace AckRecorder

/-- Modelled from the spec: `Clear()` empties the set. -/
def clear (_ar : AckRecorder) : AckRecorder := ⟨[]⟩

/-- Modelled from the spec: `AddToWaitList(id)` adds `id` to the set. -/
def addToWaitList (ar : AckRecorder) (id : String) : AckRecorder :=
  if id ∈ ar.waiting then ar else ⟨ar.waiting ++ [id]⟩

/-- Modelled from the spec: `Ack(id)` removes `id` and tells whether it was
known. -/
def ack (ar : AckRecorder) (id : String) : AckRecorder × Bool :=
  if id ∈ ar.waiting then (⟨ar.waiting.erase id⟩, true) else (ar, false)

/-- Modelled from the spec: `HasCompleted()` is emptiness. -/
def hasCompleted (ar : AckRecorder) : Bool := ar.waiting.isEmpty

end AckRecorder

/-! ## Messages and effects -/

/-- The messages the coordinator receives. -/
inductive Command where
  | system : Command
  | coordinatorStats : Command
  | showAggregatedValue : Command
  | getVertexValue (vertexId : String) : Command
  | shutdown : Command
  | newCluster (workers : List WorkerReq) (nrOfPartitions : Nat) : Command
  | initWorkerAck (workerPid : PID) : Command
  | loadVertex (vertexId : String) : Command
  | loadPartitionVertices : Command
  | startSuperStep : Command
  | loadPartitionVerticesWorkerAck (workerPid : PID) : Command
  | superStepBarrierWorkerAck (workerPid : PID) : Command
  | computeWorkerAck (workerPid : PID) (aggregatedValues : GoMap) : Command
  | unknown (description : String) : Command
  deriving DecidableEq, Repr

/-- The messages the coordinator sends. -/
inductive OutMessage where
  | coordinatorStatsAck (state : String) (superStep nrOfActiveVertex nrOfSentMessages : Nat)
  | showAggregatedValueAck (aggregatedValues : List (String × String))
  | getVertexValueAck (vertexId : String)
  | shutdown
  | shutdownAck
  | initWorker (partitions : List Nat)
  | clusterInfo (ci : ClusterInfo)
  | newClusterAck
  | loadVertexAck (vertexId : String) (error : String)
  | loadPartitionVertices (numOfPartitions : Nat)
  | superStepBarrier
  | compute (superStep : Nat) (aggregatedValues : GoMap)
  deriving DecidableEq, Repr

/-- What a handler does to the outside, in program order. Log lines are left out.
`fail` is the call `ActorUtil.Fail(context, err)`; `panic` is a run-time panic,
after which nothing more of the handler runs. -/
inductive Effect where
  | request (pid : PID) (msg : OutMessage)
  | send (pid : PID) (msg : OutMessage)
  | respond (msg : OutMessage)
  | forward (pid : PID)
  | fail (err : String)
  | shutdownHandler
  | panic
  deriving DecidableEq, Repr

/-- The handler installed by `behavior.Become`. -/
inductive Behavior where
  | setup | idle | waitLoadPartitionVertices | superstep | computing
  deriving DecidableEq, Repr

/-- The constant `CoordinatorStateInit`. -/
def CoordinatorStateInit : String := "initializing cluster"
/-- The constant `CoordinatorStateIdle`. -/
def CoordinatorStateIdle : String := "idle"
/-- The constant `CoordinatorStateLoadingVertices`. -/
def CoordinatorStateLoadingVertices : String := "loading vertices of each partition"
/-- The constant `CoordinatorStateProcessing`. -/
def CoordinatorStateProcessing : String := "processing superstep"
/-- The constant `CoordinatorStateProcessingComputing`. -/
def CoordinatorStateProcessingComputing : String := "processing superstep - computing"

/-- The struct `coordinatorActor` (the plugin, the worker props, the logger and
the shutdown hook are in `Collaborators`). -/
structure CoordinatorActor where
  behavior : Behavior
  clusterInfo : Option ClusterInfo
  ackRecorder : AckRecorder
  aggregatedCurrentStep : GoMap
  lastAggregatedValue : LastAggregated
  currentStep : Nat
  stateName : String
  deriving DecidableEq, Repr

/-- What the coordinator calls and whose source is not part of the files at hand:
the plugin, the actor runtime, and helpers of the packages `worker` and
`command`. Each is a parameter of the model. -/
structure Collaborators where
  /-- The helper `aggregateValueMap(aggregators, base, extra)`: it updates `base` in
  place and may return an error; the result is `base` afterwards and the error. -/
  aggregateValueMap : GoMap → GoMap → GoMap × Option String
  /-- The helper `getAggregatedValue(aggregators, aggregated, name)`. -/
  getAggregatedValue : GoMap → String → Except String AggregatableValue
  /-- The helper `getAggregatedValueString(aggregators, aggregated, name)`. -/
  getAggregatedValueString : GoMap → String → Except String String
  /-- The constant `VertexStatsName`. -/
  vertexStatsName : String
  /-- The names of the aggregators in the package variable `systemAggregator`. -/
  systemAggregator : List String
  /-- The plugin method `Partition(vertex, numOfPartitions)`. -/
  partition : String → Nat → Except String Nat
  /-- The method `ClusterInfo.NumOfPartitions()`. -/
  numOfPartitions : ClusterInfo → Nat
  /-- The method `ClusterInfo.FindWoerkerInfoByPartition(p)`. -/
  findWoerkerInfoByPartition : ClusterInfo → Nat → Option WorkerInfo
  /-- The outcome of spawning worker `i`: `remote.SpawnNamed` for a remote worker
  (it may fail), `context.Spawn` for a local one. -/
  spawn : Nat → WorkerReq → Except String PID
  /-- The Go runtime's `maxAlloc`, the limit on the size of one allocation. -/
  maxAlloc : Nat

/-! ## The coordinator actor (coordinator.go, lines 50-379) -/

/-- The constructor `NewCoordinatorActor`. -/
def NewCoordinatorActor : CoordinatorActor :=
  { behavior := Behavior.setup
    clusterInfo := none
    ackRecorder := AckRecorder.clear ⟨[]⟩
    aggregatedCurrentStep := none
    lastAggregatedValue := { superstep := 0, values := none }
    currentStep := 0
    stateName := CoordinatorStateInit }

/-- The method `getStats`: the aggregated value under `VertexStatsName`, which
must be a `*aggregator.VertexStats`. -/
def getStats (c : Collaborators) (aggregated : GoMap) : Except String VertexStats :=
  match c.getAggregatedValue aggregated c.vertexStatsName with
  | Except.error err => Except.error err
  | Except.ok (AggregatableValue.vertexStats stats) => Except.ok stats
  | Except.ok (AggregatableValue.other _) => Except.error "not VertexStats"

/-- The function `isSystemAggregator`. -/
def isSystemAggregator (c : Collaborators) (name : String) : Bool :=
  c.systemAggregator.any (fun a => a == name)

/-- The method `findWorkerInfoByVertex`; the outer `none` is the nil dereference
of an unset `clusterInfo`. -/
def findWorkerInfoByVertex (c : Collaborators) (state : CoordinatorActor) (vid : String) :
    Option (Option WorkerInfo) :=
  match state.clusterInfo with
  | none => none
  | some ci =>
    match c.partition vid (c.numOfPartitions ci) with
    | Except.error _ => some none
    | Except.ok p => some (c.findWoerkerInfoByPartition ci p)

/-- The loop `for _, wi := range state.clusterInfo.WorkerInfo` that requests `msg`
of every worker and adds the worker to the wait list. -/
def requestAll (workers : List WorkerInfo) (msg : OutMessage) (ar : AckRecorder) :
    AckRecorder × List Effect :=
  workers.foldl
    (fun acc wi => (acc.1.addToWaitList wi.workerPid.id, acc.2 ++ [Effect.request wi.workerPid msg]))
    (ar, [])

/-- The loop over `cmd.Workers` in the `NewCluster` case of `setup`, from worker
`i` on: spawn, request `InitWorker`, add to the wait list, fill `ci.WorkerInfo`.
A failed remote spawn ends the handler with `Fail`. -/
def spawnWorkers (c : Collaborators) (assigned : List (List Nat)) :
    List WorkerReq → Nat → AckRecorder → List WorkerInfo → List Effect →
      AckRecorder × List Effect × Option (List WorkerInfo)
  | [], _, ar, infos, effs => (ar, effs, some infos)
  | wreq :: rest, i, ar, infos, effs =>
    match c.spawn i wreq with
    | Except.error err =>
      if wreq.remote then (ar, effs ++ [Effect.fail err], none)
      else (ar, effs ++ [Effect.panic], none)
    | Except.ok pid =>
      let parts := assigned.getD i []
      spawnWorkers c assigned rest (i + 1) (ar.addToWaitList pid.id)
        (infos ++ [{ workerPid := pid, partitions := parts }])
        (effs ++ [Effect.request pid (OutMessage.initWorker parts)])

/-- The behaviour `setup`. The `make` of `ci.WorkerInfo`, of 8 bytes for each
worker, is left out: it cannot panic once `assignPartition` has allocated `pairs`,
of 24 bytes for each worker. -/
def setup (c : Collaborators) (state : CoordinatorActor) (cmd : Command) :
    CoordinatorActor × List Effect :=
  match cmd with
  | Command.newCluster workers nrOfPartitions =>
    match state.clusterInfo with
    | some _ => (state, [Effect.fail "cluster info has already been set"])
    | none =>
      match assignPartition c.maxAlloc workers.length nrOfPartitions with
      | GoResult.error err => (state, [Effect.fail err])
      | GoResult.panicked => (state, [Effect.panic])
      | GoResult.ok assigned =>
        let ar := state.ackRecorder.clear
        match spawnWorkers c assigned workers 0 ar [] [] with
        | (ar1, effs, none) => ({ state with ackRecorder := ar1 }, effs)
        | (ar1, effs, some infos) =>
          let ci : ClusterInfo := { workerInfo := infos }
          ({ state with ackRecorder := ar1, clusterInfo := some ci },
            effs ++ infos.map (fun wi => Effect.send wi.workerPid (OutMessage.clusterInfo ci))
              ++ [Effect.respond OutMessage.newClusterAck])
  | Command.initWorkerAck workerPid =>
    match state.ackRecorder.ack workerPid.id with
    | (_, false) => (state, [])
    | (ar, true) =>
      if ar.hasCompleted then
        ({ state with ackRecorder := ar.clear, behavior := Behavior.idle,
                      stateName := CoordinatorStateIdle }, [])
      else ({ state with ackRecorder := ar }, [])
  | _ => (state, [Effect.fail "[setup] unhandled corrdinator command"])

/-- The behaviour `idle`. -/
def idle (c : Collaborators) (state : CoordinatorActor) (cmd : Command) :
    CoordinatorActor × List Effect :=
  match cmd with
  | Command.loadVertex vertexId =>
    match findWorkerInfoByVertex c state vertexId with
    | none => (state, [Effect.panic])
    | some none =>
      (state, [Effect.respond (OutMessage.loadVertexAck vertexId
        ("worker couldn't be found: vertex id=" ++ vertexId))])
    | some (some w) => (state, [Effect.forward w.workerPid])
  | Command.loadPartitionVertices =>
    match state.clusterInfo with
    | none => (state, [Effect.panic])
    | some ci =>
      let (ar, effs) := requestAll ci.workerInfo
        (OutMessage.loadPartitionVertices (c.numOfPartitions ci)) state.ackRecorder
      ({ state with ackRecorder := ar, behavior := Behavior.waitLoadPartitionVertices,
                    stateName := CoordinatorStateLoadingVertices }, effs)
  | Command.startSuperStep =>
    let state1 := { state with aggregatedCurrentStep := some [], currentStep := 0 }
    match state1.clusterInfo with
    | none => (state1, [Effect.panic])
    | some ci =>
      let (ar, effs) := requestAll ci.workerInfo OutMessage.superStepBarrier state1.ackRecorder
      ({ state1 with ackRecorder := ar, behavior := Behavior.superstep,
                     stateName := CoordinatorStateProcessing }, effs)
  | _ => (state, [Effect.fail "[setup] unhandled corrdinator command"])

/-- The behaviour `waitLoadPartitionVertices`. -/
def waitLoadPartitionVertices (_c : Collaborators) (state : CoordinatorActor) (cmd : Command) :
    CoordinatorActor × List Effect :=
  match cmd with
  | Command.loadPartitionVerticesWorkerAck workerPid =>
    match state.ackRecorder.ack workerPid.id with
    | (_, false) => (state, [])
    | (ar, true) =>
      if ar.hasCompleted then
        ({ state with ackRecorder := ar.clear, behavior := Behavior.idle,
                      stateName := CoordinatorStateIdle }, [])
      else ({ state with ackRecorder := ar }, [])
  | _ => (state, [Effect.fail "[superstep] unhandled corrdinator command"])

/-- The behaviour `superstep`. -/
def superstep (_c : Collaborators) (state : CoordinatorActor) (cmd : Command) :
    CoordinatorActor × List Effect :=
  match cmd with
  | Command.superStepBarrierWorkerAck workerPid =>
    match state.ackRecorder.ack workerPid.id with
    | (_, false) => (state, [])
    | (ar, true) =>
      if ar.hasCompleted then
        match state.clusterInfo with
        | none => ({ state with ackRecorder := ar.clear }, [Effect.panic])
        | some ci =>
          let (ar1, effs) := requestAll ci.workerInfo
            (OutMessage.compute state.currentStep state.lastAggregatedValue.values) ar.clear
          ({ state with ackRecorder := ar1, behavior := Behavior.computing,
                        stateName := CoordinatorStateProcessingComputing }, effs)
      else ({ state with ackRecorder := ar }, [])
  | _ => (state, [Effect.fail "[superstep] unhandled corrdinator command"])

/-- The part of `computing` that runs once the ack set has completed
(coordinator.go, lines 314-349); `state` has the ack recorded and the values
merged. -/
def finishStep (c : Collaborators) (state : CoordinatorActor) : CoordinatorActor × List Effect :=
  let state1 := { state with ackRecorder := state.ackRecorder.clear }
  match getStats c state1.aggregatedCurrentStep with
  | Except.error err => (state1, [Effect.fail err])
  | Except.ok stats =>
    if stats.activeVertices = 0 ∧ stats.messagesSent = 0 then
      -- finish superstep
      let state2 := { state1 with behavior := Behavior.idle, stateName := CoordinatorStateIdle }
      ({ state2 with
          lastAggregatedValue :=
            { superstep := state2.currentStep, values := state2.aggregatedCurrentStep }
          aggregatedCurrentStep := some [] }, [])
    else
      -- move step forward
      let state2 := { state1 with currentStep := u64add state1.currentStep 1 }
      match state2.clusterInfo with
      | none => (state2, [Effect.panic])
      | some ci =>
        let (ar, effs) := requestAll ci.workerInfo OutMessage.superStepBarrier state2.ackRecorder
        let state3 := { state2 with ackRecorder := ar, behavior := Behavior.superstep,
                                    stateName := CoordinatorStateProcessing }
        ({ state3 with
            lastAggregatedValue :=
              { superstep := state3.currentStep, values := state3.aggregatedCurrentStep }
            aggregatedCurrentStep := some [] }, effs)

/-- The merge of one accepted `ComputeWorkerAck` into the accumulator
(coordinator.go, lines 308-313): nothing is merged when the ack carries a nil
map; otherwise the result is the accumulator after `aggregateValueMap` and the
error it returned. -/
def mergeAck (c : Collaborators) (base : GoMap) (aggregatedValues : GoMap) :
    GoMap × Option String :=
  match aggregatedValues with
  | none => (base, none)
  | some values => c.aggregateValueMap base (some values)

/-- The behaviour `computing`. -/
def computing (c : Collaborators) (state : CoordinatorActor) (cmd : Command) :
    CoordinatorActor × List Effect :=
  match cmd with
  | Command.computeWorkerAck workerPid aggregatedValues =>
    match state.ackRecorder.ack workerPid.id with
    | (_, false) => (state, [])
    | (ar, true) =>
      let state1 := { state with ackRecorder := ar }
      match mergeAck c state1.aggregatedCurrentStep aggregatedValues with
      | (base, some err) =>
        ({ state1 with aggregatedCurrentStep := base }, [Effect.fail err])
      | (base, none) =>
        let state2 := { state1 with aggregatedCurrentStep := base }
        if state2.ackRecorder.hasCompleted then finishStep c state2 else (state2, [])
  | _ => (state, [Effect.fail "[computing] unhandled corrdinator command"])

/-- The dispatch `state.behavior.Receive(context)`. -/
def behaviorReceive (c : Collaborators) (state : CoordinatorActor) (cmd : Command) :
    CoordinatorActor × List Effect :=
  match state.behavior with
  | Behavior.setup => setup c state cmd
  | Behavior.idle => idle c state cmd
  | Behavior.waitLoadPartitionVertices => waitLoadPartitionVertices c state cmd
  | Behavior.superstep => superstep c state cmd
  | Behavior.computing => computing c state cmd

/-- The body of the `ShowAggregatedValue` case: the names of the snapshot that are
not system aggregators and can be rendered, with their rendering. -/
def showAggregatedValues (c : Collaborators) (values : GoMap) : List (String × String) :=
  match values with
  | none => []
  | some entries =>
    entries.filterMap (fun entry =>
      if isSystemAggregator c entry.1 then none
      else
        match c.getAggregatedValueString values entry.1 with
        | Except.error _ => none
        | Except.ok v => some (entry.1, v))

/-- The method `Receive`, the message handler of the actor. -/
def Receive (c : Collaborators) (state : CoordinatorActor) (cmd : Command) :
    CoordinatorActor × List Effect :=
  match cmd with
  | Command.system => (state, [])
  | Command.coordinatorStats =>
    match state.lastAggregatedValue.values with
    | none =>
      (state, [Effect.respond (OutMessage.coordinatorStatsAck state.stateName 0 0 0)])
    | some values =>
      match getStats c (some values) with
      | Except.error err => (state, [Effect.fail err])
      | Except.ok stats =>
        (state, [Effect.respond (OutMessage.coordinatorStatsAck state.stateName
          state.lastAggregatedValue.superstep stats.activeVertices stats.messagesSent)])
  | Command.showAggregatedValue =>
    (state, [Effect.respond
      (OutMessage.showAggregatedValueAck (showAggregatedValues c state.lastAggregatedValue.values))])
  | Command.getVertexValue vertexId =>
    match findWorkerInfoByVertex c state vertexId with
    | none => (state, [Effect.panic])
    | some none => (state, [Effect.respond (OutMessage.getVertexValueAck vertexId)])
    | some (some w) => (state, [Effect.forward w.workerPid])
  | Command.shutdown =>
    match state.clusterInfo with
    | none => (state, [Effect.panic])
    | some ci =>
      (state, ci.workerInfo.map (fun wi => Effect.send wi.workerPid OutMessage.shutdown)
        ++ [Effect.respond OutMessage.shutdownAck, Effect.shutdownHandler])
  | _ => behaviorReceive c state cmd

/-- The coordinator after a sequence of messages, with everything it did. -/
def run (c : Collaborators) : CoordinatorActor → List Command → CoordinatorActor × List Effect
  | state, [] => (state, [])
  | state, cmd :: rest =>
    let r := Receive c state cmd
    let rs := run c r.1 rest
    (rs.1, r.2 ++ rs.2)

/-! ## A concrete plugin, for evaluating the model -/

/-- The name under which the example collaborators keep the vertex statistics. -/
def exampleStatsName : String := "stats"

/-- The vertex statistics `(active, sent)` as a one-entry aggregated map. -/
def statsMap (active sent : Nat) : GoMap :=
  some [(exampleStatsName, { typeUrl := "VertexStats", value := [active, sent] })]

/-- Example of `aggregateValueMap`: the statistics of `extra` are added to those of
`base`; an entry of `extra` that is not a statistics value is an error. -/
def exampleAggregate (base extra : GoMap) : GoMap × Option String :=
  match extra with
  | none => (base, none)
  | some [] => (base, none)
  | some [(_, { typeUrl := _, value := [a, s] })] =>
    match base with
    | some [(_, { typeUrl := _, value := [a0, s0] })] => (statsMap (a0 + a) (s0 + s), none)
    | _ => (statsMap a s, none)
  | some _ => (base, some "unknown aggregator")

/-- Example of `getAggregatedValue`: the value stored under the name, an error
when there is none. -/
def exampleGetAggregatedValue (aggregated : GoMap) (name : String) :
    Except String AggregatableValue :=
  match aggregated with
  | none => Except.error "no such aggregated value"
  | some entries =>
    match entries.lookup name with
    | none => Except.error "no such aggregated value"
    | some { typeUrl := _, value := [a, s] } =>
      Except.ok (AggregatableValue.vertexStats { activeVertices := a, messagesSent := s })
    | some v => Except.ok (AggregatableValue.other v)

/-- Example collaborators: local workers `w0`, `w1`, ..., one partition per
worker in the lookup helpers. -/
def exampleCollaborators : Collaborators :=
  { aggregateValueMap := exampleAggregate
    getAggregatedValue := exampleGetAggregatedValue
    getAggregatedValueString := fun _ name => Except.ok name
    vertexStatsName := exampleStatsName
    systemAggregator := [exampleStatsName]
    partition := fun _ _ => Except.ok 0
    numOfPartitions := fun ci => (ci.workerInfo.map (fun wi => wi.partitions.length)).sum
    findWoerkerInfoByPartition := fun ci p => ci.workerInfo.find? (fun wi => wi.partitions.contains p)
    spawn := fun i _ => Except.ok { address := "nonhost", id := if i = 0 then "w0" else "w1" }
    maxAlloc := maxAlloc64 }

/-- The pid of the first example worker. -/
def exampleW0 : PID := { address := "nonhost", id := "w0" }
/-- The pid of the second example worker. -/
def exampleW1 : PID := { address := "nonhost", id := "w1" }

/-- A cluster of the two example workers with one partition each. -/
def exampleCluster : ClusterInfo :=
  { workerInfo := [{ workerPid := exampleW0, partitions := [0] },
                   { workerPid := exampleW1, partitions := [1] }] }

/-- A coordinator computing step `step` that waits for the acks in `waiting`. -/
def exampleComputing (step : Nat) (waiting : List String) (acc : GoMap) : CoordinatorActor :=
  { behavior := Behavior.computing
    clusterInfo := some exampleCluster
    ackRecorder := ⟨waiting⟩
    aggregatedCurrentStep := acc
    lastAggregatedValue := { superstep := 0, values := none }
    currentStep := step
    stateName := CoordinatorStateProcessingComputing }

/-! ## Invariants and notions used in the statements -/

/-- The invariant that an idle coordinator waits for no ack. -/
def IdleQuiet (s : CoordinatorActor) : Prop :=
  s.behavior = Behavior.idle → s.ackRecorder.waiting = []

/-- The commands of a cluster of the two example workers being set up. -/
def exampleSetupRun : List Command :=
  [Command.newCluster [⟨false, ""⟩, ⟨false, ""⟩] 2,
   Command.initWorkerAck exampleW0, Command.initWorkerAck exampleW1]

/-- The worker whose ack of the waiting stage `b` the command is, if it is one. -/
def stageAckPid : Behavior → Command → Option PID
  | Behavior.setup, Command.initWorkerAck pid => some pid
  | Behavior.waitLoadPartitionVertices, Command.loadPartitionVerticesWorkerAck pid => some pid
  | Behavior.superstep, Command.superStepBarrierWorkerAck pid => some pid
  | Behavior.computing, Command.computeWorkerAck pid _ => some pid
  | _, _ => none

/-- The worker ids acknowledged by the stage acks among the commands. -/
def ackedIds (b : Behavior) (cmds : List Command) : List String :=
  cmds.filterMap (fun cmd => (stageAckPid b cmd).map (fun pid => pid.id))

/-- An effect that is a call of `Fail`. -/
def Effect.isFail : Effect → Bool
  | Effect.fail _ => true
  | _ => false

/-- The ids of `waiting` that are not among `acked`. -/
def remaining (waiting acked : List String) : List String :=
  waiting.filter (fun id => decide (id ∉ acked))

/-- Aggregated values that the example plugin cannot merge. -/
def exampleRejected : GoMap :=
  some [("a", { typeUrl := "x", value := [] }), ("b", { typeUrl := "x", value := [] })]

/-- A pid that belongs to no worker of the example cluster. -/
def exampleStranger : PID := { address := "nonhost", id := "stranger" }

/-- The map obtained by merging, from an empty map, the values of the given acks
in order. -/
def mergeAll (c : Collaborators) (acks : List GoMap) : GoMap :=
  acks.foldl (fun base vals => (mergeAck c base vals).1) (some [])

/-- A record, kept beside the coordinator, of the `ComputeWorkerAck`s it accepted:
`current` holds the values of those accepted so far in the step being computed,
`previous` those accepted during the step completed last, and `previousStep` is
the number of that step. -/
structure StepLog where
  current : List GoMap
  previous : List GoMap
  previousStep : Nat
  deriving Repr

/-- The record before any message. -/
def StepLog.init : StepLog := { current := [], previous := [], previousStep := 0 }

/-- The record after the coordinator in state `s` has handled `cmd`. A
`ComputeWorkerAck` is accepted when the coordinator is computing and the worker is
in the ack set; the step is completed by it when the coordinator leaves the
computing state. `StartSuperStep` in the idle state begins a new job. -/
def logStep (c : Collaborators) (s : CoordinatorActor) (log : StepLog) (cmd : Command) :
    StepLog :=
  match cmd with
  | Command.computeWorkerAck pid vals =>
    if s.behavior = Behavior.computing ∧ pid.id ∈ s.ackRecorder.waiting then
      if (Receive c s cmd).1.behavior = Behavior.computing then
        { log with current := log.current ++ [vals] }
      else
        { current := [], previous := log.current ++ [vals], previousStep := s.currentStep }
    else log
  | Command.startSuperStep =>
    if s.behavior = Behavior.idle then { log with current := [] } else log
  | _ => log

/-- The coordinator and the record after a sequence of messages. -/
def runLog (c : Collaborators) : CoordinatorActor → StepLog → List Command →
    CoordinatorActor × StepLog
  | s, log, [] => (s, log)
  | s, log, cmd :: rest => runLog c (Receive c s cmd).1 (logStep c s log cmd) rest

/-- The invariant that ties the coordinator to the record. -/
def LogInv (c : Collaborators) (s : CoordinatorActor) (log : StepLog) : Prop :=
  (s.behavior = Behavior.computing → s.aggregatedCurrentStep = mergeAll c log.current) ∧
  (s.behavior = Behavior.superstep →
    s.aggregatedCurrentStep = some [] ∧ log.current = []) ∧
  (s.behavior = Behavior.superstep → 1 ≤ s.currentStep →
    s.lastAggregatedValue.values = mergeAll c log.previous ∧
    u64add log.previousStep 1 = s.currentStep)

/-- The commands of a job on the example cluster up to the barrier of step 1: both
workers ack the barrier of step 0, both ack the computation of step 0 with active
vertices, and `w0` acks the barrier of step 1. -/
def exampleJobRun : List Command :=
  exampleSetupRun ++
    [Command.startSuperStep,
     Command.superStepBarrierWorkerAck exampleW0, Command.superStepBarrierWorkerAck exampleW1,
     Command.computeWorkerAck exampleW0 (statsMap 1 0),
     Command.computeWorkerAck exampleW1 (statsMap 1 2),
     Command.superStepBarrierWorkerAck exampleW0]

/-- The invariant that a coordinator waiting for the acks of a stage that follows
the setup knows its cluster. -/
def ClusterKnown (s : CoordinatorActor) : Prop :=
  s.behavior = Behavior.setup ∨ s.behavior = Behavior.idle ∨ ∃ ci, s.clusterInfo = some ci

/-- The commands of a job on the example cluster up to the last ack of the
computation of step 0: both workers have acked the barrier and `w0` has acked
the computation with the given values. -/
def exampleComputeRun (vals : GoMap) : List Command :=
  exampleSetupRun ++
    [Command.startSuperStep,
     Command.superStepBarrierWorkerAck exampleW0, Command.superStepBarrierWorkerAck exampleW1,
     Command.computeWorkerAck exampleW0 vals]

/-- Example collaborators whose remote spawn fails: the local worker is `w0`. -/
def exampleFailingSpawn : Collaborators :=
  { exampleCollaborators with
    spawn := fun _ wreq =>
      if wreq.remote then Except.error "failed to spawn remote actor"
      else Except.ok { address := "nonhost", id := "w0" } }

/-- The commands of a cluster set-up whose second worker, a remote one, cannot be
spawned, followed by the ack of the first worker. -/
def exampleFailedSetupRun : List Command :=
  [Command.newCluster [⟨false, ""⟩, ⟨true, "host:8080"⟩] 2, Command.initWorkerAck exampleW0]

/-! ## The partition actor -/

/-- Modelled from the spec: the states of the partition actor, whose source
(`worker/partition.go`) is not part of the files at hand. The spec (4.3) has
`InitPartition` "enter Idle", and a barrier stage and a compute stage that each
end with one ack to the worker. -/
inductive PartitionPhase where
  | init | idle | awaitingBarrier | computing
  deriving DecidableEq, Repr

/-- Modelled from the spec: the messages a partition receives (spec 4.3, and the
commands sent in `partition_test.go`). `loadVertexAck` is the confirmation of a
vertex that it has been initialised. -/
inductive PartitionCommand where
  | initPartition (partitionId : Nat)
  | loadVertex (vertexId : String)
  | loadVertexAck (vertexId : String)
  | superStepBarrier
  | superStepBarrierAck (vertexId : String)
  | compute (superStep : Nat)
  | computeAck (vertexId : String) (halted : Bool)
  | superStepMessage (uuid : String) (superStep : Nat) (srcVertexId destVertexId : String)
  | superStepMessageAck (uuid : String)
  deriving DecidableEq, Repr

/-- Modelled from the spec: the messages a partition sends. -/
inductive PartitionMessage where
  | initPartitionAck (partitionId : Nat)
  | loadVertex (vertexId : String)
  | loadVertexAck (vertexId : String)
  | superStepBarrier
  | superStepBarrierPartitionAck (partitionId : Nat)
  | compute (superStep : Nat)
  | computePartitionAck (partitionId : Nat)
  | superStepMessage (uuid : String) (superStep : Nat) (srcVertexId destVertexId : String)
  | superStepMessageAck (uuid : String)
  deriving DecidableEq, Repr

/-- Modelled from the spec: what a partition does to the outside: a message to its
parent worker, a message to one of its vertices, or a reply to the sender of the
message being handled. -/
inductive PartitionEffect where
  | toParent (msg : PartitionMessage)
  | toVertex (vertexId : String) (msg : PartitionMessage)
  | respond (msg : PartitionMessage)
  deriving DecidableEq, Repr

/-- Modelled from the spec: the partition of the data model (spec 3),
`{ partitionId, vertices, pendingAcks: AckSet }`, with the messages forwarded to
the worker and not yet acked (`inFlight`: uuid and sending vertex) and the
vertices whose `ComputeAck` has arrived and is held back because a message they
emitted is not yet acked (`held`). The aggregated values, which the plugin
reduces, are left out of the model. -/
structure PartitionActor where
  phase : PartitionPhase
  partitionId : Nat
  vertices : List String
  ackRecorder : AckRecorder
  inFlight : List (String × String)
  held : List String
  deriving DecidableEq, Repr

/-- Modelled from the spec: a partition before `InitPartition`. -/
def NewPartitionActor : PartitionActor :=
  { phase := PartitionPhase.init, partitionId := 0, vertices := [],
    ackRecorder := ⟨[]⟩, inFlight := [], held := [] }

/-- Modelled from the spec: the broadcast of a stage to the vertices; every vertex
is added to the ack set. -/
def broadcastToVertices (vertices : List String) (msg : PartitionMessage) :
    AckRecorder × List PartitionEffect :=
  (vertices.foldl (fun (ar : AckRecorder) v => ar.addToWaitList v) (⟨[]⟩ : AckRecorder),
    vertices.map (fun v => PartitionEffect.toVertex v msg))

/-- Modelled from the spec: whether a message emitted by the vertex has been
forwarded to the worker and not yet acked. -/
def hasInFlight (s : PartitionActor) (vertexId : String) : Bool :=
  s.inFlight.any (fun entry => entry.2 == vertexId)

/-- Modelled from the spec: the ack of a vertex for the current stage is recorded
in the AckSet; an ack of a vertex that is not in the set is dropped, and "when the
AckSet becomes full" (spec 5) the partition sends `reply`, the one ack of the
stage, to its parent and is idle again. -/
def countAck (s : PartitionActor) (vertexId : String) (reply : PartitionMessage) :
    PartitionActor × List PartitionEffect :=
  match s.ackRecorder.ack vertexId with
  | (_, false) => (s, [])
  | (ar, true) =>
    if ar.hasCompleted then
      ({ s with ackRecorder := ar.clear, phase := PartitionPhase.idle, held := [] },
        [PartitionEffect.toParent reply])
    else ({ s with ackRecorder := ar }, [])

/-- Modelled from the spec: the routing of a `SuperStepMessage` (spec 4.3): "if
destination is in-partition, deliver to local vertex's pending-inbox (and
immediately ack the message); otherwise forward upward to Worker". -/
def routeMessage (s : PartitionActor) (uuid : String) (superStep : Nat) (src dest : String) :
    PartitionActor × List PartitionEffect :=
  if dest ∈ s.vertices then
    (s, [PartitionEffect.toVertex dest (PartitionMessage.superStepMessage uuid superStep src dest),
          PartitionEffect.respond (PartitionMessage.superStepMessageAck uuid)])
  else
    ({ s with inFlight := s.inFlight ++ [(uuid, src)] },
      [PartitionEffect.toParent (PartitionMessage.superStepMessage uuid superStep src dest)])

/-- Modelled from the spec: the worker's `SuperStepMessageAck` for a forwarded
message is relayed to the vertex that sent the message; an ack with an unknown
uuid is dropped. "A vertex's `ComputeAck` is not forwarded upward until every
message it emitted has been fully acked" (spec 4.3): when the ack relayed is the
last one the vertex was waiting for and its `ComputeAck` is held back, the
`ComputeAck` is recorded now, after the relay. -/
def relayAck (s : PartitionActor) (uuid : String) : PartitionActor × List PartitionEffect :=
  match s.inFlight.lookup uuid with
  | none => (s, [])
  | some src =>
    let s1 := { s with inFlight := s.inFlight.erase (uuid, src) }
    let relay := PartitionEffect.toVertex src (PartitionMessage.superStepMessageAck uuid)
    if s1.phase = PartitionPhase.computing ∧ src ∈ s1.held ∧ hasInFlight s1 src = false then
      let r := countAck { s1 with held := s1.held.erase src } src
        (PartitionMessage.computePartitionAck s1.partitionId)
      (r.1, relay :: r.2)
    else (s1, [relay])

/-- Modelled from the spec: the message handler of the partition actor (spec 4.3).
A stage is a broadcast to the vertices followed by the collection of their acks in
the AckSet. `LoadVertex` creates the vertex, and `LoadVertexAck` is replied to the
parent "after the vertex confirms its own init". A `ComputeAck` of a vertex that
has a message in flight is held back until the message is acked (`relayAck`). A
command that the current state does not handle is dropped (spec 7, protocol
violation at leaf level). -/
def partitionReceive (s : PartitionActor) (cmd : PartitionCommand) :
    PartitionActor × List PartitionEffect :=
  match s.phase, cmd with
  | PartitionPhase.init, PartitionCommand.initPartition p =>
    ({ s with phase := PartitionPhase.idle, partitionId := p },
      [PartitionEffect.toParent (PartitionMessage.initPartitionAck p)])
  | PartitionPhase.init, _ => (s, [])
  | _, PartitionCommand.superStepMessage uuid superStep src dest =>
    routeMessage s uuid superStep src dest
  | _, PartitionCommand.superStepMessageAck uuid => relayAck s uuid
  | _, PartitionCommand.loadVertexAck vid =>
    if vid ∈ s.vertices then
      (s, [PartitionEffect.toParent (PartitionMessage.loadVertexAck vid)])
    else (s, [])
  | PartitionPhase.idle, PartitionCommand.loadVertex vid =>
    ({ s with vertices := if vid ∈ s.vertices then s.vertices else s.vertices ++ [vid] },
      [PartitionEffect.toVertex vid (PartitionMessage.loadVertex vid)])
  | PartitionPhase.idle, PartitionCommand.superStepBarrier =>
    let (ar, effs) := broadcastToVertices s.vertices PartitionMessage.superStepBarrier
    if ar.hasCompleted then
      ({ s with ackRecorder := ar.clear },
        effs ++ [PartitionEffect.toParent
          (PartitionMessage.superStepBarrierPartitionAck s.partitionId)])
    else ({ s with ackRecorder := ar, phase := PartitionPhase.awaitingBarrier }, effs)
  | PartitionPhase.awaitingBarrier, PartitionCommand.superStepBarrierAck vid =>
    countAck s vid (PartitionMessage.superStepBarrierPartitionAck s.partitionId)
  | PartitionPhase.idle, PartitionCommand.compute superStep =>
    let (ar, effs) := broadcastToVertices s.vertices (PartitionMessage.compute superStep)
    if ar.hasCompleted then
      ({ s with ackRecorder := ar.clear, held := [] },
        effs ++ [PartitionEffect.toParent (PartitionMessage.computePartitionAck s.partitionId)])
    else ({ s with ackRecorder := ar, phase := PartitionPhase.computing, held := [] }, effs)
  | PartitionPhase.computing, PartitionCommand.computeAck vid _ =>
    if hasInFlight s vid then
      ({ s with held := if vid ∈ s.held then s.held else s.held ++ [vid] }, [])
    else countAck s vid (PartitionMessage.computePartitionAck s.partitionId)
  | _, _ => (s, [])

/-- The partition after a sequence of messages, with everything it did. -/
def partitionRun : PartitionActor → List PartitionCommand → PartitionActor × List PartitionEffect
  | s, [] => (s, [])
  | s, cmd :: rest =>
    let r := partitionReceive s cmd
    let rs := partitionRun r.1 rest
    (rs.1, r.2 ++ rs.2)

/-- The commands that load the vertices one by one, each `LoadVertex` followed by
the confirmation of the vertex. -/
def loadCommands : List String → List PartitionCommand
  | [] => []
  | v :: rest =>
    PartitionCommand.loadVertex v :: PartitionCommand.loadVertexAck v :: loadCommands rest

/-- The vertex whose ack of the stage the command is: a `SuperStepBarrierAck` in
the barrier stage, a `ComputeAck` in the compute stage. -/
def partitionAckId : PartitionPhase → PartitionCommand → Option String
  | PartitionPhase.awaitingBarrier, PartitionCommand.superStepBarrierAck v => some v
  | PartitionPhase.computing, PartitionCommand.computeAck v _ => some v
  | _, _ => none

/-- A request of the parent worker: the initialisation, the load of a vertex, or
the start of a stage. Every other command is an ack of a vertex or message
traffic, and may arrive at any time. -/
def isParentRequest : PartitionCommand → Bool
  | PartitionCommand.initPartition _ => true
  | PartitionCommand.loadVertex _ => true
  | PartitionCommand.superStepBarrier => true
  | PartitionCommand.compute _ => true
  | _ => false

/-- The vertices whose ack of the stage is among the commands. -/
def partitionAckedIds (stage : PartitionPhase) (cmds : List PartitionCommand) : List String :=
  cmds.filterMap (partitionAckId stage)

/-- The request that starts the stage. -/
def isStageRequest : PartitionPhase → PartitionCommand → Bool
  | PartitionPhase.awaitingBarrier, PartitionCommand.superStepBarrier => true
  | PartitionPhase.computing, PartitionCommand.compute _ => true
  | _, _ => false

/-- The request of the stage as the vertices receive it. -/
def requestToVertices : PartitionCommand → PartitionMessage
  | PartitionCommand.compute n => PartitionMessage.compute n
  | _ => PartitionMessage.superStepBarrier

/-- The ack of the stage to the parent worker. -/
def stageReply (stage : PartitionPhase) (p : Nat) : PartitionEffect :=
  match stage with
  | PartitionPhase.computing => PartitionEffect.toParent (PartitionMessage.computePartitionAck p)
  | _ => PartitionEffect.toParent (PartitionMessage.superStepBarrierPartitionAck p)

/-- An effect that is an ack of a stage to the parent worker, whatever its id. -/
def isStageReply : PartitionEffect → Bool
  | PartitionEffect.toParent (PartitionMessage.superStepBarrierPartitionAck _) => true
  | PartitionEffect.toParent (PartitionMessage.computePartitionAck _) => true
  | _ => false

/-- The partition with id `p` after it has loaded the vertices `vids`. -/
def loadedPartition (p : Nat) (vids : List String) : PartitionActor :=
  (partitionRun NewPartitionActor (PartitionCommand.initPartition p :: loadCommands vids)).1

/-- The invariant of a stage that has not completed: the partition is in the
stage, the ack set is not empty and holds vertices of the partition, every vertex
that has not sent its ack is in it, and a vertex that has sent its ack and is
still in it is a vertex of the compute stage whose `ComputeAck` is held back
because a message it emitted is in flight. -/
def StageActive (stage : PartitionPhase) (s : PartitionActor) (acked : List String) : Prop :=
  s.phase = stage ∧ s.ackRecorder.waiting ≠ [] ∧ s.ackRecorder.waiting.Nodup ∧
  (∀ v ∈ s.ackRecorder.waiting, v ∈ s.vertices) ∧
  (∀ v ∈ s.vertices, v ∉ acked → v ∈ s.ackRecorder.waiting) ∧
  (∀ v ∈ s.ackRecorder.waiting, v ∈ acked →
    stage = PartitionPhase.computing ∧ v ∈ s.held ∧ hasInFlight s v = true) ∧
  (∀ v ∈ s.held, v ∈ acked)

/-- The invariant of a stage that has completed: the partition is idle again, the
ack set is empty and every vertex has sent its ack. -/
def StageDone (s : PartitionActor) (acked : List String) : Prop :=
  s.phase = PartitionPhase.idle ∧ s.ackRecorder.waiting = [] ∧ ∀ v ∈ s.vertices, v ∈ acked

/-! ## Invariants of the coordinator's runs -/

/-- The state name that goes with a behaviour. -/
def stateNameOf : Behavior → String
  | Behavior.setup => CoordinatorStateInit
  | Behavior.idle => CoordinatorStateIdle
  | Behavior.waitLoadPartitionVertices => CoordinatorStateLoadingVertices
  | Behavior.superstep => CoordinatorStateProcessing
  | Behavior.computing => CoordinatorStateProcessingComputing

/-- The invariant that the reported state name is that of the active behaviour. -/
def NameMatches (s : CoordinatorActor) : Prop :=
  s.stateName = stateNameOf s.behavior

/-- The invariant that a published snapshot holds vertex statistics: `getStats`
succeeds on it. -/
def SnapshotReadable (c : Collaborators) (s : CoordinatorActor) : Prop :=
  s.lastAggregatedValue.values = none ∨
    ∃ stats, getStats c s.lastAggregatedValue.values = Except.ok stats

/-- The five state names. -/
def normalStateNames : List String :=
  [CoordinatorStateInit, CoordinatorStateIdle, CoordinatorStateLoadingVertices,
   CoordinatorStateProcessing, CoordinatorStateProcessingComputing]

/-- The commands of a job on the example cluster up to the computation of step 0,
`w0` having acked it. -/
def exampleRejectedRun : List Command :=
  exampleSetupRun ++
    [Command.startSuperStep,
     Command.superStepBarrierWorkerAck exampleW0, Command.superStepBarrierWorkerAck exampleW1,
     Command.computeWorkerAck exampleW0 (statsMap 1 0)]

/-! ## The maximum-value example plugin (examples/maximum/plugin.go) -/

/-- A Go `interface{}` value (`plugin.Message`, `plugin.AggregatableValue`) as the
example plugin can tell it apart: a `uint32`, the nil interface, or a value of
another type. -/
inductive GoValue where
  | uint32 (n : Nat)
  | nil
  | other (description : String)
  deriving DecidableEq, Repr

/-- The errors the example plugin returns, and those a `ComputeContext` returns:
`unknownValue` is `fmt.Errorf("unknown value: v1=%#v, v2=%#v", v1, v2)`,
`emptySlice` is `errors.New("expects non empty slice")`, `unknownMessageType` is
`fmt.Errorf("unknown mesage type: %#v", m)`. -/
inductive PluginError where
  | unknownValue (v1 v2 : GoValue)
  | emptySlice
  | unknownMessageType (m : GoValue)
  | context (msg : String)
  deriving DecidableEq, Repr

/-- The outcome `ok` of the type assertion `v.(uint32)`. -/
def GoValue.isUint32 : GoValue → Bool
  | GoValue.uint32 _ => true
  | _ => false

/-- The constant `aggregatorName`. -/
def aggregatorName : String := "prerogel-maximum"

/-- The method `maxAggregator.Aggregate`. -/
def maxAggregator.Aggregate (v1 v2 : GoValue) : Except PluginError GoValue :=
  match v1, v2 with
  | GoValue.uint32 v1n, GoValue.uint32 v2n =>
    if v1n > v2n then Except.ok (GoValue.uint32 v1n) else Except.ok (GoValue.uint32 v2n)
  | _, _ => Except.error (PluginError.unknownValue v1 v2)

/-- The loop `for _, m := range messages` of `getMaxFromMessages`, `max` being the
variable of that name. -/
def getMaxLoop : List GoValue → Nat → Except PluginError Nat
  | [], max => Except.ok max
  | GoValue.uint32 mv :: rest, max => getMaxLoop rest (if mv > max then mv else max)
  | m :: _, _ => Except.error (PluginError.unknownMessageType m)

/-- The function `getMaxFromMessages`. -/
def getMaxFromMessages (messages : List GoValue) : Except PluginError Nat :=
  if messages.length = 0 then Except.error PluginError.emptySlice
  else getMaxLoop messages 0

/-- The function `combiner`. -/
def combiner (_destination : String) (messages : List GoValue) :
    Except PluginError (List GoValue) :=
  match getMaxFromMessages messages with
  | Except.error err => Except.error err
  | Except.ok max => Except.ok [GoValue.uint32 max]

/-- The struct `vert`. -/
structure vert where
  id : String
  value : Nat
  outgoingEdges : List String
  deriving DecidableEq, Repr

/-- A call of a method of `plugin.ComputeContext` that acts on the context. -/
inductive ContextCall where
  | voteToHalt
  | sendMessageTo (dest : String) (m : GoValue)
  | putAggregatable (aggregatorName : String) (v : GoValue)
  deriving DecidableEq, Repr

/-- The interface `plugin.ComputeContext` as `Compute` sees it: what `SuperStep()`
and `ReceivedMessages()` return, and the error `SendMessageTo` or `PutAggregatable`
returns, which may depend on the calls made before. -/
structure ComputeContext where
  superStep : Nat
  receivedMessages : List GoValue
  sendMessageTo : List ContextCall → String → GoValue → Option String
  putAggregatable : List ContextCall → String → GoValue → Option String

/-- What a run of `Compute` leaves: the vertex, the calls made on the context in
order, and the error returned. -/
structure ComputeResult where
  vertex : vert
  calls : List ContextCall
  error : Option PluginError
  deriving DecidableEq, Repr

/-- The statement `return ctx.PutAggregatable(aggregatorName, v.value)`. -/
def putAndReturn (ctx : ComputeContext) (v : vert) (calls : List ContextCall) : ComputeResult :=
  { vertex := v
    calls := calls ++ [ContextCall.putAggregatable aggregatorName (GoValue.uint32 v.value)]
    error := (ctx.putAggregatable calls aggregatorName (GoValue.uint32 v.value)).map
      PluginError.context }

/-- The loop `for _, edge := range v.outgoingEdges` of `Compute` followed by the
final `PutAggregatable`: a failed `SendMessageTo` ends `Compute` with its error. -/
def sendToEdges (ctx : ComputeContext) (v : vert) : List String → List ContextCall → ComputeResult
  | [], calls => putAndReturn ctx v calls
  | edge :: rest, calls =>
    match ctx.sendMessageTo calls edge (GoValue.uint32 v.value) with
    | some err =>
      { vertex := v
        calls := calls ++ [ContextCall.sendMessageTo edge (GoValue.uint32 v.value)]
        error := some (PluginError.context err) }
    | none =>
      sendToEdges ctx v rest
        (calls ++ [ContextCall.sendMessageTo edge (GoValue.uint32 v.value)])

/-- The method `vert.Compute`. -/
def vert.Compute (v : vert) (ctx : ComputeContext) : ComputeResult :=
  if ctx.superStep > 0 then
    if ctx.receivedMessages.length = 0 then
      putAndReturn ctx v [ContextCall.voteToHalt]
    else
      match getMaxFromMessages ctx.receivedMessages with
      | Except.error err => { vertex := v, calls := [], error := some err }
      | Except.ok max =>
        if max ≤ v.value then putAndReturn ctx v [ContextCall.voteToHalt]
        else
          let v1 := { v with value := max }
          sendToEdges ctx v1 v1.outgoingEdges []
  else sendToEdges ctx v v.outgoingEdges []

/-- A context whose `SendMessageTo` and `PutAggregatable` never fail. -/
def exampleContext (superStep : Nat) (receivedMessages : List GoValue) : ComputeContext :=
  { superStep := superStep
    receivedMessages := receivedMessages
    sendMessageTo := fun _ _ _ => none
    putAggregatable := fun _ _ _ => none }

/-! ## The vertex of the maximum example under the superstep semantics -/

/-- Whether `Compute` called `VoteToHalt`. -/
def ComputeResult.votedToHalt (r : ComputeResult) : Bool :=
  r.calls.any (fun call => decide (call = ContextCall.voteToHalt))

/-- The calls of `SendMessageTo` that `Compute` made, in order: destination and
message. -/
def ComputeResult.sent (r : ComputeResult) : List (String × GoValue) :=
  r.calls.filterMap (fun call =>
    match call with
    | ContextCall.sendMessageTo dest m => some (dest, m)
    | _ => none)

/-- The calls of `PutAggregatable` that `Compute` made, in order: aggregator name
and value. -/
def ComputeResult.published (r : ComputeResult) : List (String × GoValue) :=
  r.calls.filterMap (fun call =>
    match call with
    | ContextCall.putAggregatable name v => some (name, v)
    | _ => none)

/-- The method `vert.GetValueAsString`: `strconv.FormatUint(uint64(v.value), 10)`. -/
def vert.GetValueAsString (v : vert) : String := toString v.value

/-- A context whose `SendMessageTo` always fails. -/
def exampleFailingContext (superStep : Nat) (receivedMessages : List GoValue) :
    ComputeContext :=
  { superStep := superStep
    receivedMessages := receivedMessages
    sendMessageTo := fun _ _ _ => some "failed to send"
    putAggregatable := fun _ _ _ => none }

/-- Modelled from the spec: a vertex as the engine holds it, "`{ id, userState,
halted, inbox, aggregatorDeltas }`". `inbox` holds the current messages, those
sent to the vertex in the previous step; `published` is the value the vertex last
passed to `PutAggregatable`. -/
structure BspVertex where
  vertex : vert
  halted : Bool
  inbox : List GoValue
  published : Option GoValue
  deriving DecidableEq, Repr

/-- Modelled from the spec: the state of a job between two supersteps: the number
of the next superstep, the vertices, and the value of the maximum aggregator
reduced over the last superstep. -/
structure BspState where
  superStep : Nat
  vertices : List BspVertex
  aggregated : Option GoValue
  deriving DecidableEq, Repr

/-- Modelled from the spec: what one vertex does in a superstep. "If halted and
current messages is empty", the vertex is skipped, "contributes only the
aggregator value it previously published" and sends nothing; otherwise the plugin's
`Compute` runs with `receivedMessages` = the current messages, `voteToHalt()` sets
the halted flag, and the messages of `SendMessageTo` are handed on. The result is
the vertex afterwards (its inbox emptied), whether it counts as active, and the
messages it sent. -/
def bspCompute (superStep : Nat) (b : BspVertex) :
    Except PluginError (BspVertex × Bool × List (String × GoValue)) :=
  if b.halted ∧ b.inbox = [] then Except.ok (b, false, [])
  else
    let r := b.vertex.Compute (exampleContext superStep b.inbox)
    match r.error with
    | some err => Except.error err
    | none =>
      Except.ok
        ({ vertex := r.vertex
           halted := r.votedToHalt
           inbox := []
           published :=
             match r.published.getLast? with
             | some put => some put.2
             | none => b.published },
          !r.votedToHalt, r.sent)

/-- Modelled from the spec: all vertices compute, in the order of the list. -/
def bspComputeAll (superStep : Nat) :
    List BspVertex → Except PluginError (List BspVertex × Nat × List (String × GoValue))
  | [] => Except.ok ([], 0, [])
  | b :: rest =>
    match bspCompute superStep b with
    | Except.error err => Except.error err
    | Except.ok (b1, active, sent) =>
      match bspComputeAll superStep rest with
      | Except.error err => Except.error err
      | Except.ok (rest1, nActive, sentRest) =>
        Except.ok (b1 :: rest1, (if active then 1 else 0) + nActive, sent ++ sentRest)

/-- Modelled from the spec: the reduction of the published values by the
aggregator, "where absence is the identity". -/
def bspAggregate : List BspVertex → Option GoValue → Except PluginError (Option GoValue)
  | [], acc => Except.ok acc
  | b :: rest, acc =>
    match b.published, acc with
    | none, _ => bspAggregate rest acc
    | some v, none => bspAggregate rest (some v)
    | some v, some a =>
      match maxAggregator.Aggregate a v with
      | Except.error err => Except.error err
      | Except.ok a1 => bspAggregate rest (some a1)

/-- Modelled from the spec: one superstep. The messages sent in this step are the
current messages of their destinations in the next step ("BSP visibility"), the
result tells whether the job has ended: "zero active vertices and zero messages
sent". -/
def bspStep (s : BspState) : Except PluginError (BspState × Bool) :=
  match bspComputeAll s.superStep s.vertices with
  | Except.error err => Except.error err
  | Except.ok (vertices, nActive, sent) =>
    match bspAggregate vertices none with
    | Except.error err => Except.error err
    | Except.ok aggregated =>
      let inboxOf := fun (id : String) =>
        (sent.filter (fun m => decide (m.1 = id))).map (fun m => m.2)
      let delivered := vertices.map (fun b => { b with inbox := inboxOf b.vertex.id })
      if nActive = 0 ∧ sent.length = 0 then
        Except.ok ({ superStep := s.superStep, vertices := delivered,
                     aggregated := aggregated }, true)
      else
        Except.ok ({ superStep := s.superStep + 1, vertices := delivered,
                     aggregated := aggregated }, false)

/-- Modelled from the spec: supersteps are run until one ends the job; `none` when
the job has not ended after `fuel` supersteps. -/
def bspRun : Nat → BspState → Option (Except PluginError BspState)
  | 0, _ => none
  | fuel + 1, s =>
    match bspStep s with
    | Except.error err => some (Except.error err)
    | Except.ok (s1, true) => some (Except.ok s1)
    | Except.ok (s1, false) => bspRun fuel s1

/-- A job that starts with the given vertices. -/
def bspInit (vertices : List vert) : BspState :=
  { superStep := 0
    vertices := vertices.map (fun v =>
      { vertex := v, halted := false, inbox := [], published := none })
    aggregated := none }

/-- The graph `A→B, B→C, C→D, A→C` with the values `A=5, B=2, C=9, D=1`. -/
def exampleGraph : List vert :=
  [⟨"A", 5, ["B", "C"]⟩, ⟨"B", 2, ["C"]⟩, ⟨"C", 9, ["D"]⟩, ⟨"D", 1, []⟩]

/-- The transitions between the behaviours of the coordinator. -/
def coordinatorTransitions : List (Behavior × Behavior) :=
  [(Behavior.setup, Behavior.idle),
   (Behavior.idle, Behavior.waitLoadPartitionVertices),
   (Behavior.waitLoadPartitionVertices, Behavior.idle),
   (Behavior.idle, Behavior.superstep),
   (Behavior.superstep, Behavior.computing),
   (Behavior.computing, Behavior.superstep),
   (Behavior.computing, Behavior.idle)]

/-- The run of `Compute` on the vertex `v` in the context `ctx` when the received
messages are the `uint32` values `ns`. -/
def computeOn (v : vert) (ctx : ComputeContext) (ns : List Nat) : ComputeResult :=
  v.Compute { ctx with receivedMessages := ns.map GoValue.uint32 }

/-! ## The message of the shortest-path example (examples/sssp/proto/sssp.pb.go) -/

/-- The struct `SSSPMessage`. A Go string is its sequence of bytes; `Value` is a
`uint32`. -/
structure SSSPMessage where
  FromVertexId : List Nat
  Value : Nat
  deriving DecidableEq, Repr

/-- The variable `ErrInvalidLengthSssp`. -/
def ErrInvalidLengthSssp : String := "proto: negative length found during unmarshaling"

/-- The variable `ErrIntOverflowSssp`. -/
def ErrIntOverflowSssp : String := "proto: integer overflow"

/-- The variable `io.ErrUnexpectedEOF`. -/
def ErrUnexpectedEOF : String := "unexpected EOF"

/-- The conversion `int32(x)` of a `uint64`: the low 32 bits in two's complement. -/
def toGoInt32 (x : Nat) : Int :=
  if x % 2 ^ 32 < 2 ^ 31 then ((x % 2 ^ 32 : Nat) : Int)
  else ((x % 2 ^ 32 : Nat) : Int) - ((2 ^ 32 : Nat) : Int)

/-- The value a (64-bit) `int` holds after an addition whose exact result is `x`. -/
def wrapInt (x : Int) : Int := toGoInt (x % (U64 : Int)).toNat

/-- The argument `that interface{}` of `Equal`: the nil interface, a
`*SSSPMessage` (possibly a nil pointer), an `SSSPMessage`, or a value of another
type. -/
inductive EqualArgument where
  | nilInterface
  | pointer (that : Option SSSPMessage)
  | value (that : SSSPMessage)
  | otherType
  deriving DecidableEq, Repr

/-- The method `SSSPMessage.Equal`; `this` is the receiver, `none` the nil
pointer. -/
def SSSPMessage.Equal (this : Option SSSPMessage) (that : EqualArgument) : Bool :=
  match that with
  | EqualArgument.nilInterface => this.isNone
  | EqualArgument.otherType => false
  | EqualArgument.pointer none => this.isNone
  | EqualArgument.pointer (some that1) | EqualArgument.value that1 =>
    match this with
    | none => false
    | some m =>
      if m.FromVertexId ≠ that1.FromVertexId then false
      else if m.Value ≠ that1.Value then false
      else true

/-- The loop of `sovSssp`: `for { n++; x >>= 7; if x == 0 { break } }`. -/
def sovLoop (x n : Nat) : Nat :=
  if h : x >>> 7 = 0 then n + 1 else sovLoop (x >>> 7) (n + 1)
termination_by x
decreasing_by
  simp only [Nat.shiftRight_eq_div_pow] at h ⊢
  exact Nat.div_lt_self (Nat.pos_of_ne_zero (fun h0 => h (by simp [h0]))) (by decide)

/-- The function `sovSssp`. -/
def sovSssp (x : Nat) : Nat := sovLoop x 0

/-- The method `SSSPMessage.Size`, for a receiver that is not nil. The size is kept
as a natural number: it is the `int` that `Size` returns as long as it is below
`2 ^ 63`. -/
def SSSPMessage.Size (m : SSSPMessage) : Nat :=
  let l := m.FromVertexId.length
  let n := if l > 0 then 1 + l + sovSssp l else 0
  if m.Value ≠ 0 then n + (1 + sovSssp m.Value) else n

/-- The assignment `dAtA[i] = b`: it panics when `i` is out of range. -/
def writeByte (dAtA : List Nat) (i b : Nat) : GoResult (List Nat) :=
  if i < dAtA.length then GoResult.ok (dAtA.set i b) else GoResult.panicked

/-- The function `encodeVarintSssp`; the result is the slice as written and the
offset returned. -/
def encodeVarintSssp (dAtA : List Nat) (offset v : Nat) : GoResult (List Nat × Nat) :=
  if _h : v ≥ 1 <<< 7 then
    -- dAtA[offset] = uint8(v&0x7f | 0x80); v >>= 7; offset++
    match writeByte dAtA offset (((v &&& 0x7f) ||| 0x80) % 256) with
    | GoResult.ok written => encodeVarintSssp written (offset + 1) (v >>> 7)
    | GoResult.error err => GoResult.error err
    | GoResult.panicked => GoResult.panicked
  else
    -- dAtA[offset] = uint8(v); return offset + 1
    match writeByte dAtA offset (v % 256) with
    | GoResult.ok written => GoResult.ok (written, offset + 1)
    | GoResult.error err => GoResult.error err
    | GoResult.panicked => GoResult.panicked
termination_by v
decreasing_by
  have hv : 0 < v := by
    rcases Nat.eq_zero_or_pos v with h0 | h0
    · subst h0; exact absurd _h (by decide)
    · exact h0
  simp only [Nat.shiftRight_eq_div_pow]
  exact Nat.div_lt_self hv (by decide)

/-- The call `copy(dAtA[i:], src)`: the slice as written and the number of bytes
copied. `dAtA[i:]` panics when `i` exceeds the length. -/
def copyBytes (dAtA : List Nat) (i : Nat) (src : List Nat) : GoResult (List Nat × Nat) :=
  if i > dAtA.length then GoResult.panicked
  else
    let n := min (dAtA.length - i) src.length
    GoResult.ok (dAtA.take i ++ src.take n ++ dAtA.drop (i + n), n)

/-- The method `SSSPMessage.MarshalTo`, for a receiver that is not nil; the result
is the slice as written and the `int` returned. -/
def SSSPMessage.MarshalTo (m : SSSPMessage) (dAtA : List Nat) : GoResult (List Nat × Nat) :=
  let afterId : GoResult (List Nat × Nat) :=
    if m.FromVertexId.length > 0 then
      match writeByte dAtA 0 0xa with
      | GoResult.ok d1 =>
        match encodeVarintSssp d1 1 m.FromVertexId.length with
        | GoResult.ok (d2, i) =>
          match copyBytes d2 i m.FromVertexId with
          | GoResult.ok (d3, n) => GoResult.ok (d3, i + n)
          | GoResult.error err => GoResult.error err
          | GoResult.panicked => GoResult.panicked
        | GoResult.error err => GoResult.error err
        | GoResult.panicked => GoResult.panicked
      | GoResult.error err => GoResult.error err
      | GoResult.panicked => GoResult.panicked
    else GoResult.ok (dAtA, 0)
  match afterId with
  | GoResult.ok (d, i) =>
    if m.Value ≠ 0 then
      match writeByte d i 0x10 with
      | GoResult.ok d4 => encodeVarintSssp d4 (i + 1) m.Value
      | GoResult.error err => GoResult.error err
      | GoResult.panicked => GoResult.panicked
    else GoResult.ok (d, i)
  | GoResult.error err => GoResult.error err
  | GoResult.panicked => GoResult.panicked

/-- The method `SSSPMessage.Marshal`, for a receiver that is not nil. -/
def SSSPMessage.Marshal (m : SSSPMessage) : GoResult (List Nat) :=
  let size := m.Size
  let dAtA := List.replicate size 0
  match m.MarshalTo dAtA with
  | GoResult.ok (written, n) =>
    -- dAtA[:n]
    if n ≤ written.length then GoResult.ok (written.take n) else GoResult.panicked
  | GoResult.error err => GoResult.error err
  | GoResult.panicked => GoResult.panicked

/-- The loop `for shift := uint(0); ; shift += 7` that reads a varint into an
unsigned variable of `width` bits, starting at `iNdEx` with the variable holding
`acc`. The first argument counts the iterations left before `shift >= 64`: with
`n + 1` left, `shift` is `7 * (9 - n)`; with none left the loop returns
`ErrIntOverflowSssp`. The result is the variable and `iNdEx` after the loop. -/
def readVarint (width : Nat) (dAtA : List Nat) : Nat → Nat → Nat → GoResult (Nat × Nat)
  | 0, _, _ => GoResult.error ErrIntOverflowSssp
  | n + 1, iNdEx, acc =>
    let shift := 7 * (9 - n)
    if iNdEx ≥ dAtA.length then GoResult.error ErrUnexpectedEOF
    else
      match dAtA[iNdEx]? with
      | none => GoResult.panicked
      | some b =>
        let acc1 := acc ||| (((b &&& 0x7F) <<< shift) % 2 ^ width)
        if b < 0x80 then GoResult.ok (acc1, iNdEx + 1)
        else readVarint width dAtA n (iNdEx + 1) acc1

/-- The loop of case 0 of `skipSssp`, which skips a varint; the first argument
counts the iterations left before `shift >= 64`. -/
def skipVarint (dAtA : List Nat) : Nat → Nat → GoResult Nat
  | 0, _ => GoResult.error ErrIntOverflowSssp
  | n + 1, iNdEx =>
    if iNdEx ≥ dAtA.length then GoResult.error ErrUnexpectedEOF
    else
      -- iNdEx++; if dAtA[iNdEx-1] < 0x80 { break }
      match dAtA[iNdEx + 1 - 1]? with
      | none => GoResult.panicked
      | some b => if b < 0x80 then GoResult.ok (iNdEx + 1) else skipVarint dAtA n (iNdEx + 1)

/-- A slice expression `dAtA[lo:hi]`: it panics unless `lo ≤ hi ≤ len(dAtA)`
(the capacity of the slices at hand is their length). -/
def sliceBytes (dAtA : List Nat) (lo hi : Nat) : GoResult (List Nat) :=
  if lo ≤ hi ∧ hi ≤ dAtA.length then GoResult.ok ((dAtA.drop lo).take (hi - lo))
  else GoResult.panicked

/-- A call of `skipSssp`, kept for the statements about its call sites: whether
`Unmarshal` made it (or else `skipSssp` itself), the length of the slice the
caller works on, and the slice passed. -/
structure SkipCall where
  fromUnmarshal : Bool
  callerLength : Nat
  argument : List Nat
  deriving DecidableEq, Repr

mutual

/-- The function `skipSssp`. The first argument bounds the depth of calls and
loop iterations, `none` tells that the bound was reached; the second component of
the result lists the calls of `skipSssp` made on the way. The body of
`for iNdEx < l` returns in every case, so it runs at most once, with `iNdEx = 0`. -/
def skipSssp : Nat → List Nat → Option (GoResult Int × List SkipCall)
  | 0, _ => none
  | fuel + 1, dAtA =>
    if ¬ (0 < dAtA.length) then some (GoResult.panicked, [])
    else
      match readVarint 64 dAtA 10 0 0 with
      | GoResult.error err => some (GoResult.error err, [])
      | GoResult.panicked => some (GoResult.panicked, [])
      | GoResult.ok (wire, iNdEx) =>
        let wireType := wire &&& 0x7
        if wireType = 0 then
          match skipVarint dAtA 10 iNdEx with
          | GoResult.error err => some (GoResult.error err, [])
          | GoResult.panicked => some (GoResult.panicked, [])
          | GoResult.ok iNdEx1 => some (GoResult.ok (iNdEx1 : Int), [])
        else if wireType = 1 then some (GoResult.ok (wrapInt ((iNdEx : Int) + 8)), [])
        else if wireType = 2 then
          match readVarint 64 dAtA 10 iNdEx 0 with
          | GoResult.error err => some (GoResult.error err, [])
          | GoResult.panicked => some (GoResult.panicked, [])
          | GoResult.ok (lengthBits, iNdEx1) =>
            let length := toGoInt lengthBits
            if length < 0 then some (GoResult.error ErrInvalidLengthSssp, [])
            else
              let iNdEx2 := wrapInt ((iNdEx1 : Int) + length)
              if iNdEx2 < 0 then some (GoResult.error ErrInvalidLengthSssp, [])
              else some (GoResult.ok iNdEx2, [])
        else if wireType = 3 then skipGroup fuel dAtA iNdEx
        else if wireType = 4 then some (GoResult.ok (iNdEx : Int), [])
        else if wireType = 5 then some (GoResult.ok (wrapInt ((iNdEx : Int) + 4)), [])
        else some (GoResult.error ("proto: illegal wireType " ++ toString wireType), [])

/-- The loop `for { ... }` of case 3 of `skipSssp`, entered with `iNdEx`. -/
def skipGroup : Nat → List Nat → Nat → Option (GoResult Int × List SkipCall)
  | 0, _, _ => none
  | fuel + 1, dAtA, iNdEx =>
    let start := iNdEx
    match readVarint 64 dAtA 10 iNdEx 0 with
    | GoResult.error err => some (GoResult.error err, [])
    | GoResult.panicked => some (GoResult.panicked, [])
    | GoResult.ok (innerWire, iNdEx1) =>
      let innerWireType := innerWire &&& 0x7
      if innerWireType = 4 then some (GoResult.ok (iNdEx1 : Int), [])
      else
        match sliceBytes dAtA start dAtA.length with
        | GoResult.error err => some (GoResult.error err, [])
        | GoResult.panicked => some (GoResult.panicked, [])
        | GoResult.ok inner =>
          let call : SkipCall :=
            { fromUnmarshal := false, callerLength := dAtA.length, argument := inner }
          match skipSssp fuel inner with
          | none => none
          | some (GoResult.error err, calls) => some (GoResult.error err, call :: calls)
          | some (GoResult.panicked, calls) => some (GoResult.panicked, call :: calls)
          | some (GoResult.ok next, calls) =>
            let iNdEx2 := wrapInt ((start : Int) + next)
            if iNdEx2 < 0 then some (GoResult.error ErrInvalidLengthSssp, call :: calls)
            else
              match skipGroup fuel dAtA iNdEx2.toNat with
              | none => none
              | some (r, calls2) => some (r, call :: calls ++ calls2)

end

/-- The loop `for iNdEx < l` of `Unmarshal` and the statements after it, entered
with `iNdEx`. The first argument bounds the iterations, `none` tells that the
bound was reached; the second component of the result lists the calls of
`skipSssp`. On an error the message is left out of the result. -/
def unmarshalLoop : Nat → SSSPMessage → List Nat → Nat →
    Option (GoResult SSSPMessage × List SkipCall)
  | 0, _, _, _ => none
  | fuel + 1, m, dAtA, iNdEx =>
    let l := dAtA.length
    if ¬ (iNdEx < l) then
      if iNdEx > l then some (GoResult.error ErrUnexpectedEOF, [])
      else some (GoResult.ok m, [])
    else
      let preIndex := iNdEx
      match readVarint 64 dAtA 10 iNdEx 0 with
      | GoResult.error err => some (GoResult.error err, [])
      | GoResult.panicked => some (GoResult.panicked, [])
      | GoResult.ok (wire, iNdEx1) =>
        let fieldNum := toGoInt32 (wire >>> 3)
        let wireType := wire &&& 0x7
        if wireType = 4 then
          some (GoResult.error "proto: SSSPMessage: wiretype end group for non-group", [])
        else if fieldNum ≤ 0 then
          some (GoResult.error ("proto: SSSPMessage: illegal tag " ++ toString fieldNum ++
            " (wire type " ++ toString wire ++ ")"), [])
        else if fieldNum = 1 then
          if wireType ≠ 2 then
            some (GoResult.error ("proto: wrong wireType = " ++ toString wireType ++
              " for field FromVertexId"), [])
          else
            match readVarint 64 dAtA 10 iNdEx1 0 with
            | GoResult.error err => some (GoResult.error err, [])
            | GoResult.panicked => some (GoResult.panicked, [])
            | GoResult.ok (stringLen, iNdEx2) =>
              let intStringLen := toGoInt stringLen
              if intStringLen < 0 then some (GoResult.error ErrInvalidLengthSssp, [])
              else
                let postIndex := wrapInt ((iNdEx2 : Int) + intStringLen)
                if postIndex < 0 then some (GoResult.error ErrInvalidLengthSssp, [])
                else if postIndex > (l : Int) then some (GoResult.error ErrUnexpectedEOF, [])
                else
                  match sliceBytes dAtA iNdEx2 postIndex.toNat with
                  | GoResult.error err => some (GoResult.error err, [])
                  | GoResult.panicked => some (GoResult.panicked, [])
                  | GoResult.ok bytes =>
                    unmarshalLoop fuel { m with FromVertexId := bytes } dAtA postIndex.toNat
        else if fieldNum = 2 then
          if wireType ≠ 0 then
            some (GoResult.error ("proto: wrong wireType = " ++ toString wireType ++
              " for field Value"), [])
          else
            match readVarint 32 dAtA 10 iNdEx1 0 with
            | GoResult.error err => some (GoResult.error err, [])
            | GoResult.panicked => some (GoResult.panicked, [])
            | GoResult.ok (value, iNdEx2) => unmarshalLoop fuel { m with Value := value } dAtA iNdEx2
        else
          -- iNdEx = preIndex; skippy, err := skipSssp(dAtA[iNdEx:])
          match sliceBytes dAtA preIndex l with
          | GoResult.error err => some (GoResult.error err, [])
          | GoResult.panicked => some (GoResult.panicked, [])
          | GoResult.ok rest =>
            let call : SkipCall := { fromUnmarshal := true, callerLength := l, argument := rest }
            match skipSssp fuel rest with
            | none => none
            | some (GoResult.error err, calls) => some (GoResult.error err, call :: calls)
            | some (GoResult.panicked, calls) => some (GoResult.panicked, call :: calls)
            | some (GoResult.ok skippy, calls) =>
              if skippy < 0 then some (GoResult.error ErrInvalidLengthSssp, call :: calls)
              else if wrapInt ((preIndex : Int) + skippy) < 0 then
                some (GoResult.error ErrInvalidLengthSssp, call :: calls)
              else if wrapInt ((preIndex : Int) + skippy) > (l : Int) then
                some (GoResult.error ErrUnexpectedEOF, call :: calls)
              else
                match unmarshalLoop fuel m dAtA (wrapInt ((preIndex : Int) + skippy)).toNat with
                | none => none
                | some (r, calls2) => some (r, call :: calls ++ calls2)

/-- The method `SSSPMessage.Unmarshal`, for a receiver that is not nil: `m` is the
message before the call, the result the message after a call that returns nil. -/
def SSSPMessage.Unmarshal (fuel : Nat) (m : SSSPMessage) (dAtA : List Nat) :
    Option (GoResult SSSPMessage × List SkipCall) :=
  unmarshalLoop fuel m dAtA 0

/-- The varint of a number, least significant group of seven bits first, every
byte but the last with the high bit set. -/
def varintBytes (v : Nat) : List Nat :=
  if h : v ≥ 128 then (v % 128 + 128) :: varintBytes (v / 128) else [v]
termination_by v
decreasing_by exact Nat.div_lt_self (by omega) (by decide)

/-- The wire encoding of a message: field 1 unless the string is empty, then
field 2 unless the value is 0. -/
def wireBytes (m : SSSPMessage) : List Nat :=
  (if m.FromVertexId.length > 0 then
    [0xa] ++ varintBytes m.FromVertexId.length ++ m.FromVertexId else []) ++
  (if m.Value ≠ 0 then [0x10] ++ varintBytes m.Value else [])

/-- The values `skipSssp` returns with a nil error on a slice of length `l`: a
positive `int`, or a negative one that an addition of at most 8 to an index made
by wrapping around. -/
def skipResultInRange (n : Int) (l : Nat) : Prop :=
  (1 ≤ n ∧ n < (IntMax1 : Int)) ∨
    (n < 0 ∧ -(IntMax1 : Int) ≤ n ∧ n + (U64 : Int) ≤ (l : Int) + 8)

/-- Every call is made by `skipSssp` itself, on a non-empty slice that is shorter
than the slice of the caller. -/
def skipCallsShorter (calls : List SkipCall) : Prop :=
  ∀ call ∈ calls, call.fromUnmarshal = false ∧ call.argument ≠ [] ∧
    call.argument.length < call.callerLength

/-- Every call is made on a non-empty slice that is no longer than the slice of the
caller, which is the input of length `l` when the caller is `Unmarshal`, and shorter
when the caller is `skipSssp`. -/
def skipCallsNonEmpty (l : Nat) (calls : List SkipCall) : Prop :=
  ∀ call ∈ calls, call.argument ≠ [] ∧ call.argument.length ≤ call.callerLength ∧
    (call.fromUnmarshal = true → call.callerLength = l) ∧
    (call.fromUnmarshal = false → call.argument.length < call.callerLength)

/-! # Theorems -/

/-! ### Arithmetic of one loop iteration -/

theorem toGoInt_of_lt {x : Nat} (h : x < IntMax1) : toGoInt x = (x : Int) := by
  have hx : x % U64 = x := Nat.mod_eq_of_lt (by simp only [IntMax1, U64] at *; omega)
  simp [toGoInt, hx, h]

theorem toGoInt_neg_of_ge {x : Nat} (h1 : IntMax1 ≤ x) (h2 : x < U64) : toGoInt x < 0 := by
  have hx : x % U64 = x := Nat.mod_eq_of_lt h2
  have h3 : ¬ x < IntMax1 := by omega
  simp only [toGoInt, hx, h3, if_false]
  have : (x : Int) < (U64 : Int) := by exact_mod_cast h2
  omega

/-- The test of `make` on a length converted from a `uint64`, for elements of at
least two bytes: only the size in bytes decides. -/
theorem makeslicePanics_toGoInt (M size n : Nat) (hM : M < U64) (hn : n < U64)
    (hsize : 2 ≤ size) :
    makeslicePanics M size (toGoInt n) = decide (M < size * n) := by
  by_cases h : n < IntMax1
  · rw [toGoInt_of_lt h]
    have h0 : ¬ ((n : Int) < 0) := by omega
    by_cases h1 : M < size * n
    · simp [makeslicePanics, h1]
    · have h2 : ¬ U64 ≤ size * n := by omega
      simp [makeslicePanics, h0, h1, h2]
  · have hneg := toGoInt_neg_of_ge (by omega) hn
    have h1 : M < size * n := by
      have h2 : 2 * n ≤ size * n := Nat.mul_le_mul_right n hsize
      simp only [IntMax1, U64] at *
      omega
    simp [makeslicePanics, hneg, h1]

/-- The test of `make` on a length that is not negative. -/
theorem makeslicePanics_natCast (M size n : Nat) (hM : M < U64) :
    makeslicePanics M size (n : Int) = decide (M < size * n) := by
  have h0 : ¬ ((n : Int) < 0) := by omega
  by_cases h1 : M < size * n
  · simp [makeslicePanics, h1]
  · have h2 : ¬ U64 ≤ size * n := by omega
    simp [makeslicePanics, h0, h1, h2]

/-- The slice length computed in one iteration, in the regime the loop stays in:
the block of `max + b` ids fits below `P`, and the iteration is not the
degenerate one that starts at `0` with an empty block. -/
theorem iteration_len (max P part surplus : Nat) (hP : P < U64)
    (hfit : part + (max + (if surplus > 0 then 1 else 0)) ≤ P)
    (hpos : 1 ≤ part ∨ 1 ≤ max + (if surplus > 0 then 1 else 0)) :
    u64add (u64sub
      (if (if surplus > 0 then u64add (u64sub (u64add part max) 1) 1
            else u64sub (u64add part max) 1) > P
        then u64sub P 1
        else (if surplus > 0 then u64add (u64sub (u64add part max) 1) 1
            else u64sub (u64add part max) 1)) part) 1
      = max + (if surplus > 0 then 1 else 0) := by
  simp only [u64add, u64sub, U64] at *
  by_cases hs : surplus > 0
  · simp only [hs, if_true] at *
    have e1 : ((part + max) % 2 ^ 64 + (2 ^ 64 - 1 % 2 ^ 64)) % 2 ^ 64 + 1 = part + max
        ∨ (((part + max) % 2 ^ 64 + (2 ^ 64 - 1 % 2 ^ 64)) % 2 ^ 64 + 1 = 2 ^ 64
            ∧ part + max = 0) := by omega
    rcases e1 with e1 | ⟨e1, e0⟩
    · have e2 : (((part + max) % 2 ^ 64 + (2 ^ 64 - 1 % 2 ^ 64)) % 2 ^ 64 + 1) % 2 ^ 64
          = part + max := by omega
      rw [e2]
      have e3 : ¬ part + max > P := by omega
      simp only [e3, if_false]
      omega
    · have e2 : (((part + max) % 2 ^ 64 + (2 ^ 64 - 1 % 2 ^ 64)) % 2 ^ 64 + 1) % 2 ^ 64
          = 0 := by omega
      rw [e2]
      have e3 : ¬ 0 > P := by omega
      simp only [e3, if_false]
      omega
  · simp only [hs, if_false] at *
    have hpm : 1 ≤ part + max := by omega
    have e2 : ((part + max) % 2 ^ 64 + (2 ^ 64 - 1 % 2 ^ 64)) % 2 ^ 64 = part + max - 1 := by
      omega
    rw [e2]
    have e3 : ¬ part + max - 1 > P := by omega
    simp only [e3, if_false]
    omega

theorem map_u64add_range (part len P : Nat) (hP : P < U64) (hfit : part + len ≤ P) :
    (List.range len).map (fun j => u64add part j) = List.range' part len := by
  rw [List.range'_eq_map_range]
  apply List.map_congr_left
  intro j hj
  have hj2 : j < len := List.mem_range.mp hj
  simp only [u64add]
  exact Nat.mod_eq_of_lt (by omega)

/-! ### The loop computes the closed form -/

/-- One iteration in the regime of `iteration_len`, when `make` can allocate the
list. -/
theorem assignLoop_succ (M max P n part surplus : Nat) (hM : M < U64) (hP : P < U64)
    (hfit : part + (max + (if surplus > 0 then 1 else 0)) ≤ P)
    (hpos : 1 ≤ part ∨ 1 ≤ max + (if surplus > 0 then 1 else 0))
    (hint : 8 * (max + (if surplus > 0 then 1 else 0)) ≤ M) :
    assignLoop M max P (n + 1) part surplus =
      match assignLoop M max P n (part + (max + (if surplus > 0 then 1 else 0)))
          (surplus - (if surplus > 0 then 1 else 0)) with
      | none => none
      | some rest => some (List.range' part (max + (if surplus > 0 then 1 else 0)) :: rest) := by
  have hlen := iteration_len max P part surplus hP hfit hpos
  have hs : (if surplus > 0 then surplus - 1 else surplus)
      = surplus - (if surplus > 0 then 1 else 0) := by
    split <;> omega
  have hlt : max + (if surplus > 0 then 1 else 0) < IntMax1 := by
    simp only [IntMax1, U64] at *
    omega
  have hmk : makeslicePanics M 8 (toGoInt (max + (if surplus > 0 then 1 else 0))) = false := by
    rw [makeslicePanics_toGoInt M 8 _ hM (by omega) (by omega)]
    simpa using hint
  simp only [assignLoop, hlen, hmk, hs]
  simp only [toGoInt_of_lt hlt, Bool.false_eq_true, if_false, Int.toNat_ofNat,
    List.length_map, List.length_range]
  rw [map_u64add_range part _ P hP hfit]
  have hadd : u64add part (max + (if surplus > 0 then 1 else 0))
      = part + (max + (if surplus > 0 then 1 else 0)) := by
    simp only [u64add]
    exact Nat.mod_eq_of_lt (by omega)
  rw [hadd]

/-- One iteration whose list `make` cannot allocate panics. -/
theorem assignLoop_succ_panics (M max P n part surplus : Nat) (hM : M < U64) (hP : P < U64)
    (hfit : part + (max + (if surplus > 0 then 1 else 0)) ≤ P)
    (hpos : 1 ≤ part ∨ 1 ≤ max + (if surplus > 0 then 1 else 0))
    (hint : M < 8 * (max + (if surplus > 0 then 1 else 0))) :
    assignLoop M max P (n + 1) part surplus = none := by
  have hlen := iteration_len max P part surplus hP hfit hpos
  have hmk : makeslicePanics M 8 (toGoInt (max + (if surplus > 0 then 1 else 0))) = true := by
    rw [makeslicePanics_toGoInt M 8 _ hM (by omega) (by omega)]
    simpa using hint
  simp only [assignLoop, hlen, hmk, if_true]

/-- Loop invariant: with `n` workers left, the ids from `part` on are exactly
what remains to be given out (`part + n * max + surplus = P`), and the surplus
does not exceed the number of workers left. Under it the loop returns the
closed form. -/
theorem assignLoop_eq_blocks (M max P : Nat) (hM : M < U64) (hP : P < U64) :
    ∀ (n part surplus : Nat), part + n * max + surplus = P → surplus ≤ n →
      8 * (max + (if surplus > 0 then 1 else 0)) ≤ M →
      (1 ≤ part ∨ 1 ≤ max + (if surplus > 0 then 1 else 0) ∨ n = 0) →
      assignLoop M max P n part surplus = some (blocks max n part surplus) := by
  intro n
  induction n with
  | zero => intro part surplus _ _ _ _; simp [assignLoop, blocks]
  | succ n ih =>
    intro part surplus hinv hsur hint hpos
    have hmul : (n + 1) * max = n * max + max := by ring
    have hb : (surplus > 0 ∧ (if surplus > 0 then 1 else 0) = 1)
        ∨ (surplus = 0 ∧ (if surplus > 0 then 1 else 0) = 0) := by
      by_cases hs : surplus > 0
      · exact Or.inl ⟨hs, by simp [hs]⟩
      · exact Or.inr ⟨by omega, by simp [hs]⟩
    have hfit : part + (max + (if surplus > 0 then 1 else 0)) ≤ P := by
      rcases hb with ⟨h1, h2⟩ | ⟨h1, h2⟩ <;> omega
    have hpos2 : 1 ≤ part ∨ 1 ≤ max + (if surplus > 0 then 1 else 0) := by
      rcases hpos with h | h | h
      · exact Or.inl h
      · exact Or.inr h
      · omega
    rw [assignLoop_succ M max P n part surplus hM hP hfit hpos2 hint]
    have hrec := ih (part + (max + (if surplus > 0 then 1 else 0)))
      (surplus - (if surplus > 0 then 1 else 0))
      (by rcases hb with ⟨h1, h2⟩ | ⟨h1, h2⟩ <;> omega)
      (by rcases hb with ⟨h1, h2⟩ | ⟨h1, h2⟩ <;> omega)
      (by rcases hb with ⟨h1, h2⟩ | ⟨h1, h2⟩
          · rw [h2] at hint ⊢
            split <;> omega
          · rw [h2] at hint ⊢
            have : ¬ surplus - 0 > 0 := by omega
            simp only [this, if_false]
            omega)
      (by rcases hpos2 with h | h
          · exact Or.inl (by omega)
          · exact Or.inl (by omega))
    rw [hrec]
    simp only [blocks]

/-- The loop started as `assignPartition` starts it, for any quotient `q` and
remainder `r` of `P` by `W`. -/
theorem assignLoop_start (M W P q r : Nat) (hM : M < U64) (hW : 1 ≤ W) (hP : 1 ≤ P)
    (hPu : P < U64) (hdm : W * q + r = P) (hr : r < W) :
    assignLoop M q P W 0 r =
      if 8 * (q + (if r > 0 then 1 else 0)) ≤ M then some (blocks q W 0 r) else none := by
  have hq : q ≤ W * q := Nat.le_mul_of_pos_left _ (by omega)
  have hnz : 1 ≤ q + (if r > 0 then 1 else 0) := by
    by_cases hr : r > 0
    · simp [hr]
    · have hr0 : r = 0 := by omega
      subst hr0
      rcases Nat.eq_zero_or_pos q with h | h
      · subst h
        simp at hdm
        omega
      · simp only [Nat.lt_irrefl, if_false]
        omega
  by_cases hint : 8 * (q + (if r > 0 then 1 else 0)) ≤ M
  · simp only [hint, if_true]
    exact assignLoop_eq_blocks M q P hM hPu W 0 r
      (by omega) (by omega) hint (Or.inr (Or.inl hnz))
  · simp only [hint, if_false]
    obtain ⟨n, rfl⟩ : ∃ n, W = n + 1 := ⟨W - 1, by omega⟩
    exact assignLoop_succ_panics M q P n 0 r hM hPu
      (by by_cases hr : r > 0
          · simp only [hr, if_true]; omega
          · simp only [hr, if_false]; omega)
      (Or.inr hnz) (by omega)

/-- The whole function in closed form: it returns the blocks when `make` can
allocate the `W` slice headers and the largest list, and panics in `make`
otherwise. -/
theorem assignPartition_eq (M W P : Nat) (hM : M < U64) (hW : 1 ≤ W) (hWint : W < IntMax1)
    (hP : 1 ≤ P) (hPu : P < U64) :
    assignPartition M W P =
      if 24 * W ≤ M ∧ 8 * maxLen W P ≤ M then GoResult.ok (blocks (P / W) W 0 (P % W))
      else GoResult.panicked := by
  have hWmod : W % U64 = W := Nat.mod_eq_of_lt (by simp only [IntMax1, U64] at *; omega)
  have hW0 : W ≠ 0 := by omega
  have hP0 : P ≠ 0 := by omega
  simp only [assignPartition, hW0, hP0, if_false, hWmod, maxLen,
    makeslicePanics_natCast M 24 W hM]
  rw [assignLoop_start M W P (P / W) (P % W) hM hW hP hPu (Nat.div_add_mod P W)
    (Nat.mod_lt P (by omega))]
  by_cases h1 : 24 * W ≤ M
  · have h1n : ¬ M < 24 * W := by omega
    by_cases h : 8 * (P / W + (if P % W > 0 then 1 else 0)) ≤ M
    · simp only [h1, h1n, h, decide_False, Bool.false_eq_true, if_false, if_true, and_self]
    · simp only [h1, h1n, h, decide_False, Bool.false_eq_true, if_false, and_false]
  · have h1n : M < 24 * W := by omega
    simp only [h1, h1n, decide_True, if_true, false_and, if_false]

/-! ### Properties of the closed form -/

theorem blocks_length (max : Nat) : ∀ (n part surplus : Nat),
    (blocks max n part surplus).length = n := by
  intro n
  induction n with
  | zero => intro _ _; rfl
  | succ n ih => intro part surplus; simp [blocks, ih]

theorem blocks_map_length (max : Nat) : ∀ (n part surplus : Nat),
    (blocks max n part surplus).map List.length
      = (List.range n).map (fun i => max + (if i < surplus then 1 else 0)) := by
  intro n
  induction n with
  | zero => intro _ _; rfl
  | succ n ih =>
    intro part surplus
    rw [List.range_succ_eq_map]
    simp only [blocks, List.map_cons, List.length_range', List.map_map, ih]
    congr 1
    apply List.map_congr_left
    intro i _
    simp only [Function.comp, Nat.succ_eq_add_one]
    by_cases hs : surplus > 0
    · simp only [hs, if_true]
      by_cases hi : i < surplus - 1
      · have : i + 1 < surplus := by omega
        simp [hi, this]
      · have : ¬ i + 1 < surplus := by omega
        simp [hi, this]
    · have h0 : surplus = 0 := by omega
      subst h0
      simp

theorem blocks_flatten (max : Nat) : ∀ (n part surplus : Nat), surplus ≤ n →
    (blocks max n part surplus).flatten = List.range' part (n * max + surplus) := by
  intro n
  induction n with
  | zero =>
    intro part surplus h
    have : surplus = 0 := by omega
    subst this
    simp [blocks]
  | succ n ih =>
    intro part surplus h
    have hmul : (n + 1) * max = n * max + max := by ring
    simp only [blocks, List.flatten_cons]
    by_cases hs : surplus > 0
    · simp only [hs, if_true]
      rw [ih _ _ (by omega)]
      have := List.range'_append part (max + 1) (n * max + (surplus - 1)) 1
      rw [Nat.one_mul] at this
      rw [this]
      congr 1
      omega
    · have h0 : surplus = 0 := by omega
      subst h0
      simp only [Nat.lt_irrefl, if_false, Nat.add_zero, Nat.sub_zero, gt_iff_lt]
      rw [ih _ _ (by omega)]
      have := List.range'_append part max (n * max + 0) 1
      rw [Nat.one_mul] at this
      rw [this]
      congr 1
      omega

/-- Every list of the closed form has `max` or `max + 1` elements. -/
theorem blocks_mem_length (max : Nat) (n part surplus : Nat) (l : List Nat)
    (hl : l ∈ blocks max n part surplus) : l.length = max ∨ l.length = max + 1 := by
  have hmem : l.length ∈ (blocks max n part surplus).map List.length :=
    List.mem_map.mpr ⟨l, hl, rfl⟩
  rw [blocks_map_length] at hmem
  obtain ⟨i, _, hi⟩ := List.mem_map.mp hmem
  by_cases h : i < surplus
  · simp only [h, if_true] at hi; exact Or.inr hi.symm
  · simp only [h, if_false] at hi; exact Or.inl hi.symm

/-- What `assignPartition` returns whenever it returns an assignment. -/
theorem assignPartition_ok_eq (M W P : Nat) (hM : M < U64) (hW : 1 ≤ W) (hWint : W < IntMax1)
    (hP : 1 ≤ P) (hPu : P < U64) (pairs : List (List Nat))
    (h : assignPartition M W P = GoResult.ok pairs) :
    pairs = blocks (P / W) W 0 (P % W) := by
  rw [assignPartition_eq M W P hM hW hWint hP hPu] at h
  by_cases hfit : 24 * W ≤ M ∧ 8 * maxLen W P ≤ M
  · simp only [hfit, if_true] at h
    injection h with h
    exact h.symm
  · simp only [hfit, if_false] at h
    cases h

/-- The assignment is returned whenever `make` can allocate the `W` slice headers
and the largest list. -/
theorem assignPartition_ok_of_fit (M W P : Nat) (hM : M < U64) (hW : 1 ≤ W) (hP : 1 ≤ P)
    (hPu : P < U64) (houter : 24 * W ≤ M) (hinner : 8 * maxLen W P ≤ M) :
    assignPartition M W P = GoResult.ok (blocks (P / W) W 0 (P % W)) := by
  rw [assignPartition_eq M W P hM hW (by simp only [IntMax1, U64] at *; omega) hP hPu]
  simp only [houter, hinner, and_self, if_true]

/-! ### Claims on `assignPartition` -/

/-- C1 (amended): for `W ≥ 1` workers and `P ≥ W` partitions such that `make` can
allocate the slices, the `24 * W` bytes of the `W` slice headers and the
`8 * ceil(P/W)` bytes of the largest list not exceeding the runtime's allocation
limit, `assignPartition W P` succeeds and returns exactly `W` lists, list `i` having
`floor(P/W) + 1` elements if `i < P mod W` and `floor(P/W)` otherwise;
`assignPartition 3 7 = [[0,1,2],[3,4],[5,6]]` and `assignPartition 2 2 = [[0],[1]]`. -/
theorem assignPartition_worker_lengths (maxAlloc W P : Nat) (hM : maxAlloc < U64)
    (hW : 1 ≤ W) (hWP : W ≤ P) (hPu : P < U64) (houter : 24 * W ≤ maxAlloc)
    (hinner : 8 * maxLen W P ≤ maxAlloc) :
    (∃ pairs, assignPartition maxAlloc W P = GoResult.ok pairs ∧ pairs.length = W ∧
      ∀ i, i < W → ∃ l, pairs[i]? = some l ∧ l.length = expectedLen W P i) ∧
    (72 ≤ maxAlloc → assignPartition maxAlloc 3 7 = GoResult.ok [[0, 1, 2], [3, 4], [5, 6]]) ∧
    (48 ≤ maxAlloc → assignPartition maxAlloc 2 2 = GoResult.ok [[0], [1]]) := by
  refine ⟨⟨blocks (P / W) W 0 (P % W),
    assignPartition_ok_of_fit maxAlloc W P hM hW (by omega) hPu houter hinner,
    blocks_length _ _ _ _, ?_⟩, ?_, ?_⟩
  · intro i hi
    have hmap := blocks_map_length (P / W) W 0 (P % W)
    have hget : ((blocks (P / W) W 0 (P % W)).map List.length)[i]?
        = some (expectedLen W P i) := by
      rw [hmap, List.getElem?_map, List.getElem?_range hi]
      rfl
    rw [List.getElem?_map] at hget
    cases hl : (blocks (P / W) W 0 (P % W))[i]? with
    | none => rw [hl] at hget; cases hget
    | some l =>
      rw [hl] at hget
      exact ⟨l, rfl, by simpa using hget⟩
  · intro h
    have h37 : maxLen 3 7 = 3 := by decide
    rw [assignPartition_ok_of_fit maxAlloc 3 7 hM (by decide) (by decide) (by decide)
      (by omega) (by rw [h37]; omega)]
    rfl
  · intro h
    have h22 : maxLen 2 2 = 1 := by decide
    rw [assignPartition_ok_of_fit maxAlloc 2 2 hM (by decide) (by decide) (by decide)
      (by omega) (by rw [h22]; omega)]
    rfl

/-- Instance of C1 (amended) at three workers and seven partitions, with the
allocation limit of the 64-bit platforms. -/
theorem assignPartition_worker_lengths_witness :
    (∃ pairs, assignPartition maxAlloc64 3 7 = GoResult.ok pairs ∧ pairs.length = 3 ∧
      ∀ i, i < 3 → ∃ l, pairs[i]? = some l ∧ l.length = expectedLen 3 7 i) ∧
    assignPartition maxAlloc64 3 7 = GoResult.ok [[0, 1, 2], [3, 4], [5, 6]] ∧
    assignPartition maxAlloc64 2 2 = GoResult.ok [[0], [1]] :=
  have h := assignPartition_worker_lengths maxAlloc64 3 7 (by decide) (by decide) (by decide)
    (by decide) (by decide) (by decide)
  ⟨h.1, h.2.1 (by decide), h.2.2 (by decide)⟩

/-- C1 as stated fails: with one worker (`W ≥ 1`, `P ≥ W`) the call does not
succeed when the single list is too long for `make`. With `2^63` partitions
`(int)(to-part+1)` is negative, and with `2^46` partitions the list would need
`2^49` bytes, more than the limit of `2^48`: in both cases `make` panics. -/
theorem assignPartition_one_worker_panics :
    1 ≤ 1 ∧ 1 ≤ 2 ^ 63 ∧ 2 ^ 63 < U64 ∧
    assignPartition maxAlloc64 1 (2 ^ 63) = GoResult.panicked ∧
    (¬ ∃ pairs, assignPartition maxAlloc64 1 (2 ^ 63) = GoResult.ok pairs) ∧
    assignPartition maxAlloc64 1 (2 ^ 46) = GoResult.panicked := by
  have h : assignPartition maxAlloc64 1 (2 ^ 63) = GoResult.panicked := by decide
  refine ⟨by decide, by decide, by decide, h, ?_, by decide⟩
  rintro ⟨pairs, hp⟩
  rw [h] at hp
  cases hp

/-- C2: for `W ≥ 1` and `P ≥ 1`, the lists returned by `assignPartition W P`,
concatenated in worker order, are exactly `0, 1, ..., P-1`: every id below `P`
occurs once in all (the occurrence counts of the workers sum to one), no id `≥ P`
occurs, and the lengths sum to `P`. Lists are returned whenever `make` can
allocate the `W` slice headers and the largest list. -/
theorem assignPartition_contiguous (maxAlloc W P : Nat) (hM : maxAlloc < U64) (hW : 1 ≤ W)
    (hWint : W < IntMax1) (hP : 1 ≤ P) (hPu : P < U64) :
    (∀ pairs, assignPartition maxAlloc W P = GoResult.ok pairs →
      pairs.flatten = List.range P ∧
      (∀ id, id < P → (pairs.map (List.count id)).sum = 1) ∧
      (∀ id, id ∈ pairs.flatten → id < P) ∧
      (pairs.map List.length).sum = P) ∧
    (24 * W ≤ maxAlloc → 8 * maxLen W P ≤ maxAlloc →
      ∃ pairs, assignPartition maxAlloc W P = GoResult.ok pairs) := by
  refine ⟨?_, fun houter hinner =>
    ⟨_, assignPartition_ok_of_fit maxAlloc W P hM hW hP hPu houter hinner⟩⟩
  intro pairs hok
  have hflat : pairs.flatten = List.range P := by
    rw [assignPartition_ok_eq maxAlloc W P hM hW hWint hP hPu pairs hok,
      blocks_flatten _ _ _ _ (Nat.le_of_lt (Nat.mod_lt P (by omega))),
      List.range_eq_range']
    congr 1
    exact Nat.div_add_mod P W
  refine ⟨hflat, ?_, ?_, ?_⟩
  · intro id hid
    rw [← List.count_flatten, hflat]
    exact List.count_eq_one_of_mem (List.nodup_range P) (List.mem_range.mpr hid)
  · intro id hid
    rw [hflat] at hid
    exact List.mem_range.mp hid
  · rw [← List.length_flatten, hflat, List.length_range]

/-- Instance of C2 at five workers and two partitions: the call returns
`[[0],[1],[],[],[]]`, whose concatenation is `0, 1`. -/
theorem assignPartition_contiguous_witness :
    assignPartition maxAlloc64 5 2 = GoResult.ok [[0], [1], [], [], []] ∧
    ([[0], [1], [], [], []] : List (List Nat)).flatten = List.range 2 ∧
    (∀ id, id < 2 →
      (([[0], [1], [], [], []] : List (List Nat)).map (List.count id)).sum = 1) ∧
    (∀ id, id ∈ ([[0], [1], [], [], []] : List (List Nat)).flatten → id < 2) ∧
    (([[0], [1], [], [], []] : List (List Nat)).map List.length).sum = 2 :=
  ⟨by decide,
    (assignPartition_contiguous maxAlloc64 5 2 (by decide) (by decide) (by decide)
      (by decide) (by decide)).1 [[0], [1], [], [], []] (by decide)⟩

/-- C3 (amended): `assignPartition W P` returns an error if and only if `W = 0` or
`P = 0`; for every other input such that `make` can allocate the `W` slice headers
and the largest list it returns a non-nil assignment and a nil error, and for the
remaining inputs it panics. -/
theorem assignPartition_error_iff (maxAlloc W P : Nat) (hM : maxAlloc < U64)
    (hWint : W < IntMax1) (hPu : P < U64) :
    ((∃ e, assignPartition maxAlloc W P = GoResult.error e) ↔ (W = 0 ∨ P = 0)) ∧
    (W ≠ 0 → P ≠ 0 → 24 * W ≤ maxAlloc → 8 * maxLen W P ≤ maxAlloc →
      ∃ pairs, assignPartition maxAlloc W P = GoResult.ok pairs ∧ pairs ≠ []) ∧
    (W ≠ 0 → P ≠ 0 → ¬ (24 * W ≤ maxAlloc ∧ 8 * maxLen W P ≤ maxAlloc) →
      assignPartition maxAlloc W P = GoResult.panicked) := by
  refine ⟨?_, ?_, ?_⟩
  · constructor
    · rintro ⟨e, he⟩
      by_contra hne
      have hW : 1 ≤ W := by omega
      have hP : 1 ≤ P := by omega
      rw [assignPartition_eq maxAlloc W P hM hW hWint hP hPu] at he
      split at he <;> cases he
    · rintro (h | h)
      · exact ⟨"no available workers", by simp [assignPartition, h]⟩
      · by_cases hW : W = 0
        · exact ⟨"no available workers", by simp [assignPartition, hW]⟩
        · exact ⟨"no partitions", by simp [assignPartition, hW, h]⟩
  · intro hW hP houter hinner
    refine ⟨blocks (P / W) W 0 (P % W),
      assignPartition_ok_of_fit maxAlloc W P hM (by omega) (by omega) hPu houter hinner, ?_⟩
    intro hnil
    have hlen := blocks_length (P / W) W 0 (P % W)
    rw [hnil] at hlen
    simp at hlen
    omega
  · intro hW hP hnot
    rw [assignPartition_eq maxAlloc W P hM (by omega) hWint (by omega) hPu, if_neg hnot]

/-- Instance of C3 (amended) at two workers and two partitions. -/
theorem assignPartition_error_iff_witness :
    ((∃ e, assignPartition maxAlloc64 2 2 = GoResult.error e) ↔ (2 = 0 ∨ 2 = 0)) ∧
    (∃ pairs, assignPartition maxAlloc64 2 2 = GoResult.ok pairs ∧ pairs ≠ []) :=
  have h := assignPartition_error_iff maxAlloc64 2 2 (by decide) (by decide) (by decide)
  ⟨h.1, h.2.1 (by decide) (by decide) (by decide) (by decide)⟩

/-- C3 as stated fails: two workers and `2^64 - 1` partitions are an input with
`W ≠ 0` and `P ≠ 0` for which no assignment is returned; the first list would need
`2^63` elements and `make` panics. -/
theorem assignPartition_neither_error_nor_assignment :
    2 ≠ 0 ∧ 2 ^ 64 - 1 ≠ 0 ∧ 2 ^ 64 - 1 < U64 ∧
    assignPartition maxAlloc64 2 (2 ^ 64 - 1) = GoResult.panicked ∧
    ¬ ∃ pairs, assignPartition maxAlloc64 2 (2 ^ 64 - 1) = GoResult.ok pairs := by
  have h : assignPartition maxAlloc64 2 (2 ^ 64 - 1) = GoResult.panicked := by decide
  refine ⟨by decide, by decide, by decide, h, ?_⟩
  rintro ⟨pairs, hp⟩
  rw [h] at hp
  cases hp

/-- C4: for `W ≥ 1` and `P ≥ 1`, the assignment returned by `assignPartition W P`
is balanced: the largest list length minus the smallest list length is at most 1.
An assignment is returned whenever `make` can allocate the `W` slice headers and
the largest list. -/
theorem assignPartition_balanced (maxAlloc W P : Nat) (hM : maxAlloc < U64) (hW : 1 ≤ W)
    (hWint : W < IntMax1) (hP : 1 ≤ P) (hPu : P < U64) :
    (∀ pairs, assignPartition maxAlloc W P = GoResult.ok pairs →
      ∃ hi lo, (pairs.map List.length).max? = some hi ∧
        (pairs.map List.length).min? = some lo ∧ lo ≤ hi ∧ hi - lo ≤ 1) ∧
    (24 * W ≤ maxAlloc → 8 * maxLen W P ≤ maxAlloc →
      ∃ pairs, assignPartition maxAlloc W P = GoResult.ok pairs) := by
  refine ⟨?_, fun houter hinner =>
    ⟨_, assignPartition_ok_of_fit maxAlloc W P hM hW hP hPu houter hinner⟩⟩
  intro pairs hok
  rw [assignPartition_ok_eq maxAlloc W P hM hW hWint hP hPu pairs hok]
  have hne : (blocks (P / W) W 0 (P % W)).map List.length ≠ [] := by
    intro hnil
    have hlen := congrArg List.length hnil
    simp [blocks_length] at hlen
    omega
  have hrange : ∀ a ∈ (blocks (P / W) W 0 (P % W)).map List.length,
      a = P / W ∨ a = P / W + 1 := by
    intro a ha
    obtain ⟨l, hl, rfl⟩ := List.mem_map.mp ha
    exact blocks_mem_length _ _ _ _ l hl
  cases hmax : ((blocks (P / W) W 0 (P % W)).map List.length).max? with
  | none => exact absurd (List.max?_eq_none_iff.mp hmax) hne
  | some hi =>
    cases hmin : ((blocks (P / W) W 0 (P % W)).map List.length).min? with
    | none => exact absurd (List.min?_eq_none_iff.mp hmin) hne
    | some lo =>
      have h1 := List.max?_eq_some_iff'.mp hmax
      have h2 := List.min?_eq_some_iff'.mp hmin
      have h3 := hrange hi h1.1
      have h4 := hrange lo h2.1
      have h5 := h1.2 lo h2.1
      exact ⟨hi, lo, rfl, rfl, h5, by omega⟩

/-- Instance of C4 at three workers and eight partitions: the call returns
`[[0,1,2],[3,4,5],[6,7]]`, of lengths 3, 3 and 2. -/
theorem assignPartition_balanced_witness :
    assignPartition maxAlloc64 3 8 = GoResult.ok [[0, 1, 2], [3, 4, 5], [6, 7]] ∧
    ∃ hi lo, (([[0, 1, 2], [3, 4, 5], [6, 7]] : List (List Nat)).map List.length).max?
        = some hi ∧
      (([[0, 1, 2], [3, 4, 5], [6, 7]] : List (List Nat)).map List.length).min? = some lo ∧
      lo ≤ hi ∧ hi - lo ≤ 1 :=
  ⟨by decide,
    (assignPartition_balanced maxAlloc64 3 8 (by decide) (by decide) (by decide) (by decide)
      (by decide)).1 [[0, 1, 2], [3, 4, 5], [6, 7]] (by decide)⟩

/-! ### The broadcast loop -/

theorem requestAll_foldl (msg : OutMessage) : ∀ (workers : List WorkerInfo)
    (ar : AckRecorder) (effs : List Effect),
    workers.foldl
      (fun acc wi => (acc.1.addToWaitList wi.workerPid.id,
        acc.2 ++ [Effect.request wi.workerPid msg])) (ar, effs)
    = (workers.foldl (fun a wi => a.addToWaitList wi.workerPid.id) ar,
        effs ++ workers.map (fun wi => Effect.request wi.workerPid msg)) := by
  intro workers
  induction workers with
  | nil => intro ar effs; simp
  | cons w ws ih =>
    intro ar effs
    simp only [List.foldl_cons, List.map_cons]
    rw [ih]
    simp

/-- The broadcast loop requests the message of every worker, in cluster order, and
adds every worker to the wait list. -/
theorem requestAll_eq (workers : List WorkerInfo) (msg : OutMessage) (ar : AckRecorder) :
    requestAll workers msg ar
      = (workers.foldl (fun a wi => a.addToWaitList wi.workerPid.id) ar,
          workers.map (fun wi => Effect.request wi.workerPid msg)) := by
  simp only [requestAll]
  rw [requestAll_foldl]
  simp

theorem mem_addToWaitList (ar : AckRecorder) (id x : String) :
    x ∈ (ar.addToWaitList id).waiting ↔ x ∈ ar.waiting ∨ x = id := by
  simp only [AckRecorder.addToWaitList]
  by_cases h : id ∈ ar.waiting
  · simp only [h, if_true]
    constructor
    · exact Or.inl
    · rintro (h1 | h1)
      · exact h1
      · rw [h1]; exact h
  · simp [h]

theorem mem_waiting_foldl (x : String) : ∀ (workers : List WorkerInfo) (ar : AckRecorder),
    x ∈ (workers.foldl (fun a wi => a.addToWaitList wi.workerPid.id) ar).waiting
      ↔ x ∈ ar.waiting ∨ ∃ wi ∈ workers, wi.workerPid.id = x := by
  intro workers
  induction workers with
  | nil => intro ar; simp
  | cons w ws ih =>
    intro ar
    simp only [List.foldl_cons]
    rw [ih, mem_addToWaitList]
    constructor
    · rintro ((h | h) | ⟨wi, hwi, h⟩)
      · exact Or.inl h
      · exact Or.inr ⟨w, List.mem_cons_self _ _, h.symm⟩
      · exact Or.inr ⟨wi, List.mem_cons_of_mem _ hwi, h⟩
    · rintro (h | ⟨wi, hwi, h⟩)
      · exact Or.inl (Or.inl h)
      · rcases List.mem_cons.mp hwi with h1 | h1
        · subst h1; exact Or.inl (Or.inr h.symm)
        · exact Or.inr ⟨wi, h1, h⟩

theorem nodup_addToWaitList (ar : AckRecorder) (id : String) (h : ar.waiting.Nodup) :
    (ar.addToWaitList id).waiting.Nodup := by
  simp only [AckRecorder.addToWaitList]
  by_cases hm : id ∈ ar.waiting
  · simp only [hm, if_true]; exact h
  · simp only [hm, if_false]
    rw [List.nodup_append]
    refine ⟨h, List.nodup_singleton _, ?_⟩
    intro a ha hb
    rw [List.mem_singleton] at hb
    subst hb
    exact hm ha

theorem nodup_waiting_foldl : ∀ (workers : List WorkerInfo) (ar : AckRecorder),
    ar.waiting.Nodup →
    (workers.foldl (fun a wi => a.addToWaitList wi.workerPid.id) ar).waiting.Nodup := by
  intro workers
  induction workers with
  | nil => intro ar h; exact h
  | cons w ws ih =>
    intro ar h
    simp only [List.foldl_cons]
    exact ih _ (nodup_addToWaitList ar _ h)

/-! ### Single steps of the coordinator -/

/-- What `finishStep` does when the statistics are available. -/
theorem finishStep_ok (c : Collaborators) (state : CoordinatorActor) (ci : ClusterInfo)
    (stats : VertexStats) (hci : state.clusterInfo = some ci)
    (hstats : getStats c state.aggregatedCurrentStep = Except.ok stats) :
    finishStep c state =
      if stats.activeVertices = 0 ∧ stats.messagesSent = 0 then
        ({ state with
            ackRecorder := state.ackRecorder.clear
            behavior := Behavior.idle
            stateName := CoordinatorStateIdle
            lastAggregatedValue :=
              { superstep := state.currentStep, values := state.aggregatedCurrentStep }
            aggregatedCurrentStep := some [] }, [])
      else
        ({ state with
            ackRecorder := ci.workerInfo.foldl (fun a wi => a.addToWaitList wi.workerPid.id)
              state.ackRecorder.clear
            behavior := Behavior.superstep
            stateName := CoordinatorStateProcessing
            currentStep := u64add state.currentStep 1
            lastAggregatedValue :=
              { superstep := u64add state.currentStep 1, values := state.aggregatedCurrentStep }
            aggregatedCurrentStep := some [] },
          ci.workerInfo.map (fun wi => Effect.request wi.workerPid OutMessage.superStepBarrier)) := by
  simp only [finishStep, hstats, hci, requestAll_eq]

/-- The `ComputeWorkerAck` that completes the ack set, when merging succeeds. -/
theorem computing_completing (c : Collaborators) (state : CoordinatorActor) (pid : PID)
    (vals : GoMap) (ar : AckRecorder) (merged : GoMap)
    (hb : state.behavior = Behavior.computing)
    (hack : state.ackRecorder.ack pid.id = (ar, true))
    (hdone : ar.hasCompleted = true)
    (hmerge : mergeAck c state.aggregatedCurrentStep vals = (merged, none)) :
    Receive c state (Command.computeWorkerAck pid vals)
      = finishStep c { state with ackRecorder := ar, aggregatedCurrentStep := merged } := by
  simp only [Receive, behaviorReceive, hb, computing, hack, hmerge, hdone, if_true]

/-! ### Claims on single steps -/

/-- The step of a computing coordinator with a cluster on the `ComputeWorkerAck`
that completes the ack set, when the merge succeeds and the merged `VertexStats`
are `stats`. -/
theorem completing_ack_step (c : Collaborators) (state : CoordinatorActor)
    (ci : ClusterInfo) (pid : PID) (vals : GoMap) (ar : AckRecorder) (merged : GoMap)
    (stats : VertexStats)
    (hb : state.behavior = Behavior.computing)
    (hci : state.clusterInfo = some ci)
    (hack : state.ackRecorder.ack pid.id = (ar, true))
    (hdone : ar.hasCompleted = true)
    (hmerge : mergeAck c state.aggregatedCurrentStep vals = (merged, none))
    (hstats : getStats c merged = Except.ok stats) :
    ((Receive c state (Command.computeWorkerAck pid vals)).1.behavior = Behavior.idle
      ↔ (stats.activeVertices = 0 ∧ stats.messagesSent = 0)) ∧
    ((stats.activeVertices = 0 ∧ stats.messagesSent = 0) →
      (Receive c state (Command.computeWorkerAck pid vals)).1.stateName = CoordinatorStateIdle ∧
      (Receive c state (Command.computeWorkerAck pid vals)).1.currentStep = state.currentStep ∧
      (Receive c state (Command.computeWorkerAck pid vals)).2 = []) ∧
    (¬ (stats.activeVertices = 0 ∧ stats.messagesSent = 0) →
      (Receive c state (Command.computeWorkerAck pid vals)).1.currentStep
        = u64add state.currentStep 1 ∧
      (state.currentStep + 1 < U64 →
        (Receive c state (Command.computeWorkerAck pid vals)).1.currentStep
          = state.currentStep + 1) ∧
      (Receive c state (Command.computeWorkerAck pid vals)).2
        = ci.workerInfo.map (fun wi => Effect.request wi.workerPid OutMessage.superStepBarrier) ∧
      (Receive c state (Command.computeWorkerAck pid vals)).1.behavior = Behavior.superstep ∧
      (Receive c state (Command.computeWorkerAck pid vals)).1.stateName
        = CoordinatorStateProcessing) := by
  rw [computing_completing c state pid vals ar merged hb hack hdone hmerge,
    finishStep_ok c { state with ackRecorder := ar, aggregatedCurrentStep := merged } ci stats
      hci hstats]
  by_cases hz : stats.activeVertices = 0 ∧ stats.messagesSent = 0
  · simp [hz]
  · simp only [hz, if_false, not_false_eq_true, true_implies, false_implies, and_true,
      iff_false, true_and]
    refine ⟨by simp, ?_⟩
    intro hlt
    simp only [u64add]
    exact Nat.mod_eq_of_lt hlt

/-! ### A coordinator past the setup knows its cluster -/

theorem setup_clusterKnown (c : Collaborators) (s : CoordinatorActor) (cmd : Command)
    (hb : s.behavior = Behavior.setup) : ClusterKnown (setup c s cmd).1 := by
  cases cmd <;> simp only [setup, ClusterKnown] <;> repeat' split
  all_goals simp_all

theorem idle_clusterKnown (c : Collaborators) (s : CoordinatorActor) (cmd : Command)
    (hb : s.behavior = Behavior.idle) : ClusterKnown (idle c s cmd).1 := by
  cases cmd <;> simp only [idle, ClusterKnown, requestAll_eq] <;> repeat' split
  all_goals simp_all

theorem waitLoad_clusterKnown (c : Collaborators) (s : CoordinatorActor) (cmd : Command)
    (h : ClusterKnown s) : ClusterKnown (waitLoadPartitionVertices c s cmd).1 := by
  cases cmd <;> simp only [waitLoadPartitionVertices, ClusterKnown] at h ⊢ <;> repeat' split
  all_goals simp_all

theorem superstep_clusterKnown (c : Collaborators) (s : CoordinatorActor) (cmd : Command)
    (h : ClusterKnown s) : ClusterKnown (superstep c s cmd).1 := by
  cases cmd <;> simp only [superstep, ClusterKnown, requestAll_eq] at h ⊢ <;> repeat' split
  all_goals simp_all

theorem computing_clusterKnown (c : Collaborators) (s : CoordinatorActor) (cmd : Command)
    (h : ClusterKnown s) : ClusterKnown (computing c s cmd).1 := by
  cases cmd <;> simp only [computing, finishStep, ClusterKnown, requestAll_eq] at h ⊢ <;>
    repeat' split
  all_goals simp_all

theorem Receive_clusterKnown (c : Collaborators) (s : CoordinatorActor) (cmd : Command)
    (h : ClusterKnown s) : ClusterKnown (Receive c s cmd).1 := by
  have hbeh : ClusterKnown (behaviorReceive c s cmd).1 := by
    simp only [behaviorReceive]
    cases hb : s.behavior
    · exact setup_clusterKnown c s cmd hb
    · exact idle_clusterKnown c s cmd hb
    · exact waitLoad_clusterKnown c s cmd h
    · exact superstep_clusterKnown c s cmd h
    · exact computing_clusterKnown c s cmd h
  cases cmd <;> simp only [Receive] <;> first | exact hbeh | (repeat' split) <;> exact h

theorem run_clusterKnown (c : Collaborators) : ∀ (cmds : List Command) (s : CoordinatorActor),
    ClusterKnown s → ClusterKnown (run c s cmds).1 := by
  intro cmds
  induction cmds with
  | nil => intro s h; exact h
  | cons cmd rest ih =>
    intro s h
    simp only [run]
    exact ih _ (Receive_clusterKnown c s cmd h)

/-- C5 (amended): when a coordinator that is computing, after any sequence of
messages, processes the `ComputeWorkerAck` that completes the ack set of superstep
`N`, the merge of the ack's values returns no error and the merged `VertexStats` of
the step can be read and are `stats`, then it becomes idle if and only if
`stats.activeVertices = 0` and `stats.messagesSent = 0`; otherwise it increments
`currentStep` by exactly one (on `uint64`), sends `SuperStepBarrier` to every worker
of its cluster and enters the awaiting-barrier state. -/
theorem computing_idle_iff_no_activity (c : Collaborators) (cmds : List Command)
    (pid : PID) (vals : GoMap) (ar : AckRecorder) (merged : GoMap) (stats : VertexStats)
    (hb : (run c NewCoordinatorActor cmds).1.behavior = Behavior.computing)
    (hack : (run c NewCoordinatorActor cmds).1.ackRecorder.ack pid.id = (ar, true))
    (hdone : ar.hasCompleted = true)
    (hmerge : mergeAck c (run c NewCoordinatorActor cmds).1.aggregatedCurrentStep vals
      = (merged, none))
    (hstats : getStats c merged = Except.ok stats) :
    ∃ ci, (run c NewCoordinatorActor cmds).1.clusterInfo = some ci ∧
    ((Receive c (run c NewCoordinatorActor cmds).1
        (Command.computeWorkerAck pid vals)).1.behavior = Behavior.idle
      ↔ (stats.activeVertices = 0 ∧ stats.messagesSent = 0)) ∧
    ((stats.activeVertices = 0 ∧ stats.messagesSent = 0) →
      (Receive c (run c NewCoordinatorActor cmds).1
        (Command.computeWorkerAck pid vals)).1.stateName = CoordinatorStateIdle ∧
      (Receive c (run c NewCoordinatorActor cmds).1
        (Command.computeWorkerAck pid vals)).1.currentStep
        = (run c NewCoordinatorActor cmds).1.currentStep ∧
      (Receive c (run c NewCoordinatorActor cmds).1
        (Command.computeWorkerAck pid vals)).2 = []) ∧
    (¬ (stats.activeVertices = 0 ∧ stats.messagesSent = 0) →
      (Receive c (run c NewCoordinatorActor cmds).1
        (Command.computeWorkerAck pid vals)).1.currentStep
        = u64add (run c NewCoordinatorActor cmds).1.currentStep 1 ∧
      ((run c NewCoordinatorActor cmds).1.currentStep + 1 < U64 →
        (Receive c (run c NewCoordinatorActor cmds).1
          (Command.computeWorkerAck pid vals)).1.currentStep
          = (run c NewCoordinatorActor cmds).1.currentStep + 1) ∧
      (Receive c (run c NewCoordinatorActor cmds).1 (Command.computeWorkerAck pid vals)).2
        = ci.workerInfo.map (fun wi => Effect.request wi.workerPid OutMessage.superStepBarrier) ∧
      (Receive c (run c NewCoordinatorActor cmds).1
        (Command.computeWorkerAck pid vals)).1.behavior = Behavior.superstep ∧
      (Receive c (run c NewCoordinatorActor cmds).1
        (Command.computeWorkerAck pid vals)).1.stateName = CoordinatorStateProcessing) := by
  have hk := run_clusterKnown c cmds NewCoordinatorActor (Or.inl rfl)
  generalize (run c NewCoordinatorActor cmds).1 = s at *
  rcases hk with h | h | ⟨ci, hci⟩
  · rw [hb] at h; cases h
  · rw [hb] at h; cases h
  · exact ⟨ci, hci,
      completing_ack_step c s ci pid vals ar merged stats hb hci hack hdone hmerge hstats⟩

/-- Instance of C5 (amended): on the example cluster the second of two workers
acks step 0 with two active vertices in all; the coordinator moves on to step 1. -/
theorem computing_idle_iff_no_activity_witness :
    (Receive exampleCollaborators
        (run exampleCollaborators NewCoordinatorActor (exampleComputeRun (statsMap 1 0))).1
        (Command.computeWorkerAck exampleW1 (statsMap 1 2))).1.currentStep = 1 ∧
    (Receive exampleCollaborators
        (run exampleCollaborators NewCoordinatorActor (exampleComputeRun (statsMap 1 0))).1
        (Command.computeWorkerAck exampleW1 (statsMap 1 2))).2
      = [Effect.request exampleW0 OutMessage.superStepBarrier,
         Effect.request exampleW1 OutMessage.superStepBarrier] := by
  obtain ⟨ci, hci, h⟩ := computing_idle_iff_no_activity exampleCollaborators
    (exampleComputeRun (statsMap 1 0)) exampleW1 (statsMap 1 2) ⟨[]⟩ (statsMap 2 2)
    { activeVertices := 2, messagesSent := 2 }
    (by decide) (by decide) rfl (by decide) rfl
  have hci2 : ci = exampleCluster := by
    have : (run exampleCollaborators NewCoordinatorActor
        (exampleComputeRun (statsMap 1 0))).1.clusterInfo = some exampleCluster := by decide
    rw [this] at hci
    injection hci with hci
    exact hci.symm
  subst hci2
  exact ⟨(h.2.2 (by decide)).2.1 (by decide), (h.2.2 (by decide)).2.2.1⟩

/-- C5 as stated fails: on the example cluster both workers ack the computation
of step 0 without aggregated values. The second ack completes the ack set, and the
merged map holds no `VertexStats`: `getStats` returns an error, the handler calls
`Fail` and returns. The coordinator has not become idle, so by the claim it would
have incremented `currentStep` and sent `SuperStepBarrier`; it did neither and is
still computing, at step 0. -/
theorem completing_ack_without_stats :
    (run exampleCollaborators NewCoordinatorActor (exampleComputeRun none)).1.behavior
      = Behavior.computing ∧
    (run exampleCollaborators NewCoordinatorActor (exampleComputeRun none)).1.ackRecorder.waiting
      = ["w1"] ∧
    (run exampleCollaborators NewCoordinatorActor (exampleComputeRun none)).1.currentStep = 0 ∧
    (Receive exampleCollaborators
        (run exampleCollaborators NewCoordinatorActor (exampleComputeRun none)).1
        (Command.computeWorkerAck exampleW1 none)).1.ackRecorder.waiting = [] ∧
    (Receive exampleCollaborators
        (run exampleCollaborators NewCoordinatorActor (exampleComputeRun none)).1
        (Command.computeWorkerAck exampleW1 none)).1.behavior = Behavior.computing ∧
    (Receive exampleCollaborators
        (run exampleCollaborators NewCoordinatorActor (exampleComputeRun none)).1
        (Command.computeWorkerAck exampleW1 none)).1.currentStep = 0 ∧
    (Receive exampleCollaborators
        (run exampleCollaborators NewCoordinatorActor (exampleComputeRun none)).1
        (Command.computeWorkerAck exampleW1 none)).2
      = [Effect.fail "no such aggregated value"] := by
  decide

/-- The snapshot published when a step completes, in general: it holds the
values merged during the step; its tag is the step on the terminating path, and
the step plus one on the path that continues. -/
theorem computing_snapshot (c : Collaborators) (state : CoordinatorActor)
    (ci : ClusterInfo) (pid : PID) (vals : GoMap) (ar : AckRecorder) (merged : GoMap)
    (stats : VertexStats)
    (hb : state.behavior = Behavior.computing)
    (hci : state.clusterInfo = some ci)
    (hack : state.ackRecorder.ack pid.id = (ar, true))
    (hdone : ar.hasCompleted = true)
    (hmerge : mergeAck c state.aggregatedCurrentStep vals = (merged, none))
    (hstats : getStats c merged = Except.ok stats) :
    (Receive c state (Command.computeWorkerAck pid vals)).1.lastAggregatedValue.values = merged ∧
    (Receive c state (Command.computeWorkerAck pid vals)).1.aggregatedCurrentStep = some [] ∧
    ((stats.activeVertices = 0 ∧ stats.messagesSent = 0) →
      (Receive c state (Command.computeWorkerAck pid vals)).1.lastAggregatedValue.superstep
        = state.currentStep) ∧
    (¬ (stats.activeVertices = 0 ∧ stats.messagesSent = 0) →
      (Receive c state (Command.computeWorkerAck pid vals)).1.lastAggregatedValue.superstep
        = u64add state.currentStep 1) := by
  rw [computing_completing c state pid vals ar merged hb hack hdone hmerge,
    finishStep_ok c { state with ackRecorder := ar, aggregatedCurrentStep := merged } ci stats
      hci hstats]
  by_cases hz : stats.activeVertices = 0 ∧ stats.messagesSent = 0
  · simp [hz]
  · simp [hz]

/-- C6 at the failing input: two workers compute step 0, the second ack completes
the step with two active vertices in all. The snapshot holds the values of step 0
and is tagged 1, and `CoordinatorStats` then reports superstep 1 with the
statistics of step 0. On the terminating path (step 3, no activity) the tag is the
step itself. -/
theorem snapshot_tag_is_next_step :
    (Receive exampleCollaborators (exampleComputing 0 ["w1"] (statsMap 1 0))
        (Command.computeWorkerAck exampleW1 (statsMap 1 2))).1.lastAggregatedValue
      = { superstep := 1, values := statsMap 2 2 } ∧
    (Receive exampleCollaborators
        (Receive exampleCollaborators (exampleComputing 0 ["w1"] (statsMap 1 0))
          (Command.computeWorkerAck exampleW1 (statsMap 1 2))).1 Command.coordinatorStats).2
      = [Effect.respond (OutMessage.coordinatorStatsAck CoordinatorStateProcessing 1 2 2)] ∧
    (Receive exampleCollaborators (exampleComputing 3 ["w1"] (statsMap 0 0))
        (Command.computeWorkerAck exampleW1 (statsMap 0 0))).1.lastAggregatedValue
      = { superstep := 3, values := statsMap 0 0 } := by
  refine ⟨by decide, by decide, by decide⟩

/-! ### Idle coordinators wait for no ack -/

theorem setup_idleQuiet (c : Collaborators) (s : CoordinatorActor) (cmd : Command)
    (hb : s.behavior = Behavior.setup) : IdleQuiet (setup c s cmd).1 := by
  cases cmd <;> simp only [setup, IdleQuiet] <;> repeat' split
  all_goals simp_all [AckRecorder.clear]

theorem waitLoad_idleQuiet (c : Collaborators) (s : CoordinatorActor) (cmd : Command)
    (hb : s.behavior = Behavior.waitLoadPartitionVertices) :
    IdleQuiet (waitLoadPartitionVertices c s cmd).1 := by
  cases cmd <;> simp only [waitLoadPartitionVertices, IdleQuiet] <;> repeat' split
  all_goals simp_all [AckRecorder.clear]

theorem superstep_idleQuiet (c : Collaborators) (s : CoordinatorActor) (cmd : Command)
    (hb : s.behavior = Behavior.superstep) :
    IdleQuiet (superstep c s cmd).1 := by
  cases cmd <;> simp only [superstep, IdleQuiet, requestAll_eq] <;> repeat' split
  all_goals simp_all [AckRecorder.clear]

theorem computing_idleQuiet (c : Collaborators) (s : CoordinatorActor) (cmd : Command)
    (hb : s.behavior = Behavior.computing) :
    IdleQuiet (computing c s cmd).1 := by
  cases cmd <;> simp only [computing, finishStep, IdleQuiet, requestAll_eq] <;> repeat' split
  all_goals simp_all [AckRecorder.clear]

theorem idle_idleQuiet (c : Collaborators) (s : CoordinatorActor) (cmd : Command)
    (hq : IdleQuiet s) :
    IdleQuiet (idle c s cmd).1 := by
  cases cmd <;> simp only [idle, IdleQuiet, requestAll_eq] at hq ⊢ <;> repeat' split
  all_goals simp_all [AckRecorder.clear]

theorem Receive_idleQuiet (c : Collaborators) (s : CoordinatorActor) (cmd : Command)
    (hq : IdleQuiet s) : IdleQuiet (Receive c s cmd).1 := by
  have hbeh : IdleQuiet (behaviorReceive c s cmd).1 := by
    simp only [behaviorReceive]
    cases hb : s.behavior
    · exact setup_idleQuiet c s cmd hb
    · exact idle_idleQuiet c s cmd hq
    · exact waitLoad_idleQuiet c s cmd hb
    · exact superstep_idleQuiet c s cmd hb
    · exact computing_idleQuiet c s cmd hb
  cases cmd <;> simp only [Receive] <;> first | exact hbeh | (repeat' split) <;> exact hq

theorem run_idleQuiet (c : Collaborators) : ∀ (cmds : List Command) (s : CoordinatorActor),
    IdleQuiet s → IdleQuiet (run c s cmds).1 := by
  intro cmds
  induction cmds with
  | nil => intro s h; exact h
  | cons cmd rest ih =>
    intro s h
    simp only [run]
    exact ih _ (Receive_idleQuiet c s cmd h)

/-- When the coordinator, after any sequence of messages, is idle with a
cluster and receives `StartSuperStep`, afterwards `currentStep = 0`,
`aggregatedCurrentStep` is an empty map, one `SuperStepBarrier` has been sent to
every worker of the cluster, the ack set holds exactly the workers' ids, and the
state is the awaiting-barrier state, named "processing superstep". -/
theorem startSuperStep_from_idle (c : Collaborators) (cmds : List Command) (ci : ClusterInfo)
    (hb : (run c NewCoordinatorActor cmds).1.behavior = Behavior.idle)
    (hci : (run c NewCoordinatorActor cmds).1.clusterInfo = some ci) :
    (Receive c (run c NewCoordinatorActor cmds).1 Command.startSuperStep).1.currentStep = 0 ∧
    (Receive c (run c NewCoordinatorActor cmds).1 Command.startSuperStep).1.aggregatedCurrentStep
      = some [] ∧
    (Receive c (run c NewCoordinatorActor cmds).1 Command.startSuperStep).2
      = ci.workerInfo.map (fun wi => Effect.request wi.workerPid OutMessage.superStepBarrier) ∧
    (∀ id, id ∈ (Receive c (run c NewCoordinatorActor cmds).1
        Command.startSuperStep).1.ackRecorder.waiting
      ↔ ∃ wi ∈ ci.workerInfo, wi.workerPid.id = id) ∧
    (Receive c (run c NewCoordinatorActor cmds).1
        Command.startSuperStep).1.ackRecorder.waiting.Nodup ∧
    (Receive c (run c NewCoordinatorActor cmds).1 Command.startSuperStep).1.behavior
      = Behavior.superstep ∧
    (Receive c (run c NewCoordinatorActor cmds).1 Command.startSuperStep).1.stateName
      = "processing superstep" := by
  have hq : IdleQuiet (run c NewCoordinatorActor cmds).1 :=
    run_idleQuiet c cmds NewCoordinatorActor (by intro h; cases h)
  have hw := hq hb
  generalize (run c NewCoordinatorActor cmds).1 = s at hb hci hw
  have hstep : Receive c s Command.startSuperStep =
      ({ s with aggregatedCurrentStep := some [], currentStep := 0,
                ackRecorder := ci.workerInfo.foldl
                  (fun a wi => a.addToWaitList wi.workerPid.id) s.ackRecorder,
                behavior := Behavior.superstep, stateName := CoordinatorStateProcessing },
        ci.workerInfo.map (fun wi => Effect.request wi.workerPid OutMessage.superStepBarrier)) := by
    simp only [Receive, behaviorReceive, hb, idle, hci, requestAll_eq]
  rw [hstep]
  refine ⟨rfl, rfl, rfl, ?_, ?_, rfl, rfl⟩
  · intro id
    simp only [mem_waiting_foldl, hw, List.not_mem_nil, false_or]
  · apply nodup_waiting_foldl
    rw [hw]
    exact List.nodup_nil

/-- Instance of `startSuperStep_from_idle`: after the cluster of the two example
workers has been set up. -/
theorem startSuperStep_from_idle_witness :
    (Receive exampleCollaborators (run exampleCollaborators NewCoordinatorActor
        exampleSetupRun).1 Command.startSuperStep).1.currentStep = 0 ∧
    (Receive exampleCollaborators (run exampleCollaborators NewCoordinatorActor
        exampleSetupRun).1 Command.startSuperStep).2
      = [Effect.request exampleW0 OutMessage.superStepBarrier,
         Effect.request exampleW1 OutMessage.superStepBarrier] ∧
    (Receive exampleCollaborators (run exampleCollaborators NewCoordinatorActor
        exampleSetupRun).1 Command.startSuperStep).1.behavior = Behavior.superstep :=
  have h := startSuperStep_from_idle exampleCollaborators exampleSetupRun exampleCluster
    (by decide) (by decide)
  ⟨h.1, h.2.2.1, h.2.2.2.2.2.1⟩

/-- C9 at the failing input: the second worker of a `NewCluster`, a remote one,
cannot be spawned, and `setup` returns after `Fail` with the first worker in the
ack set and `clusterInfo` unset; the `InitWorkerAck` of the first worker then
completes the ack set and the coordinator becomes idle. On `StartSuperStep` this
idle coordinator dereferences the nil `clusterInfo` (coordinator.go, line 237) and
panics: no `SuperStepBarrier` is sent and the awaiting-barrier state is not
entered. With the cluster set up, the same message sends `SuperStepBarrier` to
both workers. -/
theorem startSuperStep_without_cluster_panics :
    (run exampleFailingSpawn NewCoordinatorActor exampleFailedSetupRun).2
      = [Effect.request exampleW0 (OutMessage.initWorker [0]),
         Effect.fail "failed to spawn remote actor"] ∧
    (run exampleFailingSpawn NewCoordinatorActor exampleFailedSetupRun).1.behavior
      = Behavior.idle ∧
    (run exampleFailingSpawn NewCoordinatorActor exampleFailedSetupRun).1.stateName
      = CoordinatorStateIdle ∧
    (run exampleFailingSpawn NewCoordinatorActor exampleFailedSetupRun).1.clusterInfo = none ∧
    (Receive exampleFailingSpawn
        (run exampleFailingSpawn NewCoordinatorActor exampleFailedSetupRun).1
        Command.startSuperStep).2 = [Effect.panic] ∧
    (Receive exampleFailingSpawn
        (run exampleFailingSpawn NewCoordinatorActor exampleFailedSetupRun).1
        Command.startSuperStep).1.behavior = Behavior.idle ∧
    (Receive exampleCollaborators
        (run exampleCollaborators NewCoordinatorActor exampleSetupRun).1
        Command.startSuperStep).2
      = [Effect.request exampleW0 OutMessage.superStepBarrier,
         Effect.request exampleW1 OutMessage.superStepBarrier] := by
  refine ⟨by decide, by decide, by decide, by decide, by decide, by decide, by decide⟩

/-! ### Waiting stages -/

theorem stage_step_unknown (c : Collaborators) (b : Behavior) (s : CoordinatorActor)
    (cmd : Command) (pid : PID) (hb : s.behavior = b)
    (hcmd : stageAckPid b cmd = some pid) (hmem : pid.id ∉ s.ackRecorder.waiting) :
    Receive c s cmd = (s, []) := by
  cases b <;> cases cmd <;> simp only [stageAckPid, Option.some.injEq] at hcmd <;> try cases hcmd
  all_goals
    simp [Receive, behaviorReceive, hb, setup, waitLoadPartitionVertices, superstep, computing,
      AckRecorder.ack, hmem]

theorem stage_step_pending (c : Collaborators) (b : Behavior) (s : CoordinatorActor)
    (cmd : Command) (pid : PID) (hb : s.behavior = b)
    (hcmd : stageAckPid b cmd = some pid) (hmem : pid.id ∈ s.ackRecorder.waiting)
    (hrest : s.ackRecorder.waiting.erase pid.id ≠ []) :
    ∃ agg effs, Receive c s cmd =
        ({ s with ackRecorder := ⟨s.ackRecorder.waiting.erase pid.id⟩,
                  aggregatedCurrentStep := agg }, effs) ∧
      effs.all Effect.isFail = true ∧
      (b ≠ Behavior.computing → agg = s.aggregatedCurrentStep ∧ effs = []) := by
  cases b <;> cases cmd <;> simp only [stageAckPid, Option.some.injEq] at hcmd <;> try cases hcmd
  · refine ⟨s.aggregatedCurrentStep, [], ?_, rfl, fun _ => ⟨rfl, rfl⟩⟩
    simp [Receive, behaviorReceive, hb, setup, AckRecorder.ack, hmem, AckRecorder.hasCompleted,
      hrest]
  · refine ⟨s.aggregatedCurrentStep, [], ?_, rfl, fun _ => ⟨rfl, rfl⟩⟩
    simp [Receive, behaviorReceive, hb, waitLoadPartitionVertices, AckRecorder.ack, hmem,
      AckRecorder.hasCompleted, hrest]
  · refine ⟨s.aggregatedCurrentStep, [], ?_, rfl, fun _ => ⟨rfl, rfl⟩⟩
    simp [Receive, behaviorReceive, hb, superstep, AckRecorder.ack, hmem,
      AckRecorder.hasCompleted, hrest]
  · rename_i vals
    cases hm : mergeAck c s.aggregatedCurrentStep vals with
    | mk base err =>
      cases err with
      | some e =>
        refine ⟨base, [Effect.fail e], ?_, rfl, fun h => absurd rfl h⟩
        simp [Receive, behaviorReceive, hb, computing, AckRecorder.ack, hmem, hm]
      | none =>
        refine ⟨base, [], ?_, rfl, fun h => absurd rfl h⟩
        simp [Receive, behaviorReceive, hb, computing, AckRecorder.ack, hmem, hm,
          AckRecorder.hasCompleted, hrest]

theorem other_stage_ack (c : Collaborators) (b : Behavior) (s : CoordinatorActor)
    (cmd : Command) (pid : PID) (hcmd : stageAckPid b cmd = some pid)
    (hb : s.behavior ≠ b) :
    ∃ err, Receive c s cmd = (s, [Effect.fail err]) := by
  cases b <;> cases cmd <;> simp only [stageAckPid, Option.some.injEq] at hcmd <;> try cases hcmd
  all_goals
    cases hs : s.behavior <;> first
      | exact absurd hs hb
      | simp [Receive, behaviorReceive, hs, setup, idle, waitLoadPartitionVertices,
          superstep, computing]

theorem remaining_nil (w : List String) : remaining w [] = w := by
  simp [remaining]

theorem remaining_cons (w acked : List String) (id : String) (hn : w.Nodup) :
    remaining w (id :: acked) = remaining (w.erase id) acked := by
  rw [hn.erase_eq_filter]
  simp only [remaining, List.filter_filter]
  apply List.filter_congr
  intro x _
  by_cases h1 : x = id <;> by_cases h2 : x ∈ acked <;> simp [h1, h2]

theorem remaining_ne_nil_of_cons (w acked : List String) (id : String) (hn : w.Nodup)
    (h : remaining w (id :: acked) ≠ []) : w.erase id ≠ [] := by
  intro he
  rw [remaining_cons w acked id hn, he] at h
  exact h rfl

theorem singleton_of_all_eq (l : List String) (a : String) (h : l.Nodup) (hne : l ≠ [])
    (hall : ∀ x ∈ l, x = a) : l = [a] := by
  match l, h, hne, hall with
  | [x], _, _, hall => simp [hall x (by simp)]
  | x :: y :: t, h, _, hall =>
    have h1 := hall x (by simp)
    have h2 := hall y (by simp)
    simp [h1, h2] at h

/-- While some worker's ack is outstanding, stage acks only shrink the wait list
(and, when computing, merge values): the behaviour and everything else stay. -/
theorem run_pending (c : Collaborators) (b : Behavior) : ∀ (cmds : List Command)
    (s : CoordinatorActor), s.behavior = b → s.ackRecorder.waiting.Nodup →
    (∀ cmd ∈ cmds, ∃ pid, stageAckPid b cmd = some pid) →
    remaining s.ackRecorder.waiting (ackedIds b cmds) ≠ [] →
    ∃ agg effs, run c s cmds =
        ({ s with ackRecorder := ⟨remaining s.ackRecorder.waiting (ackedIds b cmds)⟩,
                  aggregatedCurrentStep := agg }, effs) ∧
      effs.all Effect.isFail = true ∧
      (b ≠ Behavior.computing → agg = s.aggregatedCurrentStep ∧ effs = []) := by
  intro cmds
  induction cmds with
  | nil =>
    intro s _ _ _ _
    exact ⟨s.aggregatedCurrentStep, [], by simp [run, ackedIds, remaining_nil], rfl,
      fun _ => ⟨rfl, rfl⟩⟩
  | cons cmd rest ih =>
    intro s hb hn hcmds hrem
    obtain ⟨pid, hpid⟩ := hcmds cmd (List.mem_cons_self _ _)
    have hacked : ackedIds b (cmd :: rest) = pid.id :: ackedIds b rest := by
      simp [ackedIds, List.filterMap_cons, hpid]
    rw [hacked] at hrem ⊢
    have hrest : ∀ cmd ∈ rest, ∃ pid, stageAckPid b cmd = some pid :=
      fun x hx => hcmds x (List.mem_cons_of_mem _ hx)
    by_cases hmem : pid.id ∈ s.ackRecorder.waiting
    · have hne := remaining_ne_nil_of_cons _ _ _ hn hrem
      obtain ⟨agg1, effs1, hstep, hfail1, hother1⟩ :=
        stage_step_pending c b s cmd pid hb hpid hmem hne
      rw [remaining_cons _ _ _ hn] at hrem ⊢
      obtain ⟨agg2, effs2, hrun, hfail2, hother2⟩ :=
        ih { s with ackRecorder := ⟨s.ackRecorder.waiting.erase pid.id⟩,
                    aggregatedCurrentStep := agg1 } hb (hn.erase _) hrest hrem
      refine ⟨agg2, effs1 ++ effs2, ?_, ?_, ?_⟩
      · simp only [run, hstep, hrun]
      · rw [List.all_append, hfail1, hfail2]; rfl
      · intro hc
        obtain ⟨h1, h2⟩ := hother1 hc
        obtain ⟨h3, h4⟩ := hother2 hc
        exact ⟨by rw [h3, h1], by rw [h2, h4]; rfl⟩
    · have hstep := stage_step_unknown c b s cmd pid hb hpid hmem
      rw [remaining_cons _ _ _ hn, List.erase_of_not_mem hmem] at hrem ⊢
      obtain ⟨agg2, effs2, hrun, hfail2, hother2⟩ := ih s hb hn hrest hrem
      refine ⟨agg2, effs2, ?_, hfail2, hother2⟩
      simp only [run, hstep, hrun, List.nil_append]

/-- A coordinator that has left the stage ignores further acks of the stage: each
is an unhandled command. -/
theorem run_other_stage (c : Collaborators) (b : Behavior) : ∀ (cmds : List Command)
    (s : CoordinatorActor), s.behavior ≠ b →
    (∀ cmd ∈ cmds, ∃ pid, stageAckPid b cmd = some pid) →
    (run c s cmds).1 = s ∧ (run c s cmds).2.all Effect.isFail = true := by
  intro cmds
  induction cmds with
  | nil => intro s _ _; exact ⟨rfl, rfl⟩
  | cons cmd rest ih =>
    intro s hb hcmds
    obtain ⟨pid, hpid⟩ := hcmds cmd (List.mem_cons_self _ _)
    obtain ⟨err, hstep⟩ := other_stage_ack c b s cmd pid hpid hb
    have h := ih s hb (fun x hx => hcmds x (List.mem_cons_of_mem _ hx))
    simp only [run, hstep]
    exact ⟨h.1, by rw [List.all_append, h.2]; rfl⟩

theorem remaining_append_singleton (w acked : List String) (x : String)
    (h : remaining w (acked ++ [x]) = []) : ∀ y ∈ remaining w acked, y = x := by
  intro y hy
  simp only [remaining, List.mem_filter, decide_eq_true_eq] at hy
  simp only [remaining, List.filter_eq_nil_iff, decide_eq_true_eq, not_not] at h
  have := h y hy.1
  simp only [List.mem_append, List.mem_singleton] at this
  rcases this with h1 | h1
  · exact absurd h1 hy.2
  · exact h1

/-- The ack of the last outstanding worker performs the exit of the stage. -/
theorem stage_step_exit (c : Collaborators) (b : Behavior) (s : CoordinatorActor)
    (ci : ClusterInfo) (last : Command) (pid : PID)
    (hb : s.behavior = b) (hci : s.clusterInfo = some ci)
    (hcmd : stageAckPid b last = some pid) (hw : s.ackRecorder.waiting = [pid.id])
    (hplug : b = Behavior.computing → ∃ p vals merged stats,
      last = Command.computeWorkerAck p vals ∧
      mergeAck c s.aggregatedCurrentStep vals = (merged, none) ∧
      getStats c merged = Except.ok stats) :
    (Receive c s last).1.behavior ≠ b ∧
    (b = Behavior.setup ∨ b = Behavior.waitLoadPartitionVertices →
      (Receive c s last).1.behavior = Behavior.idle ∧
      (Receive c s last).1.stateName = CoordinatorStateIdle ∧
      (Receive c s last).2 = []) ∧
    (b = Behavior.superstep →
      (Receive c s last).1.behavior = Behavior.computing ∧
      (Receive c s last).1.stateName = CoordinatorStateProcessingComputing ∧
      (Receive c s last).2 = ci.workerInfo.map (fun wi => Effect.request wi.workerPid
        (OutMessage.compute s.currentStep s.lastAggregatedValue.values))) ∧
    (b = Behavior.computing →
      ((Receive c s last).1.behavior = Behavior.idle ∧
        (Receive c s last).1.stateName = CoordinatorStateIdle ∧
        (Receive c s last).2 = []) ∨
      ((Receive c s last).1.behavior = Behavior.superstep ∧
        (Receive c s last).1.stateName = CoordinatorStateProcessing ∧
        (Receive c s last).2 = ci.workerInfo.map
          (fun wi => Effect.request wi.workerPid OutMessage.superStepBarrier))) := by
  have hack : s.ackRecorder.ack pid.id = (⟨[]⟩, true) := by
    simp [AckRecorder.ack, hw]
  cases b <;> cases last <;> simp only [stageAckPid, Option.some.injEq] at hcmd <;>
    try cases hcmd
  · simp [Receive, behaviorReceive, hb, setup, hack, AckRecorder.hasCompleted,
      AckRecorder.clear]
  · simp [Receive, behaviorReceive, hb, waitLoadPartitionVertices, hack,
      AckRecorder.hasCompleted, AckRecorder.clear]
  · simp [Receive, behaviorReceive, hb, superstep, hack, AckRecorder.hasCompleted,
      AckRecorder.clear, hci, requestAll_eq]
  · rename_i av
    obtain ⟨p, vals, merged, stats, hl, hmerge, hstats⟩ := hplug rfl
    injection hl with h1 h2
    subst h1 h2
    rw [computing_completing c s pid av ⟨[]⟩ merged hb hack rfl hmerge,
      finishStep_ok c { s with ackRecorder := ⟨[]⟩, aggregatedCurrentStep := merged } ci stats
        hci hstats]
    by_cases hz : stats.activeVertices = 0 ∧ stats.messagesSent = 0
    · simp [hz]
    · simp [hz]

/-- C8 (amended): in each waiting stage `b` (worker initialisation, vertex loading,
awaiting barrier, computing) entered with distinct worker ids in the ack set, let
`pre` be stage acks, in any order and with any duplicates and unknown senders,
after which some worker's ack is outstanding, and `last` the ack that makes all
workers acknowledged; in the computing stage let merging the values of `last` and
extracting the `VertexStats` succeed. Then (1) during `pre` the coordinator stays
in the stage and does nothing but report failed merges; (2) at `last` it performs
the stage-exit action, the transition and the next broadcast; (3) whatever stage
acks `post` follow, it does not act again. -/
theorem stage_exit_exactly_once (c : Collaborators) (b : Behavior) (s : CoordinatorActor)
    (ci : ClusterInfo) (pre : List Command) (last : Command) (post : List Command)
    (hb : s.behavior = b) (hci : s.clusterInfo = some ci)
    (hn : s.ackRecorder.waiting.Nodup)
    (hpre : ∀ cmd ∈ pre, (stageAckPid b cmd).isSome = true)
    (hlast : (stageAckPid b last).isSome = true)
    (hpost : ∀ cmd ∈ post, (stageAckPid b cmd).isSome = true)
    (hout : remaining s.ackRecorder.waiting (ackedIds b pre) ≠ [])
    (hall : remaining s.ackRecorder.waiting (ackedIds b (pre ++ [last])) = [])
    (hplug : b = Behavior.computing → ∃ p vals merged stats,
      last = Command.computeWorkerAck p vals ∧
      mergeAck c (run c s pre).1.aggregatedCurrentStep vals = (merged, none) ∧
      getStats c merged = Except.ok stats) :
    ((run c s pre).1.behavior = b ∧ (run c s pre).1.stateName = s.stateName ∧
      (run c s pre).2.all Effect.isFail = true ∧
      (b ≠ Behavior.computing → (run c s pre).2 = [])) ∧
    ((Receive c (run c s pre).1 last).1.behavior ≠ b ∧
      (b = Behavior.setup ∨ b = Behavior.waitLoadPartitionVertices →
        (Receive c (run c s pre).1 last).1.behavior = Behavior.idle ∧
        (Receive c (run c s pre).1 last).1.stateName = CoordinatorStateIdle ∧
        (Receive c (run c s pre).1 last).2 = []) ∧
      (b = Behavior.superstep →
        (Receive c (run c s pre).1 last).1.behavior = Behavior.computing ∧
        (Receive c (run c s pre).1 last).1.stateName = CoordinatorStateProcessingComputing ∧
        (Receive c (run c s pre).1 last).2 = ci.workerInfo.map (fun wi =>
          Effect.request wi.workerPid
            (OutMessage.compute s.currentStep s.lastAggregatedValue.values))) ∧
      (b = Behavior.computing →
        ((Receive c (run c s pre).1 last).1.behavior = Behavior.idle ∧
          (Receive c (run c s pre).1 last).1.stateName = CoordinatorStateIdle ∧
          (Receive c (run c s pre).1 last).2 = []) ∨
        ((Receive c (run c s pre).1 last).1.behavior = Behavior.superstep ∧
          (Receive c (run c s pre).1 last).1.stateName = CoordinatorStateProcessing ∧
          (Receive c (run c s pre).1 last).2 = ci.workerInfo.map
            (fun wi => Effect.request wi.workerPid OutMessage.superStepBarrier)))) ∧
    ((run c (Receive c (run c s pre).1 last).1 post).1 = (Receive c (run c s pre).1 last).1 ∧
      (run c (Receive c (run c s pre).1 last).1 post).2.all Effect.isFail = true) := by
  have hpre2 : ∀ cmd ∈ pre, ∃ pid, stageAckPid b cmd = some pid :=
    fun cmd h => Option.isSome_iff_exists.mp (hpre cmd h)
  have hpost2 : ∀ cmd ∈ post, ∃ pid, stageAckPid b cmd = some pid :=
    fun cmd h => Option.isSome_iff_exists.mp (hpost cmd h)
  obtain ⟨pidL, hl⟩ := Option.isSome_iff_exists.mp hlast
  obtain ⟨agg1, effs1, hrun, hfail, hother⟩ := run_pending c b pre s hb hn hpre2 hout
  have hacked : ackedIds b (pre ++ [last]) = ackedIds b pre ++ [pidL.id] := by
    simp [ackedIds, List.filterMap_append, hl]
  rw [hacked] at hall
  have hr : remaining s.ackRecorder.waiting (ackedIds b pre) = [pidL.id] :=
    singleton_of_all_eq _ _ (hn.filter _) hout (remaining_append_singleton _ _ _ hall)
  rw [hrun] at hplug ⊢
  have hexit := stage_step_exit c b
    { s with ackRecorder := ⟨remaining s.ackRecorder.waiting (ackedIds b pre)⟩,
             aggregatedCurrentStep := agg1 } ci last pidL hb hci hl hr hplug
  refine ⟨⟨hb, rfl, hfail, fun h => (hother h).2⟩, hexit, ?_⟩
  exact run_other_stage c b post _ hexit.1 hpost2

/-- Instance of C8 (amended) in the computing stage of step 0 with two workers:
`w0` acks, acks again, a stranger acks, then `w1` acks and the coordinator moves on
to the barrier of step 1, once; a late ack of `w1` changes nothing. -/
theorem stage_exit_exactly_once_witness :
    (run exampleCollaborators (exampleComputing 0 ["w0", "w1"] (some []))
        [Command.computeWorkerAck exampleW0 (statsMap 1 0),
         Command.computeWorkerAck exampleW0 (statsMap 5 5),
         Command.computeWorkerAck exampleStranger none]).1.behavior = Behavior.computing ∧
    (Receive exampleCollaborators
        (run exampleCollaborators (exampleComputing 0 ["w0", "w1"] (some []))
          [Command.computeWorkerAck exampleW0 (statsMap 1 0),
           Command.computeWorkerAck exampleW0 (statsMap 5 5),
           Command.computeWorkerAck exampleStranger none]).1
        (Command.computeWorkerAck exampleW1 (statsMap 1 2))).1.behavior ≠ Behavior.computing ∧
    (run exampleCollaborators
        (Receive exampleCollaborators
          (run exampleCollaborators (exampleComputing 0 ["w0", "w1"] (some []))
            [Command.computeWorkerAck exampleW0 (statsMap 1 0),
             Command.computeWorkerAck exampleW0 (statsMap 5 5),
             Command.computeWorkerAck exampleStranger none]).1
          (Command.computeWorkerAck exampleW1 (statsMap 1 2))).1
        [Command.computeWorkerAck exampleW1 (statsMap 1 2)]).1
      = (Receive exampleCollaborators
          (run exampleCollaborators (exampleComputing 0 ["w0", "w1"] (some []))
            [Command.computeWorkerAck exampleW0 (statsMap 1 0),
             Command.computeWorkerAck exampleW0 (statsMap 5 5),
             Command.computeWorkerAck exampleStranger none]).1
          (Command.computeWorkerAck exampleW1 (statsMap 1 2))).1 :=
  have h := stage_exit_exactly_once exampleCollaborators Behavior.computing
    (exampleComputing 0 ["w0", "w1"] (some [])) exampleCluster
    [Command.computeWorkerAck exampleW0 (statsMap 1 0),
     Command.computeWorkerAck exampleW0 (statsMap 5 5),
     Command.computeWorkerAck exampleStranger none]
    (Command.computeWorkerAck exampleW1 (statsMap 1 2))
    [Command.computeWorkerAck exampleW1 (statsMap 1 2)]
    rfl rfl (by decide) (by decide) (by decide) (by decide) (by decide) (by decide)
    (fun _ => ⟨exampleW1, statsMap 1 2, statsMap 2 2,
      { activeVertices := 2, messagesSent := 2 }, rfl, rfl, rfl⟩)
  ⟨h.1.1, h.2.1.1, h.2.2.1⟩

/-- C8 as stated fails in the computing stage: `w1` is the only worker whose ack
is outstanding, and its ack makes all workers acknowledged. When the plugin
rejects the values it carries, or when the merged values hold no `VertexStats`,
the handler ends with `Fail`: no transition and no broadcast, at this ack or at
any later one, the wait list being empty from then on. -/
theorem computing_stage_not_left_on_plugin_error :
    (Receive exampleCollaborators (exampleComputing 0 ["w1"] (statsMap 1 0))
        (Command.computeWorkerAck exampleW1 exampleRejected)).1.behavior = Behavior.computing ∧
    (Receive exampleCollaborators (exampleComputing 0 ["w1"] (statsMap 1 0))
        (Command.computeWorkerAck exampleW1 exampleRejected)).1.ackRecorder.waiting = [] ∧
    (Receive exampleCollaborators (exampleComputing 0 ["w1"] (statsMap 1 0))
        (Command.computeWorkerAck exampleW1 exampleRejected)).2
      = [Effect.fail "unknown aggregator"] ∧
    (Receive exampleCollaborators (exampleComputing 0 ["w1"] (some []))
        (Command.computeWorkerAck exampleW1 none)).1.behavior = Behavior.computing ∧
    (Receive exampleCollaborators (exampleComputing 0 ["w1"] (some []))
        (Command.computeWorkerAck exampleW1 none)).1.ackRecorder.waiting = [] ∧
    (Receive exampleCollaborators (exampleComputing 0 ["w1"] (some []))
        (Command.computeWorkerAck exampleW1 none)).2
      = [Effect.fail "no such aggregated value"] ∧
    (Receive exampleCollaborators
        (Receive exampleCollaborators (exampleComputing 0 ["w1"] (statsMap 1 0))
          (Command.computeWorkerAck exampleW1 exampleRejected)).1
        (Command.computeWorkerAck exampleW1 (statsMap 0 0)))
      = ((Receive exampleCollaborators (exampleComputing 0 ["w1"] (statsMap 1 0))
          (Command.computeWorkerAck exampleW1 exampleRejected)).1, []) := by
  refine ⟨by decide, by decide, by decide, by decide, by decide, by decide, by decide⟩

/-! ### The values a `Compute` command carries -/

theorem mergeAll_snoc (c : Collaborators) (acks : List GoMap) (vals : GoMap) :
    mergeAll c (acks ++ [vals]) = (mergeAck c (mergeAll c acks) vals).1 := by
  simp [mergeAll, List.foldl_append]

theorem logInv_setup (c : Collaborators) (s : CoordinatorActor) (log : StepLog)
    (cmd : Command) (hb : s.behavior = Behavior.setup) :
    LogInv c (setup c s cmd).1 log := by
  cases cmd <;> simp only [setup, LogInv] <;> repeat' split
  all_goals simp_all

theorem logInv_waitLoad (c : Collaborators) (s : CoordinatorActor) (log : StepLog)
    (cmd : Command) (hb : s.behavior = Behavior.waitLoadPartitionVertices) :
    LogInv c (waitLoadPartitionVertices c s cmd).1 log := by
  cases cmd <;> simp only [waitLoadPartitionVertices, LogInv] <;> repeat' split
  all_goals simp_all

theorem logInv_superstep (c : Collaborators) (s : CoordinatorActor) (log : StepLog)
    (cmd : Command) (hb : s.behavior = Behavior.superstep) (h : LogInv c s log) :
    LogInv c (superstep c s cmd).1 log := by
  cases cmd <;> simp only [superstep, LogInv, requestAll_eq] at h ⊢ <;> repeat' split
  all_goals simp_all [mergeAll]


theorem logInv_idle (c : Collaborators) (s : CoordinatorActor) (log : StepLog)
    (cmd : Command) (hb : s.behavior = Behavior.idle) :
    LogInv c (idle c s cmd).1 (logStep c s log cmd) := by
  cases cmd <;> simp only [idle, LogInv, logStep, requestAll_eq, hb] <;> repeat' split
  all_goals simp_all [mergeAll]

theorem logInv_computing_ack (c : Collaborators) (s : CoordinatorActor) (log : StepLog)
    (pid : PID) (vals : GoMap) (hb : s.behavior = Behavior.computing) (h : LogInv c s log) :
    LogInv c (computing c s (Command.computeWorkerAck pid vals)).1
      (logStep c s log (Command.computeWorkerAck pid vals)) := by
  have hagg := h.1 hb
  have hsnoc : mergeAll c (log.current ++ [vals])
      = (mergeAck c s.aggregatedCurrentStep vals).1 := by
    rw [mergeAll_snoc, hagg]
  by_cases hmem : pid.id ∈ s.ackRecorder.waiting
  · cases hm : mergeAck c s.aggregatedCurrentStep vals with
    | mk base err =>
      rw [hm] at hsnoc
      cases err with
      | some e =>
        simp [computing, AckRecorder.ack, hmem, hm, logStep, Receive, behaviorReceive, hb,
          LogInv, hsnoc]
      | none =>
        by_cases hdone : (s.ackRecorder.waiting.erase pid.id).isEmpty = true
        · cases hst : getStats c base with
          | error e =>
            simp [computing, AckRecorder.ack, hmem, hm, logStep, Receive, behaviorReceive, hb,
              LogInv, hsnoc, AckRecorder.hasCompleted, hdone, finishStep, hst]
          | ok stats =>
            by_cases hz : stats.activeVertices = 0 ∧ stats.messagesSent = 0
            · simp [computing, AckRecorder.ack, hmem, hm, logStep, Receive, behaviorReceive,
                hb, LogInv, AckRecorder.hasCompleted, hdone, finishStep, hst, hz]
            · cases hci : s.clusterInfo with
              | none =>
                simp [computing, AckRecorder.ack, hmem, hm, logStep, Receive, behaviorReceive,
                  hb, LogInv, hsnoc, AckRecorder.hasCompleted, hdone, finishStep, hst, hz, hci]
              | some ci =>
                simp [computing, AckRecorder.ack, hmem, hm, logStep, Receive, behaviorReceive,
                  hb, LogInv, hsnoc, AckRecorder.hasCompleted, hdone, finishStep, hst, hz, hci,
                  requestAll_eq]
        · simp [computing, AckRecorder.ack, hmem, hm, logStep, Receive, behaviorReceive, hb,
            LogInv, hsnoc, AckRecorder.hasCompleted, hdone]
  · simp only [computing, AckRecorder.ack, hmem, logStep, and_false, if_false]
    exact h

theorem logInv_computing (c : Collaborators) (s : CoordinatorActor) (log : StepLog)
    (cmd : Command) (hb : s.behavior = Behavior.computing) (h : LogInv c s log) :
    LogInv c (computing c s cmd).1 (logStep c s log cmd) := by
  cases cmd
  case computeWorkerAck pid vals => exact logInv_computing_ack c s log pid vals hb h
  all_goals
    simp only [computing, logStep, hb]
    exact h

theorem logStep_eq_of_not (c : Collaborators) (s : CoordinatorActor) (log : StepLog)
    (cmd : Command) (h1 : s.behavior ≠ Behavior.computing) (h2 : s.behavior ≠ Behavior.idle) :
    logStep c s log cmd = log := by
  cases cmd <;> simp [logStep, h1, h2]

theorem logInv_Receive (c : Collaborators) (s : CoordinatorActor) (log : StepLog)
    (cmd : Command) (h : LogInv c s log) :
    LogInv c (Receive c s cmd).1 (logStep c s log cmd) := by
  have hbeh : LogInv c (behaviorReceive c s cmd).1 (logStep c s log cmd) := by
    simp only [behaviorReceive]
    cases hb : s.behavior
    · rw [logStep_eq_of_not c s log cmd (by simp [hb]) (by simp [hb])]
      exact logInv_setup c s log cmd hb
    · exact logInv_idle c s log cmd hb
    · rw [logStep_eq_of_not c s log cmd (by simp [hb]) (by simp [hb])]
      exact logInv_waitLoad c s log cmd hb
    · rw [logStep_eq_of_not c s log cmd (by simp [hb]) (by simp [hb])]
      exact logInv_superstep c s log cmd hb h
    · exact logInv_computing c s log cmd hb h
  cases cmd <;> simp only [Receive] <;> first
    | exact hbeh
    | (simp only [logStep]; (repeat' split) <;> exact h)

theorem logInv_runLog (c : Collaborators) : ∀ (cmds : List Command) (s : CoordinatorActor)
    (log : StepLog), LogInv c s log →
    LogInv c (runLog c s log cmds).1 (runLog c s log cmds).2 := by
  intro cmds
  induction cmds with
  | nil => intro s log h; exact h
  | cons cmd rest ih =>
    intro s log h
    simp only [runLog]
    exact ih _ _ (logInv_Receive c s log cmd h)


theorem spawnWorkers_no_compute (c : Collaborators) (assigned : List (List Nat)) (pid : PID)
    (N : Nat) (vals : GoMap) : ∀ (workers : List WorkerReq) (i : Nat) (ar : AckRecorder)
    (infos : List WorkerInfo) (effs : List Effect),
    Effect.request pid (OutMessage.compute N vals) ∉ effs →
    Effect.request pid (OutMessage.compute N vals)
      ∉ (spawnWorkers c assigned workers i ar infos effs).2.1 := by
  intro workers
  induction workers with
  | nil => intro i ar infos effs h; simpa [spawnWorkers] using h
  | cons w ws ih =>
    intro i ar infos effs h
    simp only [spawnWorkers]
    cases hsp : c.spawn i w with
    | error err =>
      by_cases hr : w.remote = true <;> simp [hr, h]
    | ok p =>
      simp only []
      apply ih
      simp [h]

theorem setup_no_compute (c : Collaborators) (s : CoordinatorActor) (cmd : Command)
    (pid : PID) (N : Nat) (vals : GoMap) :
    Effect.request pid (OutMessage.compute N vals) ∉ (setup c s cmd).2 := by
  cases cmd
  case newCluster workers nr =>
    simp only [setup]
    cases s.clusterInfo with
    | some ci => simp
    | none =>
      simp only []
      cases assignPartition c.maxAlloc workers.length nr with
      | error err => simp
      | panicked => simp
      | ok assigned =>
        simp only []
        have hsp := spawnWorkers_no_compute c assigned pid N vals workers 0
          s.ackRecorder.clear [] [] (by simp)
        rcases hres : spawnWorkers c assigned workers 0 s.ackRecorder.clear [] [] with
          ⟨ar1, effs, infos⟩
        rw [hres] at hsp
        cases infos with
        | none => simpa using hsp
        | some infos =>
          simp only [List.mem_append, List.mem_map, List.mem_singleton, not_or]
          refine ⟨⟨hsp, ?_⟩, by simp⟩
          rintro ⟨wi, _, hwi⟩
          cases hwi
  all_goals
    simp only [setup]
    repeat' split
    all_goals simp

theorem idle_no_compute (c : Collaborators) (s : CoordinatorActor) (cmd : Command)
    (pid : PID) (N : Nat) (vals : GoMap) :
    Effect.request pid (OutMessage.compute N vals) ∉ (idle c s cmd).2 := by
  cases cmd <;> simp only [idle, requestAll_eq] <;> repeat' split
  all_goals simp

theorem waitLoad_no_compute (c : Collaborators) (s : CoordinatorActor) (cmd : Command)
    (pid : PID) (N : Nat) (vals : GoMap) :
    Effect.request pid (OutMessage.compute N vals)
      ∉ (waitLoadPartitionVertices c s cmd).2 := by
  cases cmd <;> simp only [waitLoadPartitionVertices] <;> repeat' split
  all_goals simp

theorem computing_no_compute (c : Collaborators) (s : CoordinatorActor) (cmd : Command)
    (pid : PID) (N : Nat) (vals : GoMap) :
    Effect.request pid (OutMessage.compute N vals) ∉ (computing c s cmd).2 := by
  cases cmd <;> simp only [computing, finishStep, requestAll_eq] <;> repeat' split
  all_goals simp

theorem superstep_compute (c : Collaborators) (s : CoordinatorActor) (cmd : Command)
    (pid : PID) (N : Nat) (vals : GoMap)
    (h : Effect.request pid (OutMessage.compute N vals) ∈ (superstep c s cmd).2) :
    N = s.currentStep ∧ vals = s.lastAggregatedValue.values := by
  cases cmd <;> simp only [superstep, requestAll_eq] at h <;> (repeat' split at h)
  all_goals simp at h
  all_goals
    obtain ⟨wi, _, _, h1, h2⟩ := h
    exact ⟨h1.symm, h2.symm⟩

/-- A `Compute` request is sent only when the barrier stage is left, and carries
the current step and the published snapshot. -/
theorem compute_request_origin (c : Collaborators) (s : CoordinatorActor) (cmd : Command)
    (pid : PID) (N : Nat) (vals : GoMap)
    (h : Effect.request pid (OutMessage.compute N vals) ∈ (Receive c s cmd).2) :
    s.behavior = Behavior.superstep ∧ N = s.currentStep ∧
      vals = s.lastAggregatedValue.values := by
  have hbeh : Effect.request pid (OutMessage.compute N vals) ∈ (behaviorReceive c s cmd).2 →
      s.behavior = Behavior.superstep ∧ N = s.currentStep ∧
        vals = s.lastAggregatedValue.values := by
    intro h
    simp only [behaviorReceive] at h
    cases hb : s.behavior <;> rw [hb] at h <;> simp only [] at h
    · exact absurd h (setup_no_compute c s cmd pid N vals)
    · exact absurd h (idle_no_compute c s cmd pid N vals)
    · exact absurd h (waitLoad_no_compute c s cmd pid N vals)
    · exact ⟨rfl, superstep_compute c s cmd pid N vals h⟩
    · exact absurd h (computing_no_compute c s cmd pid N vals)
  cases cmd <;> simp only [Receive] at h <;> first
    | exact hbeh h
    | (exfalso; revert h; (repeat' split) <;> simp)

theorem runLog_fst (c : Collaborators) : ∀ (cmds : List Command) (s : CoordinatorActor)
    (log : StepLog), (runLog c s log cmds).1 = (run c s cmds).1 := by
  intro cmds
  induction cmds with
  | nil => intro s log; rfl
  | cons cmd rest ih => intro s log; simp only [runLog, run, ih]

/-- C7: in every run, a `Compute` command the coordinator broadcasts for a step
`N ≥ 1` is sent with `currentStep = N` and carries the map obtained by merging,
from an empty map, the values of exactly the `ComputeWorkerAck`s accepted during
the step completed last, which is step `N - 1`; the accumulator of step `N` is a
fresh empty map at that moment. -/
theorem compute_carries_previous_step (c : Collaborators) (cmds : List Command)
    (cmd : Command) (pid : PID) (N : Nat) (vals : GoMap)
    (hreq : Effect.request pid (OutMessage.compute N vals)
      ∈ (Receive c (run c NewCoordinatorActor cmds).1 cmd).2)
    (hN : 1 ≤ N) :
    N = (run c NewCoordinatorActor cmds).1.currentStep ∧
    u64add (runLog c NewCoordinatorActor StepLog.init cmds).2.previousStep 1 = N ∧
    vals = mergeAll c (runLog c NewCoordinatorActor StepLog.init cmds).2.previous ∧
    (run c NewCoordinatorActor cmds).1.aggregatedCurrentStep = some [] ∧
    (runLog c NewCoordinatorActor StepLog.init cmds).2.current = [] := by
  have hinv := logInv_runLog c cmds NewCoordinatorActor StepLog.init
    ⟨(by intro h; cases h), (by intro h; cases h), (by intro h; cases h)⟩
  rw [runLog_fst] at hinv
  obtain ⟨hb, hstep, hvals⟩ := compute_request_origin c _ cmd pid N vals hreq
  obtain ⟨_, h2, h3⟩ := hinv
  have h3a := h3 hb (by rw [← hstep]; exact hN)
  exact ⟨hstep, by rw [h3a.2, hstep], by rw [hvals, h3a.1], (h2 hb).1, (h2 hb).2⟩

/-- Instance of C7: in the example job the `Compute` of step 1 carries the
statistics of step 0 merged from both workers' acks. -/
theorem compute_carries_previous_step_witness :
    1 = (run exampleCollaborators NewCoordinatorActor exampleJobRun).1.currentStep ∧
    u64add (runLog exampleCollaborators NewCoordinatorActor StepLog.init
      exampleJobRun).2.previousStep 1 = 1 ∧
    statsMap 2 2 = mergeAll exampleCollaborators
      (runLog exampleCollaborators NewCoordinatorActor StepLog.init exampleJobRun).2.previous ∧
    (run exampleCollaborators NewCoordinatorActor exampleJobRun).1.aggregatedCurrentStep
      = some [] ∧
    (runLog exampleCollaborators NewCoordinatorActor StepLog.init exampleJobRun).2.current = [] :=
  compute_carries_previous_step exampleCollaborators exampleJobRun
    (Command.superStepBarrierWorkerAck exampleW1) exampleW0 1 (statsMap 2 2)
    (by decide) (by decide)

/-! ### The partition actor -/

theorem waiting_foldl_add : ∀ (V A : List String), (A ++ V).Nodup →
    (V.foldl (fun (ar : AckRecorder) v => ar.addToWaitList v) (⟨A⟩ : AckRecorder)).waiting
      = A ++ V := by
  intro V
  induction V with
  | nil => intro A _; simp
  | cons v vs ih =>
    intro A h
    have hv : v ∉ A := by
      intro hm
      have := List.nodup_append.mp h
      exact this.2.2 hm (List.mem_cons_self _ _)
    have hadd : (⟨A⟩ : AckRecorder).addToWaitList v = ⟨A ++ [v]⟩ := by
      simp [AckRecorder.addToWaitList, hv]
    rw [List.foldl_cons, hadd, ih (A ++ [v]) (by simpa using h)]
    simp

theorem countP_eq_zero_of_forall (l : List PartitionEffect)
    (h : ∀ e ∈ l, isStageReply e = false) : l.countP isStageReply = 0 := by
  rw [List.countP_eq_zero]
  intro e he
  rw [h e he]
  decide

theorem isStageReply_stageReply (stage : PartitionPhase) (p : Nat) :
    isStageReply (stageReply stage p) = true := by
  cases stage <;> rfl

/-- The three outcomes of recording an ack: the vertex is not awaited, it was the
last one awaited, or others are still awaited. -/
theorem countAck_eq (s : PartitionActor) (vid : String) (reply : PartitionMessage) :
    countAck s vid reply =
      if vid ∈ s.ackRecorder.waiting then
        if s.ackRecorder.waiting.erase vid = [] then
          ({ s with ackRecorder := ⟨[]⟩, phase := PartitionPhase.idle, held := [] },
            [PartitionEffect.toParent reply])
        else ({ s with ackRecorder := ⟨s.ackRecorder.waiting.erase vid⟩ }, [])
      else (s, []) := by
  by_cases hm : vid ∈ s.ackRecorder.waiting
  · by_cases he : s.ackRecorder.waiting.erase vid = []
    · simp [countAck, AckRecorder.ack, hm, he, AckRecorder.hasCompleted, AckRecorder.clear]
    · simp [countAck, AckRecorder.ack, hm, he, AckRecorder.hasCompleted]
  · simp [countAck, AckRecorder.ack, hm]

theorem mem_of_erase_eq_nil (l : List String) (a v : String) (h : l.erase a = [])
    (hv : v ∈ l) : v = a := by
  by_contra hne
  have : v ∈ l.erase a := (List.mem_erase_of_ne hne).mpr hv
  rw [h] at this
  cases this

/-- Recording the ack of `vid` in a stage that has not completed, where the
invariant holds for every vertex but `vid`: the stage goes on without a reply, or
it completes with the one reply. -/
theorem count_step (stage : PartitionPhase) (t : PartitionActor) (acked : List String)
    (vid : String) (reply : PartitionMessage)
    (h1 : t.phase = stage) (h3 : t.ackRecorder.waiting.Nodup)
    (h4 : ∀ v ∈ t.ackRecorder.waiting, v ∈ t.vertices)
    (h5 : ∀ v ∈ t.vertices, v ∉ acked → v ∈ t.ackRecorder.waiting)
    (h6 : ∀ v ∈ t.ackRecorder.waiting, v ∈ acked → v ≠ vid →
      stage = PartitionPhase.computing ∧ v ∈ t.held ∧ hasInFlight t v = true)
    (h7 : ∀ v ∈ t.held, v ∈ acked) (hvid : vid ∈ acked)
    (h2 : t.ackRecorder.waiting ≠ []) :
    (countAck t vid reply).1.vertices = t.vertices ∧
    (countAck t vid reply).1.partitionId = t.partitionId ∧
    (countAck t vid reply).1.inFlight = t.inFlight ∧
    ((StageActive stage (countAck t vid reply).1 acked ∧ (countAck t vid reply).2 = []) ∨
      (StageDone (countAck t vid reply).1 acked ∧
        (countAck t vid reply).2 = [PartitionEffect.toParent reply])) := by
  rw [countAck_eq]
  by_cases hm : vid ∈ t.ackRecorder.waiting
  · rw [if_pos hm]
    by_cases he : t.ackRecorder.waiting.erase vid = []
    · rw [if_pos he]
      refine ⟨rfl, rfl, rfl, Or.inr ⟨⟨rfl, rfl, ?_⟩, rfl⟩⟩
      intro v hv
      by_contra hna
      have hw := h5 v hv hna
      have := mem_of_erase_eq_nil _ _ _ he hw
      rw [this] at hna
      exact hna hvid
    · rw [if_neg he]
      refine ⟨rfl, rfl, rfl, Or.inl ⟨⟨h1, he, h3.erase _, ?_, ?_, ?_, h7⟩, rfl⟩⟩
      · intro v hv
        exact h4 v (List.mem_of_mem_erase hv)
      · intro v hv hna
        have hne : v ≠ vid := by
          intro h
          rw [h] at hna
          exact hna hvid
        exact (List.mem_erase_of_ne hne).mpr (h5 v hv hna)
      · intro v hv hva
        have hne : v ≠ vid := by
          intro h
          rw [h] at hv
          exact (List.Nodup.not_mem_erase h3) hv
        exact h6 v (List.mem_of_mem_erase hv) hva hne
  · rw [if_neg hm]
    refine ⟨rfl, rfl, rfl, Or.inl ⟨⟨h1, h2, h3, h4, h5, ?_, h7⟩, rfl⟩⟩
    intro v hv hva
    have hne : v ≠ vid := by
      intro h
      rw [h] at hv
      exact hm hv
    exact h6 v hv hva hne

/-! #### What the handler does with the commands that are no requests -/

theorem receive_message (s : PartitionActor) (uuid : String) (k : Nat) (src dest : String)
    (hph : s.phase ≠ PartitionPhase.init) :
    partitionReceive s (PartitionCommand.superStepMessage uuid k src dest)
      = routeMessage s uuid k src dest := by
  cases hp : s.phase <;> first
    | exact absurd hp hph
    | simp only [partitionReceive, hp]

theorem receive_messageAck (s : PartitionActor) (uuid : String)
    (hph : s.phase ≠ PartitionPhase.init) :
    partitionReceive s (PartitionCommand.superStepMessageAck uuid) = relayAck s uuid := by
  cases hp : s.phase <;> first
    | exact absurd hp hph
    | simp only [partitionReceive, hp]

theorem receive_loadVertexAck (s : PartitionActor) (vid : String)
    (hph : s.phase ≠ PartitionPhase.init) :
    partitionReceive s (PartitionCommand.loadVertexAck vid)
      = if vid ∈ s.vertices then
          (s, [PartitionEffect.toParent (PartitionMessage.loadVertexAck vid)])
        else (s, []) := by
  cases hp : s.phase <;> first
    | exact absurd hp hph
    | simp only [partitionReceive, hp]

theorem receive_barrierAck (s : PartitionActor) (vid : String)
    (hph : s.phase ≠ PartitionPhase.init) :
    partitionReceive s (PartitionCommand.superStepBarrierAck vid)
      = if s.phase = PartitionPhase.awaitingBarrier then
          countAck s vid (PartitionMessage.superStepBarrierPartitionAck s.partitionId)
        else (s, []) := by
  cases hp : s.phase <;> first
    | exact absurd hp hph
    | simp only [partitionReceive, hp, reduceCtorEq, if_false, if_true]

theorem receive_computeAck (s : PartitionActor) (vid : String) (halted : Bool)
    (hph : s.phase ≠ PartitionPhase.init) :
    partitionReceive s (PartitionCommand.computeAck vid halted)
      = if s.phase = PartitionPhase.computing then
          if hasInFlight s vid then
            ({ s with held := if vid ∈ s.held then s.held else s.held ++ [vid] }, [])
          else countAck s vid (PartitionMessage.computePartitionAck s.partitionId)
        else (s, []) := by
  cases hp : s.phase <;> first
    | exact absurd hp hph
    | simp only [partitionReceive, hp, reduceCtorEq, if_false, if_true]

theorem any_erase_ne (l : List (String × String)) (uuid src v : String) (h : v ≠ src) :
    (l.erase (uuid, src)).any (fun entry => entry.2 == v) = l.any (fun entry => entry.2 == v) := by
  induction l with
  | nil => rfl
  | cons x xs ih =>
    by_cases hx : x = (uuid, src)
    · subst hx
      rw [List.erase_cons_head]
      have : ((src == v) = false) := by simpa using Ne.symm h
      simp [this]
    · rw [List.erase_cons_tail (by simpa using hx)]
      simp only [List.any_cons, ih]

theorem any_of_lookup (l : List (String × String)) (uuid src : String)
    (h : l.lookup uuid = some src) : l.any (fun entry => entry.2 == src) = true := by
  induction l with
  | nil => cases h
  | cons x xs ih =>
    obtain ⟨a, b⟩ := x
    rw [List.lookup_cons] at h
    by_cases hk : uuid = a
    · subst hk
      simp only [beq_self_eq_true] at h
      injection h with h
      subst h
      simp
    · have : (uuid == a) = false := by simpa using hk
      simp only [this] at h
      simp [ih h]

/-! #### One step of a stage that has not completed -/

/-- A message leaves the stage as it is. -/
theorem active_route (stage : PartitionPhase) (s : PartitionActor) (acked : List String)
    (uuid : String) (k : Nat) (src dest : String) (h : StageActive stage s acked) :
    (routeMessage s uuid k src dest).1.vertices = s.vertices ∧
    (routeMessage s uuid k src dest).1.partitionId = s.partitionId ∧
    StageActive stage (routeMessage s uuid k src dest).1 acked ∧
    ∀ e ∈ (routeMessage s uuid k src dest).2, isStageReply e = false := by
  obtain ⟨h1, h2, h3, h4, h5, h6, h7⟩ := h
  simp only [routeMessage]
  split
  · refine ⟨rfl, rfl, ⟨h1, h2, h3, h4, h5, h6, h7⟩, ?_⟩
    intro e he
    simp only [List.mem_cons, List.mem_singleton, List.not_mem_nil, or_false] at he
    rcases he with rfl | rfl <;> rfl
  · refine ⟨rfl, rfl, ⟨h1, h2, h3, h4, h5, ?_, h7⟩, ?_⟩
    · intro v hv hva
      obtain ⟨a, b, c⟩ := h6 v hv hva
      refine ⟨a, b, ?_⟩
      simp only [hasInFlight, List.any_append] at c ⊢
      rw [c]
      rfl
    · intro e he
      simp only [List.mem_singleton] at he
      rw [he]
      rfl

/-- The ack of the worker for a forwarded message is relayed, and a `ComputeAck`
that was held back for it is recorded: the stage goes on or completes. -/
theorem active_relay (stage : PartitionPhase) (s : PartitionActor) (acked : List String)
    (uuid : String) (h : StageActive stage s acked) :
    (relayAck s uuid).1.vertices = s.vertices ∧
    (relayAck s uuid).1.partitionId = s.partitionId ∧
    ((StageActive stage (relayAck s uuid).1 acked ∧
        ∀ e ∈ (relayAck s uuid).2, isStageReply e = false) ∨
      (StageDone (relayAck s uuid).1 acked ∧
        (relayAck s uuid).2.countP isStageReply = 1 ∧
        ∀ e ∈ (relayAck s uuid).2, isStageReply e = true →
          e = stageReply stage s.partitionId)) := by
  obtain ⟨h1, h2, h3, h4, h5, h6, h7⟩ := h
  simp only [relayAck]
  cases hl : s.inFlight.lookup uuid with
  | none =>
    refine ⟨rfl, rfl, Or.inl ⟨⟨h1, h2, h3, h4, h5, h6, h7⟩, ?_⟩⟩
    intro e he
    cases he
  | some src =>
    simp only []
    have hother : ∀ v, v ≠ src →
        hasInFlight { s with inFlight := s.inFlight.erase (uuid, src) } v = hasInFlight s v := by
      intro v hv
      simp only [hasInFlight]
      exact any_erase_ne _ _ _ _ hv
    by_cases hrel : s.phase = PartitionPhase.computing ∧ src ∈ s.held ∧
        hasInFlight { s with inFlight := s.inFlight.erase (uuid, src) } src = false
    · rw [if_pos hrel]
      have hstage : stage = PartitionPhase.computing := by rw [← h1]; exact hrel.1
      have hc := count_step stage
        { s with inFlight := s.inFlight.erase (uuid, src), held := s.held.erase src }
        acked src (PartitionMessage.computePartitionAck s.partitionId) h1 h3 h4 h5
        (by
          intro v hv hva hne
          obtain ⟨a, b, c⟩ := h6 v hv hva
          refine ⟨a, (List.mem_erase_of_ne hne).mpr b, ?_⟩
          have := hother v hne
          simp only [hasInFlight] at this c ⊢
          rw [this]
          exact c)
        (fun v hv => h7 v (List.mem_of_mem_erase hv)) (h7 src hrel.2.1) h2
      obtain ⟨hv, hp, _, hcase⟩ := hc
      refine ⟨hv, hp, ?_⟩
      rcases hcase with ⟨hact, heff⟩ | ⟨hdone, heff⟩
      · refine Or.inl ⟨hact, ?_⟩
        intro e he
        rw [heff] at he
        simp only [List.mem_singleton] at he
        rw [he]
        rfl
      · refine Or.inr ⟨hdone, ?_, ?_⟩
        · rw [heff]
          rfl
        · intro e he hrep
          rw [heff] at he
          simp only [List.mem_cons, List.mem_singleton, List.not_mem_nil, or_false] at he
          rcases he with rfl | rfl
          · cases hrep
          · rw [hstage]
            rfl
    · rw [if_neg hrel]
      refine ⟨rfl, rfl, Or.inl ⟨⟨h1, h2, h3, h4, h5, ?_, h7⟩, ?_⟩⟩
      · intro v hv hva
        obtain ⟨a, b, c⟩ := h6 v hv hva
        refine ⟨a, b, ?_⟩
        by_cases hvs : v = src
        · subst hvs
          by_contra hcon
          apply hrel
          refine ⟨by rw [h1]; exact a, b, ?_⟩
          simpa using hcon
        · rw [hother v hvs]
          exact c
      · intro e he
        simp only [List.mem_singleton] at he
        rw [he]
        rfl

/-- A `ComputeAck` of a vertex that has a message in flight is held back. -/
theorem active_hold (s : PartitionActor) (acked : List String) (vid : String)
    (h : StageActive PartitionPhase.computing s acked) (hin : hasInFlight s vid = true) :
    StageActive PartitionPhase.computing
      { s with held := if vid ∈ s.held then s.held else s.held ++ [vid] } (acked ++ [vid]) := by
  obtain ⟨h1, h2, h3, h4, h5, h6, h7⟩ := h
  have hmem : ∀ v, v ∈ s.held ∨ v = vid →
      v ∈ (if vid ∈ s.held then s.held else s.held ++ [vid]) := by
    intro v hv
    split
    · rcases hv with hv | hv
      · exact hv
      · rw [hv]; assumption
    · simp only [List.mem_append, List.mem_singleton]
      exact hv
  refine ⟨h1, h2, h3, h4, ?_, ?_, ?_⟩
  · intro v hv hna
    exact h5 v hv (fun hc => hna (List.mem_append_left _ hc))
  · intro v hv hva
    simp only [List.mem_append, List.mem_singleton] at hva
    rcases hva with hva | hva
    · obtain ⟨a, b, c⟩ := h6 v hv hva
      exact ⟨a, hmem v (Or.inl b), c⟩
    · subst hva
      exact ⟨rfl, hmem v (Or.inr rfl), hin⟩
  · intro v hv
    simp only [List.mem_append, List.mem_singleton]
    split at hv
    · exact Or.inl (h7 v hv)
    · simp only [List.mem_append, List.mem_singleton] at hv
      rcases hv with hv | hv
      · exact Or.inl (h7 v hv)
      · exact Or.inr hv

/-- An ack of the stage that arrives and is not held back is recorded. -/
theorem active_ack (stage : PartitionPhase) (s : PartitionActor) (acked : List String)
    (vid : String) (reply : PartitionMessage) (h : StageActive stage s acked) :
    (countAck s vid reply).1.vertices = s.vertices ∧
    (countAck s vid reply).1.partitionId = s.partitionId ∧
    ((StageActive stage (countAck s vid reply).1 (acked ++ [vid]) ∧
        (countAck s vid reply).2 = []) ∨
      (StageDone (countAck s vid reply).1 (acked ++ [vid]) ∧
        (countAck s vid reply).2 = [PartitionEffect.toParent reply])) := by
  obtain ⟨h1, h2, h3, h4, h5, h6, h7⟩ := h
  have hc := count_step stage s (acked ++ [vid]) vid reply h1 h3 h4
    (fun v hv hna => h5 v hv (fun hc => hna (List.mem_append_left _ hc)))
    (by
      intro v hv hva hne
      simp only [List.mem_append, List.mem_singleton] at hva
      rcases hva with hva | hva
      · exact h6 v hv hva
      · exact absurd hva hne)
    (fun v hv => List.mem_append_left _ (h7 v hv))
    (by simp) h2
  exact ⟨hc.1, hc.2.1, hc.2.2.2⟩

/-- One step of a stage that has not completed, on a command that is no request
of the parent: the stage goes on without a reply to the parent, or it completes
with exactly one, the ack of the stage with the partition's id. -/
theorem active_step (stage : PartitionPhase)
    (hst : stage = PartitionPhase.awaitingBarrier ∨ stage = PartitionPhase.computing)
    (s : PartitionActor) (acked : List String) (cmd : PartitionCommand)
    (hcmd : isParentRequest cmd = false) (h : StageActive stage s acked) :
    (partitionReceive s cmd).1.vertices = s.vertices ∧
    (partitionReceive s cmd).1.partitionId = s.partitionId ∧
    ((StageActive stage (partitionReceive s cmd).1
          (acked ++ (partitionAckId stage cmd).toList) ∧
        ∀ e ∈ (partitionReceive s cmd).2, isStageReply e = false) ∨
      (StageDone (partitionReceive s cmd).1 (acked ++ (partitionAckId stage cmd).toList) ∧
        (partitionReceive s cmd).2.countP isStageReply = 1 ∧
        ∀ e ∈ (partitionReceive s cmd).2, isStageReply e = true →
          e = stageReply stage s.partitionId)) := by
  have hph : s.phase ≠ PartitionPhase.init := by
    rw [h.1]
    rcases hst with h | h <;> rw [h] <;> decide
  have hnil : ∀ e ∈ ([] : List PartitionEffect), isStageReply e = false := by
    intro e he
    cases he
  have hkeep : ∀ (t : PartitionActor × List PartitionEffect) (A : List String),
      t = (s, []) → A = acked →
      t.1.vertices = s.vertices ∧ t.1.partitionId = s.partitionId ∧
      ((StageActive stage t.1 A ∧ ∀ e ∈ t.2, isStageReply e = false) ∨
        (StageDone t.1 A ∧ t.2.countP isStageReply = 1 ∧
          ∀ e ∈ t.2, isStageReply e = true → e = stageReply stage s.partitionId)) := by
    intro t A ht hA
    subst ht hA
    exact ⟨rfl, rfl, Or.inl ⟨h, hnil⟩⟩
  have hcount : ∀ (vid : String) (reply : PartitionMessage),
      PartitionEffect.toParent reply = stageReply stage s.partitionId →
      (countAck s vid reply).1.vertices = s.vertices ∧
      (countAck s vid reply).1.partitionId = s.partitionId ∧
      ((StageActive stage (countAck s vid reply).1 (acked ++ [vid]) ∧
          ∀ e ∈ (countAck s vid reply).2, isStageReply e = false) ∨
        (StageDone (countAck s vid reply).1 (acked ++ [vid]) ∧
          (countAck s vid reply).2.countP isStageReply = 1 ∧
          ∀ e ∈ (countAck s vid reply).2, isStageReply e = true →
            e = stageReply stage s.partitionId)) := by
    intro vid reply hrep
    obtain ⟨hv, hp, hcase⟩ := active_ack stage s acked vid reply h
    refine ⟨hv, hp, ?_⟩
    rcases hcase with ⟨hact, heff⟩ | ⟨hdone, heff⟩
    · exact Or.inl ⟨hact, by rw [heff]; exact hnil⟩
    · refine Or.inr ⟨hdone, ?_, ?_⟩
      · rw [heff, hrep]
        simp [isStageReply_stageReply]
      · intro e he _
        rw [heff] at he
        simp only [List.mem_singleton] at he
        rw [he, hrep]
  cases cmd with
  | initPartition p => cases hcmd
  | loadVertex vid => cases hcmd
  | superStepBarrier => cases hcmd
  | compute k => cases hcmd
  | loadVertexAck vid =>
    rw [receive_loadVertexAck s vid hph]
    have hid : partitionAckId stage (PartitionCommand.loadVertexAck vid) = none := by
      cases stage <;> rfl
    rw [hid]
    simp only [Option.toList_none, List.append_nil]
    split
    · refine ⟨rfl, rfl, Or.inl ⟨h, ?_⟩⟩
      intro e he
      simp only [List.mem_singleton] at he
      rw [he]
      rfl
    · exact ⟨rfl, rfl, Or.inl ⟨h, hnil⟩⟩
  | superStepMessage uuid k src dest =>
    rw [receive_message s uuid k src dest hph]
    have hid : partitionAckId stage (PartitionCommand.superStepMessage uuid k src dest)
        = none := by
      cases stage <;> rfl
    rw [hid]
    simp only [Option.toList_none, List.append_nil]
    obtain ⟨a, b, c, d⟩ := active_route stage s acked uuid k src dest h
    exact ⟨a, b, Or.inl ⟨c, d⟩⟩
  | superStepMessageAck uuid =>
    rw [receive_messageAck s uuid hph]
    have hid : partitionAckId stage (PartitionCommand.superStepMessageAck uuid) = none := by
      cases stage <;> rfl
    rw [hid]
    simp only [Option.toList_none, List.append_nil]
    exact active_relay stage s acked uuid h
  | superStepBarrierAck vid =>
    rw [receive_barrierAck s vid hph]
    rcases hst with hs | hs
    · subst hs
      rw [if_pos h.1]
      exact hcount vid _ rfl
    · subst hs
      rw [if_neg (by rw [h.1]; decide)]
      exact hkeep _ _ rfl (by simp [partitionAckId])
  | computeAck vid halted =>
    rw [receive_computeAck s vid halted hph]
    rcases hst with hs | hs
    · subst hs
      rw [if_neg (by rw [h.1]; decide)]
      exact hkeep _ _ rfl (by simp [partitionAckId])
    · subst hs
      rw [if_pos h.1]
      by_cases hin : hasInFlight s vid = true
      · rw [if_pos hin]
        exact ⟨rfl, rfl, Or.inl ⟨active_hold s acked vid h hin, hnil⟩⟩
      · rw [if_neg hin]
        exact hcount vid _ rfl

/-- An idle partition stays idle and sends no ack of a stage, whatever acks and
messages arrive. -/
theorem done_step (s : PartitionActor) (cmd : PartitionCommand)
    (hcmd : isParentRequest cmd = false) (hph : s.phase = PartitionPhase.idle)
    (hw : s.ackRecorder.waiting = []) :
    (partitionReceive s cmd).1.phase = PartitionPhase.idle ∧
    (partitionReceive s cmd).1.ackRecorder.waiting = [] ∧
    (partitionReceive s cmd).1.vertices = s.vertices ∧
    (partitionReceive s cmd).1.partitionId = s.partitionId ∧
    ∀ e ∈ (partitionReceive s cmd).2, isStageReply e = false := by
  have hne : s.phase ≠ PartitionPhase.init := by rw [hph]; decide
  have hnil : ∀ e ∈ ([] : List PartitionEffect), isStageReply e = false := by
    intro e he
    cases he
  have hone : ∀ (x : PartitionEffect), isStageReply x = false →
      ∀ e ∈ [x], isStageReply e = false := by
    intro x hx e he
    simp only [List.mem_singleton] at he
    rw [he]
    exact hx
  cases cmd with
  | initPartition p => cases hcmd
  | loadVertex vid => cases hcmd
  | superStepBarrier => cases hcmd
  | compute k => cases hcmd
  | loadVertexAck vid =>
    rw [receive_loadVertexAck s vid hne]
    split
    · exact ⟨hph, hw, rfl, rfl, hone _ rfl⟩
    · exact ⟨hph, hw, rfl, rfl, hnil⟩
  | superStepMessage uuid k src dest =>
    rw [receive_message s uuid k src dest hne]
    simp only [routeMessage]
    split
    · refine ⟨hph, hw, rfl, rfl, ?_⟩
      intro e he
      simp only [List.mem_cons, List.mem_singleton, List.not_mem_nil, or_false] at he
      rcases he with rfl | rfl <;> rfl
    · exact ⟨hph, hw, rfl, rfl, hone _ rfl⟩
  | superStepMessageAck uuid =>
    rw [receive_messageAck s uuid hne]
    simp only [relayAck]
    cases hl : s.inFlight.lookup uuid with
    | none => exact ⟨hph, hw, rfl, rfl, hnil⟩
    | some src =>
      simp only []
      rw [if_neg (by rw [hph]; simp)]
      exact ⟨hph, hw, rfl, rfl, hone _ rfl⟩
  | superStepBarrierAck vid =>
    rw [receive_barrierAck s vid hne, if_neg (by rw [hph]; decide)]
    exact ⟨hph, hw, rfl, rfl, hnil⟩
  | computeAck vid halted =>
    rw [receive_computeAck s vid halted hne, if_neg (by rw [hph]; decide)]
    exact ⟨hph, hw, rfl, rfl, hnil⟩

theorem done_run : ∀ (cmds : List PartitionCommand) (s : PartitionActor),
    (∀ cmd ∈ cmds, isParentRequest cmd = false) → s.phase = PartitionPhase.idle →
    s.ackRecorder.waiting = [] →
    (partitionRun s cmds).1.phase = PartitionPhase.idle ∧
    (partitionRun s cmds).1.ackRecorder.waiting = [] ∧
    (partitionRun s cmds).1.vertices = s.vertices ∧
    (partitionRun s cmds).1.partitionId = s.partitionId ∧
    ∀ e ∈ (partitionRun s cmds).2, isStageReply e = false := by
  intro cmds
  induction cmds with
  | nil =>
    intro s _ hph hw
    refine ⟨hph, hw, rfl, rfl, ?_⟩
    intro e he
    cases he
  | cons cmd rest ih =>
    intro s hcmds hph hw
    obtain ⟨a, b, c, d, e1⟩ := done_step s cmd (hcmds cmd (List.mem_cons_self _ _)) hph hw
    obtain ⟨a2, b2, c2, d2, e2⟩ := ih (partitionReceive s cmd).1
      (fun x hx => hcmds x (List.mem_cons_of_mem _ hx)) a b
    simp only [partitionRun]
    refine ⟨a2, b2, by rw [c2, c], by rw [d2, d], ?_⟩
    intro e he
    rcases List.mem_append.mp he with h | h
    · exact e1 e h
    · exact e2 e h

/-- A stage that has not completed, run on commands that are no requests of the
parent: at the end it has not completed and no ack of a stage was sent, or it has
completed and exactly one was sent, the ack of the stage with the partition's id. -/
theorem stage_run (stage : PartitionPhase)
    (hst : stage = PartitionPhase.awaitingBarrier ∨ stage = PartitionPhase.computing) :
    ∀ (cmds : List PartitionCommand) (s : PartitionActor) (acked : List String),
    (∀ cmd ∈ cmds, isParentRequest cmd = false) → StageActive stage s acked →
    (partitionRun s cmds).1.vertices = s.vertices ∧
    (partitionRun s cmds).1.partitionId = s.partitionId ∧
    (∀ e ∈ (partitionRun s cmds).2, isStageReply e = true →
      e = stageReply stage s.partitionId) ∧
    ((StageActive stage (partitionRun s cmds).1 (acked ++ partitionAckedIds stage cmds) ∧
        (partitionRun s cmds).2.countP isStageReply = 0) ∨
      (StageDone (partitionRun s cmds).1 (acked ++ partitionAckedIds stage cmds) ∧
        (partitionRun s cmds).2.countP isStageReply = 1)) := by
  intro cmds
  induction cmds with
  | nil =>
    intro s acked _ h
    refine ⟨rfl, rfl, ?_, Or.inl ⟨?_, rfl⟩⟩
    · intro e he
      cases he
    · simpa [partitionAckedIds] using h
  | cons cmd rest ih =>
    intro s acked hcmds h
    have hrest : ∀ x ∈ rest, isParentRequest x = false :=
      fun x hx => hcmds x (List.mem_cons_of_mem _ hx)
    have hacked : acked ++ partitionAckedIds stage (cmd :: rest)
        = (acked ++ (partitionAckId stage cmd).toList) ++ partitionAckedIds stage rest := by
      cases hid : partitionAckId stage cmd <;>
        simp [partitionAckedIds, List.filterMap_cons, hid]
    obtain ⟨hv, hp, hcase⟩ := active_step stage hst s acked cmd
      (hcmds cmd (List.mem_cons_self _ _)) h
    rw [hacked]
    simp only [partitionRun]
    rcases hcase with ⟨hact, hno⟩ | ⟨hdone, hone, hrep⟩
    · obtain ⟨hv2, hp2, hrep2, hcase2⟩ := ih (partitionReceive s cmd).1 _ hrest hact
      refine ⟨by rw [hv2, hv], by rw [hp2, hp], ?_, ?_⟩
      · intro e he hr
        rcases List.mem_append.mp he with h1 | h1
        · rw [hno e h1] at hr
          cases hr
        · rw [← hp]
          exact hrep2 e h1 hr
      · rw [List.countP_append, countP_eq_zero_of_forall _ hno, Nat.zero_add]
        exact hcase2
    · obtain ⟨a2, b2, c2, d2, e2⟩ := done_run rest (partitionReceive s cmd).1 hrest
        hdone.1 hdone.2.1
      refine ⟨by rw [c2, hv], by rw [d2, hp], ?_, Or.inr ⟨⟨a2, b2, ?_⟩, ?_⟩⟩
      · intro e he hr
        rcases List.mem_append.mp he with h1 | h1
        · exact hrep e h1 hr
        · rw [e2 e h1] at hr
          cases hr
      · intro v hv3
        rw [c2] at hv3
        exact List.mem_append_left _ (hdone.2.2 v hv3)
      · rw [List.countP_append, hone, countP_eq_zero_of_forall _ e2]

/-! #### The loaded partition and the request of a stage -/

theorem load_run : ∀ (vids : List String) (s : PartitionActor),
    s.phase = PartitionPhase.idle → s.vertices.Nodup →
    (partitionRun s (loadCommands vids)).1.phase = PartitionPhase.idle ∧
    (partitionRun s (loadCommands vids)).1.partitionId = s.partitionId ∧
    (partitionRun s (loadCommands vids)).1.ackRecorder = s.ackRecorder ∧
    (partitionRun s (loadCommands vids)).1.inFlight = s.inFlight ∧
    (partitionRun s (loadCommands vids)).1.held = s.held ∧
    (partitionRun s (loadCommands vids)).1.vertices.Nodup ∧
    (∀ v, v ∈ (partitionRun s (loadCommands vids)).1.vertices ↔ v ∈ s.vertices ∨ v ∈ vids) := by
  intro vids
  induction vids with
  | nil => intro s hph hn; simp [loadCommands, partitionRun, hph, hn]
  | cons x xs ih =>
    intro s hph hn
    have hstep : partitionReceive s (PartitionCommand.loadVertex x)
        = ({ s with vertices := if x ∈ s.vertices then s.vertices else s.vertices ++ [x] },
            [PartitionEffect.toVertex x (PartitionMessage.loadVertex x)]) := by
      simp only [partitionReceive, hph]
    have hmem : ∀ v, v ∈ (if x ∈ s.vertices then s.vertices else s.vertices ++ [x])
        ↔ v ∈ s.vertices ∨ v = x := by
      intro v
      split
      · constructor
        · exact Or.inl
        · rintro (h | h)
          · exact h
          · rw [h]; assumption
      · simp
    have hn2 : (if x ∈ s.vertices then s.vertices else s.vertices ++ [x]).Nodup := by
      split
      · exact hn
      · rename_i hx
        rw [List.nodup_append]
        refine ⟨hn, List.nodup_singleton _, ?_⟩
        intro a ha hb
        rw [List.mem_singleton] at hb
        subst hb
        exact hx ha
    have hstep2 : partitionReceive
        { s with vertices := if x ∈ s.vertices then s.vertices else s.vertices ++ [x] }
        (PartitionCommand.loadVertexAck x)
        = ({ s with vertices := if x ∈ s.vertices then s.vertices else s.vertices ++ [x] },
            [PartitionEffect.toParent (PartitionMessage.loadVertexAck x)]) := by
      rw [receive_loadVertexAck _ _ (by simp only [hph]; decide)]
      rw [if_pos ((hmem x).mpr (Or.inr rfl))]
    simp only [loadCommands, partitionRun, hstep, hstep2]
    obtain ⟨h1, h2, h3, h4, h5, h6, h7⟩ :=
      ih { s with vertices := if x ∈ s.vertices then s.vertices else s.vertices ++ [x] } hph hn2
    refine ⟨h1, h2, h3, h4, h5, h6, ?_⟩
    intro v
    rw [h7 v, hmem v]
    simp only [List.mem_cons]
    tauto

/-- The partition with id `p` that has loaded `vids` is idle, has id `p`, an empty
ack set, no message in flight, no ack held back, and exactly the vertices of
`vids`. -/
theorem loadedPartition_spec (p : Nat) (vids : List String) :
    (loadedPartition p vids).phase = PartitionPhase.idle ∧
    (loadedPartition p vids).partitionId = p ∧
    (loadedPartition p vids).ackRecorder = ⟨[]⟩ ∧
    (loadedPartition p vids).inFlight = [] ∧
    (loadedPartition p vids).held = [] ∧
    (loadedPartition p vids).vertices.Nodup ∧
    (∀ v, v ∈ (loadedPartition p vids).vertices ↔ v ∈ vids) := by
  have h := load_run vids
    { NewPartitionActor with phase := PartitionPhase.idle, partitionId := p } rfl
    (by simp [NewPartitionActor])
  simp only [loadedPartition, partitionRun]
  have hstep : partitionReceive NewPartitionActor (PartitionCommand.initPartition p)
      = ({ NewPartitionActor with phase := PartitionPhase.idle, partitionId := p },
          [PartitionEffect.toParent (PartitionMessage.initPartitionAck p)]) := by
    simp [partitionReceive, NewPartitionActor]
  rw [hstep]
  obtain ⟨h1, h2, h3, h4, h5, h6, h7⟩ := h
  refine ⟨h1, h2, h3, h4, h5, h6, ?_⟩
  intro v
  rw [h7 v]
  simp [NewPartitionActor]

/-- The request of a stage at an idle partition that holds no ack back: the
broadcast, and the ack at once when there is no vertex. -/
theorem stage_request_step (s : PartitionActor) (stage : PartitionPhase)
    (req : PartitionCommand) (hph : s.phase = PartitionPhase.idle)
    (hn : s.vertices.Nodup) (hheld : s.held = []) (hreq : isStageRequest stage req = true) :
    partitionReceive s req =
      if s.vertices = [] then
        ({ s with ackRecorder := ⟨[]⟩ }, [stageReply stage s.partitionId])
      else
        ({ s with ackRecorder := ⟨s.vertices⟩, phase := stage },
          s.vertices.map (fun v => PartitionEffect.toVertex v (requestToVertices req))) := by
  have hw := waiting_foldl_add s.vertices [] (by simpa using hn)
  simp only [List.nil_append] at hw
  have hwe : (s.vertices.foldl (fun (ar : AckRecorder) v => ar.addToWaitList v)
      (⟨[]⟩ : AckRecorder)) = ⟨s.vertices⟩ := by
    cases hfold : s.vertices.foldl (fun (ar : AckRecorder) v => ar.addToWaitList v)
      (⟨[]⟩ : AckRecorder) with
    | mk w => rw [hfold] at hw; simp only at hw; rw [hw]
  have hs : { s with held := [] } = s := by
    cases s
    simp only at hheld
    subst hheld
    rfl
  cases stage <;> cases req <;> simp only [isStageRequest, Bool.false_eq_true] at hreq
  all_goals
    by_cases hv : s.vertices = []
    · simp [partitionReceive, hph, broadcastToVertices, hv, AckRecorder.hasCompleted,
        AckRecorder.clear, stageReply, requestToVertices, hheld]
    · simp [partitionReceive, hph, broadcastToVertices, hwe, hv, AckRecorder.hasCompleted,
        requestToVertices, hheld]

theorem partitionRun_append : ∀ (xs ys : List PartitionCommand) (s : PartitionActor),
    partitionRun s (xs ++ ys) =
      ((partitionRun (partitionRun s xs).1 ys).1,
        (partitionRun s xs).2 ++ (partitionRun (partitionRun s xs).1 ys).2) := by
  intro xs
  induction xs with
  | nil => intro ys s; simp [partitionRun]
  | cons x xs ih => intro ys s; simp [partitionRun, ih]

theorem partitionAckedIds_append (stage : PartitionPhase) (xs ys : List PartitionCommand) :
    partitionAckedIds stage (xs ++ ys) = partitionAckedIds stage xs ++ partitionAckedIds stage ys := by
  simp [partitionAckedIds, List.filterMap_append]

/-- The stage after its request at a loaded partition with at least one vertex, in
terms of the invariants: it has not completed and no ack of a stage was sent, or
it has completed and exactly one was sent. -/
theorem loaded_stage_run (p : Nat) (vids : List String) (stage : PartitionPhase)
    (req : PartitionCommand) (cmds : List PartitionCommand)
    (hreq : isStageRequest stage req = true)
    (hcmds : ∀ cmd ∈ cmds, isParentRequest cmd = false)
    (hv : (loadedPartition p vids).vertices ≠ []) :
    (partitionRun (loadedPartition p vids) (req :: cmds)).2 =
      (loadedPartition p vids).vertices.map
        (fun v => PartitionEffect.toVertex v (requestToVertices req)) ++
      (partitionRun { loadedPartition p vids with
          ackRecorder := ⟨(loadedPartition p vids).vertices⟩, phase := stage } cmds).2 ∧
    (partitionRun (loadedPartition p vids) (req :: cmds)).1 =
      (partitionRun { loadedPartition p vids with
          ackRecorder := ⟨(loadedPartition p vids).vertices⟩, phase := stage } cmds).1 ∧
    (partitionRun (loadedPartition p vids) (req :: cmds)).1.vertices
      = (loadedPartition p vids).vertices ∧
    (partitionRun (loadedPartition p vids) (req :: cmds)).1.partitionId = p ∧
    (∀ e ∈ (partitionRun (loadedPartition p vids) (req :: cmds)).2, isStageReply e = true →
      e = stageReply stage p) ∧
    ((StageActive stage (partitionRun (loadedPartition p vids) (req :: cmds)).1
          (partitionAckedIds stage cmds) ∧
        (partitionRun (loadedPartition p vids) (req :: cmds)).2.countP isStageReply = 0) ∨
      (StageDone (partitionRun (loadedPartition p vids) (req :: cmds)).1
          (partitionAckedIds stage cmds) ∧
        (partitionRun (loadedPartition p vids) (req :: cmds)).2.countP isStageReply = 1)) := by
  obtain ⟨hph, hid, _, _, hheld, hn, _⟩ := loadedPartition_spec p vids
  have hst : stage = PartitionPhase.awaitingBarrier ∨ stage = PartitionPhase.computing := by
    cases stage <;> cases req <;> simp [isStageRequest] at hreq ⊢
  have hstep := stage_request_step (loadedPartition p vids) stage req hph hn hheld hreq
  generalize loadedPartition p vids = s at *
  rw [if_neg hv] at hstep
  have hact : StageActive stage { s with ackRecorder := ⟨s.vertices⟩, phase := stage } [] := by
    refine ⟨rfl, hv, hn, fun v h => h, fun v h _ => h, ?_, ?_⟩
    · intro v _ h
      cases h
    · intro v h
      simp only [hheld] at h
      cases h
  obtain ⟨h1, h2, h3, h4⟩ := stage_run stage hst cmds _ [] hcmds hact
  have hno : ∀ e ∈ s.vertices.map
      (fun v => PartitionEffect.toVertex v (requestToVertices req)), isStageReply e = false := by
    intro e he
    obtain ⟨v, _, rfl⟩ := List.mem_map.mp he
    rfl
  simp only [List.nil_append] at h4
  simp only [partitionRun, hstep]
  refine ⟨trivial, trivial, h1, by rw [h2]; exact hid, ?_, ?_⟩
  · intro e he hr
    rcases List.mem_append.mp he with h | h
    · rw [hno e h] at hr
      cases hr
    · rw [← hid]
      exact h3 e h hr
  · rw [List.countP_append, countP_eq_zero_of_forall _ hno, Nat.zero_add]
    exact h4

/-- The stage of a loaded partition: at most one ack to the parent, with the
partition's id; none while a loaded vertex has not sent its ack; exactly one once
every loaded vertex has sent its ack and, in the compute stage, no forwarded
message is left without the worker's ack. -/
theorem stage_reply_count (p : Nat) (vids : List String) (stage : PartitionPhase)
    (req : PartitionCommand) (cmds : List PartitionCommand)
    (hreq : isStageRequest stage req = true)
    (hcmds : ∀ cmd ∈ cmds, isParentRequest cmd = false) :
    (partitionRun (loadedPartition p vids) (req :: cmds)).2.countP isStageReply ≤ 1 ∧
    ((∃ v ∈ vids, v ∉ partitionAckedIds stage cmds) →
      (partitionRun (loadedPartition p vids) (req :: cmds)).2.countP isStageReply = 0) ∧
    ((∀ v ∈ vids, v ∈ partitionAckedIds stage cmds) →
      (stage = PartitionPhase.awaitingBarrier ∨
        (partitionRun (loadedPartition p vids) (req :: cmds)).1.inFlight = []) →
      (partitionRun (loadedPartition p vids) (req :: cmds)).2.countP isStageReply = 1) ∧
    (∀ e ∈ (partitionRun (loadedPartition p vids) (req :: cmds)).2, isStageReply e = true →
      e = stageReply stage p) ∧
    (∀ v ∈ vids, PartitionEffect.toVertex v (requestToVertices req)
      ∈ (partitionRun (loadedPartition p vids) (req :: cmds)).2) := by
  obtain ⟨hph, hid, _, _, hheld, hn, hmem⟩ := loadedPartition_spec p vids
  by_cases hv : (loadedPartition p vids).vertices = []
  · have hstep := stage_request_step (loadedPartition p vids) stage req hph hn hheld hreq
    have hnone : ∀ v, v ∉ vids := by
      intro v h
      have := (hmem v).mpr h
      rw [hv] at this
      cases this
    generalize loadedPartition p vids = s at *
    rw [if_pos hv] at hstep
    obtain ⟨_, _, _, _, hidle⟩ := done_run cmds { s with ackRecorder := ⟨[]⟩ } hcmds hph rfl
    have hcount : (partitionRun s (req :: cmds)).2.countP isStageReply = 1 := by
      simp only [partitionRun, hstep]
      rw [List.countP_append, countP_eq_zero_of_forall _ hidle]
      simp [isStageReply_stageReply]
    refine ⟨by omega, ?_, fun _ _ => hcount, ?_, ?_⟩
    · rintro ⟨v, hv1, _⟩
      exact absurd hv1 (hnone v)
    · intro e he hrep
      simp only [partitionRun, hstep] at he
      rcases List.mem_append.mp he with h1 | h1
      · rw [← hid]
        simpa using h1
      · rw [hidle e h1] at hrep
        cases hrep
    · intro v hv1
      exact absurd hv1 (hnone v)
  · obtain ⟨heff, _, hvert, _, hrep, hcase⟩ :=
      loaded_stage_run p vids stage req cmds hreq hcmds hv
    refine ⟨?_, ?_, ?_, hrep, ?_⟩
    · rcases hcase with ⟨_, h0⟩ | ⟨_, h1⟩ <;> omega
    · rintro ⟨v, hv1, hv2⟩
      rcases hcase with ⟨_, h0⟩ | ⟨hdone, _⟩
      · exact h0
      · exact absurd (hdone.2.2 v (by rw [hvert]; exact (hmem v).mpr hv1)) hv2
    · intro hall hfin
      rcases hcase with ⟨hact, _⟩ | ⟨_, h1⟩
      · obtain ⟨_, h2, _, h4, _, h6, _⟩ := hact
        obtain ⟨v, hvw⟩ := List.exists_mem_of_ne_nil _ h2
        have hvv := h4 v hvw
        rw [hvert] at hvv
        obtain ⟨hst, _, hfl⟩ := h6 v hvw (hall v ((hmem v).mp hvv))
        rcases hfin with hfin | hfin
        · rw [hfin] at hst
          cases hst
        · simp only [hasInFlight, hfin, List.any_nil] at hfl
          cases hfl
      · exact h1
    · intro v hv1
      rw [heff]
      apply List.mem_append_left
      exact List.mem_map.mpr ⟨v, (hmem v).mpr hv1, rfl⟩

/-! #### A message in flight pins the vertex that sent it -/

theorem lookup_erase_ne (l : List (String × String)) (k k' v' : String) (h : k' ≠ k) :
    List.lookup k (l.erase (k', v')) = List.lookup k l := by
  induction l with
  | nil => simp
  | cons x xs ih =>
    obtain ⟨a, b⟩ := x
    by_cases hx : (a, b) = (k', v')
    · simp only [hx, List.erase_cons_head]
      rw [List.lookup_cons]
      have : (k == k') = false := by simp [Ne.symm h]
      simp [this]
    · rw [List.erase_cons_tail (by simpa using hx)]
      simp only [List.lookup_cons, ih]

/-- Recording the ack of another vertex leaves an awaited vertex awaited, and the
stage does not complete. -/
theorem countAck_other (s : PartitionActor) (vid src : String) (reply : PartitionMessage)
    (hne : vid ≠ src) (hw : src ∈ s.ackRecorder.waiting) :
    (countAck s vid reply).1.phase = s.phase ∧
    src ∈ (countAck s vid reply).1.ackRecorder.waiting ∧
    (countAck s vid reply).1.inFlight = s.inFlight ∧
    (countAck s vid reply).2 = [] := by
  rw [countAck_eq]
  have hsrc : src ∈ s.ackRecorder.waiting.erase vid := (List.mem_erase_of_ne (Ne.symm hne)).mpr hw
  by_cases hm : vid ∈ s.ackRecorder.waiting
  · rw [if_pos hm, if_neg (List.ne_nil_of_mem hsrc)]
    exact ⟨rfl, hsrc, rfl, rfl⟩
  · rw [if_neg hm]
    exact ⟨rfl, hw, rfl, rfl⟩

/-- While a message forwarded for a vertex is in flight, the compute stage does
not record the `ComputeAck` of that vertex and does not complete, whatever acks
and messages arrive, the worker's ack for the message apart. -/
theorem pinned_step (s : PartitionActor) (cmd : PartitionCommand) (uuid src : String)
    (hcmd : isParentRequest cmd = false)
    (hne : cmd ≠ PartitionCommand.superStepMessageAck uuid)
    (hph : s.phase = PartitionPhase.computing) (hw : src ∈ s.ackRecorder.waiting)
    (hl : s.inFlight.lookup uuid = some src) :
    (partitionReceive s cmd).1.phase = PartitionPhase.computing ∧
    src ∈ (partitionReceive s cmd).1.ackRecorder.waiting ∧
    (partitionReceive s cmd).1.inFlight.lookup uuid = some src ∧
    ∀ e ∈ (partitionReceive s cmd).2, isStageReply e = false := by
  have hni : s.phase ≠ PartitionPhase.init := by rw [hph]; decide
  have hnil : ∀ e ∈ ([] : List PartitionEffect), isStageReply e = false := by
    intro e he
    cases he
  have hone : ∀ (x : PartitionEffect), isStageReply x = false →
      ∀ e ∈ [x], isStageReply e = false := by
    intro x hx e he
    simp only [List.mem_singleton] at he
    rw [he]
    exact hx
  cases cmd with
  | initPartition p => cases hcmd
  | loadVertex vid => cases hcmd
  | superStepBarrier => cases hcmd
  | compute k => cases hcmd
  | loadVertexAck vid =>
    rw [receive_loadVertexAck s vid hni]
    split
    · exact ⟨hph, hw, hl, hone _ rfl⟩
    · exact ⟨hph, hw, hl, hnil⟩
  | superStepBarrierAck vid =>
    rw [receive_barrierAck s vid hni, if_neg (by rw [hph]; decide)]
    exact ⟨hph, hw, hl, hnil⟩
  | superStepMessage u k a b =>
    rw [receive_message s u k a b hni]
    simp only [routeMessage]
    split
    · refine ⟨hph, hw, hl, ?_⟩
      intro e he
      simp only [List.mem_cons, List.mem_singleton, List.not_mem_nil, or_false] at he
      rcases he with rfl | rfl <;> rfl
    · refine ⟨hph, hw, ?_, hone _ rfl⟩
      simp only [List.lookup_append, hl]
      rfl
  | computeAck vid halted =>
    rw [receive_computeAck s vid halted hni, if_pos hph]
    by_cases hin : hasInFlight s vid = true
    · rw [if_pos hin]
      exact ⟨hph, hw, hl, hnil⟩
    · rw [if_neg hin]
      have hvs : vid ≠ src := by
        intro h
        subst h
        exact hin (any_of_lookup _ _ _ hl)
      obtain ⟨a, b, c, d⟩ := countAck_other s vid src
        (PartitionMessage.computePartitionAck s.partitionId) hvs hw
      exact ⟨by rw [a, hph], b, by rw [c, hl], by rw [d]; exact hnil⟩
  | superStepMessageAck u =>
    have hu : u ≠ uuid := by
      intro h
      subst h
      exact hne rfl
    rw [receive_messageAck s u hni]
    simp only [relayAck]
    cases hlu : s.inFlight.lookup u with
    | none => exact ⟨hph, hw, hl, hnil⟩
    | some src2 =>
      simp only []
      have hl2 : (s.inFlight.erase (u, src2)).lookup uuid = some src := by
        rw [lookup_erase_ne _ _ _ _ hu]
        exact hl
      by_cases hrel : s.phase = PartitionPhase.computing ∧ src2 ∈ s.held ∧
          hasInFlight { s with inFlight := s.inFlight.erase (u, src2) } src2 = false
      · rw [if_pos hrel]
        have hvs : src2 ≠ src := by
          intro h
          subst h
          have := any_of_lookup _ _ _ hl2
          have hfalse := hrel.2.2
          simp only [hasInFlight] at hfalse
          rw [this] at hfalse
          cases hfalse
        obtain ⟨a, b, c, d⟩ := countAck_other
          { s with inFlight := s.inFlight.erase (u, src2), held := s.held.erase src2 }
          src2 src (PartitionMessage.computePartitionAck s.partitionId) hvs hw
        refine ⟨by rw [a]; exact hph, b, by rw [c]; exact hl2, ?_⟩
        rw [d]
        exact hone _ rfl
      · rw [if_neg hrel]
        exact ⟨hph, hw, hl2, hone _ rfl⟩

theorem pinned_run (uuid src : String) : ∀ (cmds : List PartitionCommand) (s : PartitionActor),
    (∀ cmd ∈ cmds, isParentRequest cmd = false) →
    PartitionCommand.superStepMessageAck uuid ∉ cmds →
    s.phase = PartitionPhase.computing → src ∈ s.ackRecorder.waiting →
    s.inFlight.lookup uuid = some src →
    (partitionRun s cmds).1.phase = PartitionPhase.computing ∧
    src ∈ (partitionRun s cmds).1.ackRecorder.waiting ∧
    (partitionRun s cmds).1.inFlight.lookup uuid = some src ∧
    ∀ e ∈ (partitionRun s cmds).2, isStageReply e = false := by
  intro cmds
  induction cmds with
  | nil =>
    intro s _ _ hph hw hl
    refine ⟨hph, hw, hl, ?_⟩
    intro e he
    cases he
  | cons cmd rest ih =>
    intro s hcmds hn hph hw hl
    obtain ⟨a, b, c, d⟩ := pinned_step s cmd uuid src (hcmds cmd (List.mem_cons_self _ _))
      (fun h => hn (by rw [h]; exact List.mem_cons_self _ _)) hph hw hl
    obtain ⟨a2, b2, c2, d2⟩ := ih (partitionReceive s cmd).1
      (fun x hx => hcmds x (List.mem_cons_of_mem _ hx))
      (fun h => hn (List.mem_cons_of_mem _ h)) a b c
    simp only [partitionRun]
    refine ⟨a2, b2, c2, ?_⟩
    intro e he
    rcases List.mem_append.mp he with h | h
    · exact d e h
    · exact d2 e h

theorem countAck_effects (s : PartitionActor) (vid : String) (reply : PartitionMessage) :
    (countAck s vid reply).2 = [] ∨
      (countAck s vid reply).2 = [PartitionEffect.toParent reply] := by
  rw [countAck_eq]
  split
  · split
    · exact Or.inr rfl
    · exact Or.inl rfl
  · exact Or.inl rfl

/-- The worker's ack for a message in flight is relayed to the vertex that sent
the message before anything else is done; what may follow is the ack of the
compute stage to the parent. -/
theorem relay_effects (s : PartitionActor) (uuid src : String)
    (hl : s.inFlight.lookup uuid = some src) :
    ∃ rest, (relayAck s uuid).2
        = PartitionEffect.toVertex src (PartitionMessage.superStepMessageAck uuid) :: rest ∧
      (rest = [] ∨
        rest = [PartitionEffect.toParent (PartitionMessage.computePartitionAck s.partitionId)]) := by
  simp only [relayAck, hl]
  split
  · exact ⟨_, rfl, countAck_effects _ _ _⟩
  · exact ⟨_, rfl, Or.inl rfl⟩

/-- The forwarding of a message out of the partition during the compute stage and
the relay of the worker's ack: until the ack arrives the `ComputeAck` of the
sending vertex is not recorded, also when it has arrived, and the stage does not
complete. -/
theorem forward_and_relay (p : Nat) (vids : List String) (n : Nat)
    (a b : List PartitionCommand) (uuid : String) (k : Nat) (src dest : String)
    (ha : ∀ cmd ∈ a, isParentRequest cmd = false)
    (hb : ∀ cmd ∈ b, isParentRequest cmd = false)
    (hsrc : src ∈ vids) (hdest : dest ∉ vids)
    (hnot : src ∉ partitionAckedIds PartitionPhase.computing a)
    (hfresh : (partitionRun (loadedPartition p vids)
      (PartitionCommand.compute n :: a)).1.inFlight.lookup uuid = none)
    (honce : PartitionCommand.superStepMessageAck uuid ∉ b) :
    (partitionReceive
        (partitionRun (loadedPartition p vids) (PartitionCommand.compute n :: a)).1
        (PartitionCommand.superStepMessage uuid k src dest)).2
      = [PartitionEffect.toParent (PartitionMessage.superStepMessage uuid k src dest)] ∧
    (partitionRun (loadedPartition p vids) (PartitionCommand.compute n ::
        (a ++ [PartitionCommand.superStepMessage uuid k src dest] ++ b))).1.phase
      = PartitionPhase.computing ∧
    src ∈ (partitionRun (loadedPartition p vids) (PartitionCommand.compute n ::
        (a ++ [PartitionCommand.superStepMessage uuid k src dest] ++ b))).1.ackRecorder.waiting ∧
    (partitionRun (loadedPartition p vids) (PartitionCommand.compute n ::
        (a ++ [PartitionCommand.superStepMessage uuid k src dest] ++ b))).2.countP
      isStageReply = 0 ∧
    ∃ rest, (partitionReceive
        (partitionRun (loadedPartition p vids) (PartitionCommand.compute n ::
          (a ++ [PartitionCommand.superStepMessage uuid k src dest] ++ b))).1
        (PartitionCommand.superStepMessageAck uuid)).2
      = PartitionEffect.toVertex src (PartitionMessage.superStepMessageAck uuid) :: rest ∧
      (rest = [] ∨
        rest = [PartitionEffect.toParent (PartitionMessage.computePartitionAck p)]) := by
  obtain ⟨_, _, _, _, _, _, hmem⟩ := loadedPartition_spec p vids
  have hsv : src ∈ (loadedPartition p vids).vertices := (hmem src).mpr hsrc
  have hv : (loadedPartition p vids).vertices ≠ [] := List.ne_nil_of_mem hsv
  obtain ⟨_, _, hvert, hpid, _, hcase⟩ := loaded_stage_run p vids PartitionPhase.computing
    (PartitionCommand.compute n) a rfl ha hv
  have hsplit : PartitionCommand.compute n ::
      (a ++ [PartitionCommand.superStepMessage uuid k src dest] ++ b)
      = (PartitionCommand.compute n :: a) ++
        (PartitionCommand.superStepMessage uuid k src dest :: b) := by
    simp
  rw [hsplit, partitionRun_append]
  generalize partitionRun (loadedPartition p vids) (PartitionCommand.compute n :: a) = r at *
  -- the stage has not completed when the message arrives
  have hact : StageActive PartitionPhase.computing r.1
      (partitionAckedIds PartitionPhase.computing a) ∧ r.2.countP isStageReply = 0 := by
    rcases hcase with h | ⟨hdone, _⟩
    · exact h
    · exact absurd (hdone.2.2 src (by rw [hvert]; exact hsv)) hnot
  obtain ⟨⟨hph, _, _, _, h5, _, _⟩, hzero⟩ := hact
  have hw : src ∈ r.1.ackRecorder.waiting := h5 src (by rw [hvert]; exact hsv) hnot
  have hdv : dest ∉ r.1.vertices := by
    rw [hvert]
    exact fun h => hdest ((hmem dest).mp h)
  have hfwd : partitionReceive r.1 (PartitionCommand.superStepMessage uuid k src dest)
      = ({ r.1 with inFlight := r.1.inFlight ++ [(uuid, src)] },
          [PartitionEffect.toParent (PartitionMessage.superStepMessage uuid k src dest)]) := by
    rw [receive_message _ _ _ _ _ (by rw [hph]; decide)]
    simp only [routeMessage, if_neg hdv]
  have hl : ({ r.1 with inFlight := r.1.inFlight ++ [(uuid, src)] } :
      PartitionActor).inFlight.lookup uuid = some src := by
    simp [List.lookup_append, hfresh]
  obtain ⟨a2, b2, c2, d2⟩ := pinned_run uuid src b
    { r.1 with inFlight := r.1.inFlight ++ [(uuid, src)] } hb honce hph hw hl
  simp only [partitionRun, hfwd]
  refine ⟨trivial, a2, b2, ?_, ?_⟩
  · rw [List.countP_append, hzero, List.countP_append, countP_eq_zero_of_forall _ d2]
    rfl
  · have hp2 : (partitionRun { r.1 with inFlight := r.1.inFlight ++ [(uuid, src)] }
        b).1.partitionId = p := by
      have hb2 : ∀ cmd ∈ PartitionCommand.superStepMessage uuid k src dest :: b,
          isParentRequest cmd = false := by
        intro x hx
        rcases List.mem_cons.mp hx with h | h
        · rw [h]; rfl
        · exact hb x h
      have hrun := stage_run PartitionPhase.computing (Or.inr rfl)
        (PartitionCommand.superStepMessage uuid k src dest :: b) r.1
        (partitionAckedIds PartitionPhase.computing a) hb2
        ⟨hph, by assumption, by assumption, by assumption, h5, by assumption, by assumption⟩
      simp only [partitionRun, hfwd] at hrun
      rw [hrun.2.1, hpid]
    rw [receive_messageAck _ _ (by rw [a2]; decide)]
    have hrel := relay_effects _ uuid src c2
    rw [hp2] at hrel
    exact hrel

/-- C10 (against the partition modelled from the spec): a partition initialised
with id `p` that has loaded the vertices `vids` replies to `SuperStepBarrier` with
exactly one `SuperStepBarrierPartitionAck{p}` once every loaded vertex has sent its
`SuperStepBarrierAck` and with none before, and to `Compute` with at most one
`ComputePartitionAck{p}`: none while a loaded vertex has not sent its `ComputeAck`,
exactly one once every loaded vertex has sent it and no forwarded message is left
without the worker's ack; this holds whatever the order of the acks, the
duplicates and the message traffic. A `SuperStepMessage` that a vertex which has
not yet sent its `ComputeAck` emits to a destination outside the partition is
forwarded to the parent worker; until the worker's `SuperStepMessageAck` arrives the
vertex stays in the ack set, its `ComputeAck` not recorded even when it has
arrived, and no `ComputePartitionAck` is sent; when the ack arrives it is relayed
to the sending vertex before anything else is done. -/
theorem partition_acks_once_and_relays (p : Nat) (vids : List String) (n : Nat)
    (bcmds ccmds : List PartitionCommand)
    (hbarrier : ∀ cmd ∈ bcmds, isParentRequest cmd = false)
    (hcompute : ∀ cmd ∈ ccmds, isParentRequest cmd = false) :
    (((∀ v ∈ vids, v ∈ partitionAckedIds PartitionPhase.awaitingBarrier bcmds) →
        (partitionRun (loadedPartition p vids)
          (PartitionCommand.superStepBarrier :: bcmds)).2.countP isStageReply = 1) ∧
      ((∃ v ∈ vids, v ∉ partitionAckedIds PartitionPhase.awaitingBarrier bcmds) →
        (partitionRun (loadedPartition p vids)
          (PartitionCommand.superStepBarrier :: bcmds)).2.countP isStageReply = 0) ∧
      (∀ e ∈ (partitionRun (loadedPartition p vids)
          (PartitionCommand.superStepBarrier :: bcmds)).2, isStageReply e = true →
        e = PartitionEffect.toParent (PartitionMessage.superStepBarrierPartitionAck p)) ∧
      (∀ v ∈ vids, PartitionEffect.toVertex v PartitionMessage.superStepBarrier
        ∈ (partitionRun (loadedPartition p vids)
          (PartitionCommand.superStepBarrier :: bcmds)).2)) ∧
    ((partitionRun (loadedPartition p vids)
          (PartitionCommand.compute n :: ccmds)).2.countP isStageReply ≤ 1 ∧
      ((∃ v ∈ vids, v ∉ partitionAckedIds PartitionPhase.computing ccmds) →
        (partitionRun (loadedPartition p vids)
          (PartitionCommand.compute n :: ccmds)).2.countP isStageReply = 0) ∧
      ((∀ v ∈ vids, v ∈ partitionAckedIds PartitionPhase.computing ccmds) →
        (partitionRun (loadedPartition p vids)
          (PartitionCommand.compute n :: ccmds)).1.inFlight = [] →
        (partitionRun (loadedPartition p vids)
          (PartitionCommand.compute n :: ccmds)).2.countP isStageReply = 1) ∧
      (∀ e ∈ (partitionRun (loadedPartition p vids)
          (PartitionCommand.compute n :: ccmds)).2, isStageReply e = true →
        e = PartitionEffect.toParent (PartitionMessage.computePartitionAck p)) ∧
      (∀ v ∈ vids, PartitionEffect.toVertex v (PartitionMessage.compute n)
        ∈ (partitionRun (loadedPartition p vids)
          (PartitionCommand.compute n :: ccmds)).2)) ∧
    (∀ (a b : List PartitionCommand) (uuid : String) (k : Nat) (src dest : String),
      ccmds = a ++ [PartitionCommand.superStepMessage uuid k src dest] ++ b →
      src ∈ vids → dest ∉ vids →
      src ∉ partitionAckedIds PartitionPhase.computing a →
      (partitionRun (loadedPartition p vids)
        (PartitionCommand.compute n :: a)).1.inFlight.lookup uuid = none →
      PartitionCommand.superStepMessageAck uuid ∉ b →
      (partitionReceive
          (partitionRun (loadedPartition p vids) (PartitionCommand.compute n :: a)).1
          (PartitionCommand.superStepMessage uuid k src dest)).2
        = [PartitionEffect.toParent (PartitionMessage.superStepMessage uuid k src dest)] ∧
      (partitionRun (loadedPartition p vids)
        (PartitionCommand.compute n :: ccmds)).1.phase = PartitionPhase.computing ∧
      src ∈ (partitionRun (loadedPartition p vids)
        (PartitionCommand.compute n :: ccmds)).1.ackRecorder.waiting ∧
      (partitionRun (loadedPartition p vids)
        (PartitionCommand.compute n :: ccmds)).2.countP isStageReply = 0 ∧
      ∃ rest, (partitionReceive
          (partitionRun (loadedPartition p vids) (PartitionCommand.compute n :: ccmds)).1
          (PartitionCommand.superStepMessageAck uuid)).2
        = PartitionEffect.toVertex src (PartitionMessage.superStepMessageAck uuid) :: rest ∧
        (rest = [] ∨
          rest = [PartitionEffect.toParent (PartitionMessage.computePartitionAck p)])) := by
  have hB := stage_reply_count p vids PartitionPhase.awaitingBarrier
    PartitionCommand.superStepBarrier bcmds rfl hbarrier
  have hC := stage_reply_count p vids PartitionPhase.computing
    (PartitionCommand.compute n) ccmds rfl hcompute
  refine ⟨⟨fun h => hB.2.2.1 h (Or.inl rfl), hB.2.1, hB.2.2.2.1, hB.2.2.2.2⟩,
    ⟨hC.1, hC.2.1, fun h hfl => hC.2.2.1 h (Or.inr hfl), hC.2.2.2.1, hC.2.2.2.2⟩, ?_⟩
  intro a b uuid k src dest hsplit hsrc hdest hnot hfresh honce
  subst hsplit
  exact forward_and_relay p vids n a b uuid k src dest
    (fun x hx => hcompute x (by simp [hx]))
    (fun x hx => hcompute x (by simp [hx]))
    hsrc hdest hnot hfresh honce

/-- Instance of C10, after `Test_partitionActor_Receive_superstep`: partition 123
with the vertices test-1, test-2, test-3. The barrier completes with the last ack,
duplicates apart. In the compute stage `test-1` sends a message to `dummy`, outside
the partition, and then its `ComputeAck`: the message is forwarded, `test-1` stays
in the ack set and no `ComputePartitionAck` is sent; when `test-3` has acked and the
worker's ack for the message arrives last, it is relayed to `test-1` and the one
`ComputePartitionAck` follows. -/
theorem partition_acks_once_and_relays_witness :
    (partitionRun (loadedPartition 123 ["test-1", "test-2", "test-3"])
      [PartitionCommand.superStepBarrier,
       PartitionCommand.superStepBarrierAck "test-2",
       PartitionCommand.superStepBarrierAck "test-1",
       PartitionCommand.superStepBarrierAck "test-2",
       PartitionCommand.superStepBarrierAck "test-3"]).2.countP isStageReply = 1 ∧
    (partitionReceive
        (partitionRun (loadedPartition 123 ["test-1", "test-2", "test-3"])
          [PartitionCommand.compute 0]).1
        (PartitionCommand.superStepMessage "uuid-1" 0 "test-1" "dummy")).2
      = [PartitionEffect.toParent
          (PartitionMessage.superStepMessage "uuid-1" 0 "test-1" "dummy")] ∧
    "test-1" ∈ (partitionRun (loadedPartition 123 ["test-1", "test-2", "test-3"])
      [PartitionCommand.compute 0,
       PartitionCommand.superStepMessage "uuid-1" 0 "test-1" "dummy",
       PartitionCommand.computeAck "test-1" false,
       PartitionCommand.computeAck "test-2" false]).1.ackRecorder.waiting ∧
    (partitionRun (loadedPartition 123 ["test-1", "test-2", "test-3"])
      [PartitionCommand.compute 0,
       PartitionCommand.superStepMessage "uuid-1" 0 "test-1" "dummy",
       PartitionCommand.computeAck "test-1" false,
       PartitionCommand.computeAck "test-2" false]).2.countP isStageReply = 0 ∧
    (partitionReceive
        (partitionRun (loadedPartition 123 ["test-1", "test-2", "test-3"])
          [PartitionCommand.compute 0,
           PartitionCommand.superStepMessage "uuid-1" 0 "test-1" "dummy",
           PartitionCommand.computeAck "test-1" false,
           PartitionCommand.computeAck "test-2" false,
           PartitionCommand.computeAck "test-3" false]).1
        (PartitionCommand.superStepMessageAck "uuid-1")).2
      = [PartitionEffect.toVertex "test-1" (PartitionMessage.superStepMessageAck "uuid-1"),
         PartitionEffect.toParent (PartitionMessage.computePartitionAck 123)] ∧
    (partitionRun (loadedPartition 123 ["test-1", "test-2", "test-3"])
      [PartitionCommand.compute 0,
       PartitionCommand.superStepMessage "uuid-1" 0 "test-1" "dummy",
       PartitionCommand.computeAck "test-1" false,
       PartitionCommand.computeAck "test-2" false,
       PartitionCommand.computeAck "test-3" false,
       PartitionCommand.superStepMessageAck "uuid-1"]).2.countP isStageReply = 1 ∧
    (partitionRun NewPartitionActor
      [PartitionCommand.initPartition 123, PartitionCommand.loadVertex "test-1",
       PartitionCommand.loadVertexAck "test-1"]).2
      = [PartitionEffect.toParent (PartitionMessage.initPartitionAck 123),
         PartitionEffect.toVertex "test-1" (PartitionMessage.loadVertex "test-1"),
         PartitionEffect.toParent (PartitionMessage.loadVertexAck "test-1")] :=
  have h := partition_acks_once_and_relays 123 ["test-1", "test-2", "test-3"] 0
    [PartitionCommand.superStepBarrierAck "test-2",
     PartitionCommand.superStepBarrierAck "test-1",
     PartitionCommand.superStepBarrierAck "test-2",
     PartitionCommand.superStepBarrierAck "test-3"]
    [PartitionCommand.superStepMessage "uuid-1" 0 "test-1" "dummy",
     PartitionCommand.computeAck "test-1" false,
     PartitionCommand.computeAck "test-2" false]
    (by decide) (by decide)
  have hc := h.2.2 []
    [PartitionCommand.computeAck "test-1" false, PartitionCommand.computeAck "test-2" false]
    "uuid-1" 0 "test-1" "dummy" rfl (by decide) (by decide) (by decide) (by decide)
    (by decide)
  have h2 := partition_acks_once_and_relays 123 ["test-1", "test-2", "test-3"] 0 []
    [PartitionCommand.superStepMessage "uuid-1" 0 "test-1" "dummy",
     PartitionCommand.computeAck "test-1" false,
     PartitionCommand.computeAck "test-2" false,
     PartitionCommand.computeAck "test-3" false,
     PartitionCommand.superStepMessageAck "uuid-1"]
    (by decide) (by decide)
  ⟨h.1.1 (by decide), hc.1, hc.2.2.1, hc.2.2.2.1, by decide,
    h2.2.1.2.2.1 (by decide) (by decide), by decide⟩

/-! ### The state name follows the behaviour -/

theorem setup_nameMatches (c : Collaborators) (s : CoordinatorActor) (cmd : Command)
    (h : NameMatches s) : NameMatches (setup c s cmd).1 := by
  cases cmd <;> simp only [setup, NameMatches] at h ⊢ <;> repeat' split
  all_goals simp_all [stateNameOf]

theorem idle_nameMatches (c : Collaborators) (s : CoordinatorActor) (cmd : Command)
    (h : NameMatches s) : NameMatches (idle c s cmd).1 := by
  cases cmd <;> simp only [idle, NameMatches, requestAll_eq] at h ⊢ <;> repeat' split
  all_goals simp_all [stateNameOf]

theorem waitLoad_nameMatches (c : Collaborators) (s : CoordinatorActor) (cmd : Command)
    (h : NameMatches s) : NameMatches (waitLoadPartitionVertices c s cmd).1 := by
  cases cmd <;> simp only [waitLoadPartitionVertices, NameMatches] at h ⊢ <;> repeat' split
  all_goals simp_all [stateNameOf]

theorem superstep_nameMatches (c : Collaborators) (s : CoordinatorActor) (cmd : Command)
    (h : NameMatches s) : NameMatches (superstep c s cmd).1 := by
  cases cmd <;> simp only [superstep, NameMatches, requestAll_eq] at h ⊢ <;> repeat' split
  all_goals simp_all [stateNameOf]

theorem computing_nameMatches (c : Collaborators) (s : CoordinatorActor) (cmd : Command)
    (h : NameMatches s) : NameMatches (computing c s cmd).1 := by
  cases cmd <;> simp only [computing, finishStep, NameMatches, requestAll_eq] at h ⊢ <;>
    repeat' split
  all_goals simp_all [stateNameOf]

theorem Receive_nameMatches (c : Collaborators) (s : CoordinatorActor) (cmd : Command)
    (h : NameMatches s) : NameMatches (Receive c s cmd).1 := by
  have hbeh : NameMatches (behaviorReceive c s cmd).1 := by
    simp only [behaviorReceive]
    cases hb : s.behavior
    · exact setup_nameMatches c s cmd h
    · exact idle_nameMatches c s cmd h
    · exact waitLoad_nameMatches c s cmd h
    · exact superstep_nameMatches c s cmd h
    · exact computing_nameMatches c s cmd h
  cases cmd <;> simp only [Receive] <;> first | exact hbeh | (repeat' split) <;> exact h

theorem run_nameMatches (c : Collaborators) : ∀ (cmds : List Command) (s : CoordinatorActor),
    NameMatches s → NameMatches (run c s cmds).1 := by
  intro cmds
  induction cmds with
  | nil => intro s h; exact h
  | cons cmd rest ih =>
    intro s h
    simp only [run]
    exact ih _ (Receive_nameMatches c s cmd h)

/-! ### A published snapshot holds vertex statistics -/

theorem setup_snapshotReadable (c : Collaborators) (s : CoordinatorActor) (cmd : Command)
    (h : SnapshotReadable c s) : SnapshotReadable c (setup c s cmd).1 := by
  cases cmd <;> simp only [setup, SnapshotReadable] at h ⊢ <;> repeat' split
  all_goals exact h

theorem idle_snapshotReadable (c : Collaborators) (s : CoordinatorActor) (cmd : Command)
    (h : SnapshotReadable c s) : SnapshotReadable c (idle c s cmd).1 := by
  cases cmd <;> simp only [idle, SnapshotReadable, requestAll_eq] at h ⊢ <;> repeat' split
  all_goals exact h

theorem waitLoad_snapshotReadable (c : Collaborators) (s : CoordinatorActor) (cmd : Command)
    (h : SnapshotReadable c s) : SnapshotReadable c (waitLoadPartitionVertices c s cmd).1 := by
  cases cmd <;> simp only [waitLoadPartitionVertices, SnapshotReadable] at h ⊢ <;> repeat' split
  all_goals exact h

theorem superstep_snapshotReadable (c : Collaborators) (s : CoordinatorActor) (cmd : Command)
    (h : SnapshotReadable c s) : SnapshotReadable c (superstep c s cmd).1 := by
  cases cmd <;> simp only [superstep, SnapshotReadable, requestAll_eq] at h ⊢ <;> repeat' split
  all_goals exact h

theorem finishStep_snapshotReadable (c : Collaborators) (s : CoordinatorActor)
    (h : SnapshotReadable c s) : SnapshotReadable c (finishStep c s).1 := by
  simp only [finishStep, requestAll_eq]
  cases hst : getStats c s.aggregatedCurrentStep with
  | error err => exact h
  | ok stats =>
    simp only []
    split
    · exact Or.inr ⟨stats, hst⟩
    · split
      · exact h
      · exact Or.inr ⟨stats, hst⟩

theorem computing_snapshotReadable (c : Collaborators) (s : CoordinatorActor) (cmd : Command)
    (h : SnapshotReadable c s) : SnapshotReadable c (computing c s cmd).1 := by
  cases cmd
  case computeWorkerAck pid vals =>
    simp only [computing]
    split
    · exact h
    · split
      · exact h
      · split
        · exact finishStep_snapshotReadable c _ h
        · exact h
  all_goals exact h

theorem Receive_snapshotReadable (c : Collaborators) (s : CoordinatorActor) (cmd : Command)
    (h : SnapshotReadable c s) : SnapshotReadable c (Receive c s cmd).1 := by
  have hbeh : SnapshotReadable c (behaviorReceive c s cmd).1 := by
    simp only [behaviorReceive]
    cases hb : s.behavior
    · exact setup_snapshotReadable c s cmd h
    · exact idle_snapshotReadable c s cmd h
    · exact waitLoad_snapshotReadable c s cmd h
    · exact superstep_snapshotReadable c s cmd h
    · exact computing_snapshotReadable c s cmd h
  cases cmd <;> simp only [Receive] <;> first | exact hbeh | (repeat' split) <;> exact h

theorem run_snapshotReadable (c : Collaborators) : ∀ (cmds : List Command)
    (s : CoordinatorActor), SnapshotReadable c s → SnapshotReadable c (run c s cmds).1 := by
  intro cmds
  induction cmds with
  | nil => intro s h; exact h
  | cons cmd rest ih =>
    intro s h
    simp only [run]
    exact ih _ (Receive_snapshotReadable c s cmd h)


/-! ### Claims on the query handlers and on failures -/

/-- C11 at the failing input: a coordinator that has accepted no `NewCluster`
handles `Shutdown` by dereferencing the unset `clusterInfo`: the handler panics
before it replies `ShutdownAck` and before it invokes the shutdown hook. Once a
cluster is set up, `Shutdown` is sent to every worker, `ShutdownAck` is replied and
the hook is invoked once. -/
theorem shutdown_without_cluster_panics (c : Collaborators) :
    Receive c NewCoordinatorActor Command.shutdown = (NewCoordinatorActor, [Effect.panic]) ∧
    (Receive exampleCollaborators
        (run exampleCollaborators NewCoordinatorActor exampleSetupRun).1 Command.shutdown).2
      = [Effect.send exampleW0 OutMessage.shutdown, Effect.send exampleW1 OutMessage.shutdown,
         Effect.respond OutMessage.shutdownAck, Effect.shutdownHandler] := by
  refine ⟨rfl, by decide⟩

/-- C12: a coordinator in its initial state that receives `NewCluster` with zero
workers or with `NrOfPartitions = 0` fails the command and is left unchanged:
`clusterInfo` stays unset, the state name stays "initializing cluster", the ack set
is unchanged, and nothing is sent (no `InitWorker`, hence no worker spawned). A
later `NewCluster` is handled as if the rejected one had not been sent, and a valid
one (the assignment succeeds and the workers spawn) is accepted: the cluster is
recorded and `NewClusterAck` is replied. -/
theorem newCluster_rejected_keeps_state (c : Collaborators) (workers : List WorkerReq)
    (nrOfPartitions : Nat) (workers2 : List WorkerReq) (nrOfPartitions2 : Nat)
    (assigned : List (List Nat)) (ar : AckRecorder) (effs : List Effect)
    (infos : List WorkerInfo)
    (hbad : workers = [] ∨ nrOfPartitions = 0)
    (hassign : assignPartition c.maxAlloc workers2.length nrOfPartitions2 = GoResult.ok assigned)
    (hspawn : spawnWorkers c assigned workers2 0 ⟨[]⟩ [] [] = (ar, effs, some infos)) :
    (Receive c NewCoordinatorActor (Command.newCluster workers nrOfPartitions)).1
      = NewCoordinatorActor ∧
    (∃ err, (Receive c NewCoordinatorActor (Command.newCluster workers nrOfPartitions)).2
      = [Effect.fail err]) ∧
    (Receive c NewCoordinatorActor
        (Command.newCluster workers nrOfPartitions)).1.clusterInfo = none ∧
    (Receive c NewCoordinatorActor
        (Command.newCluster workers nrOfPartitions)).1.stateName = "initializing cluster" ∧
    (Receive c NewCoordinatorActor
        (Command.newCluster workers nrOfPartitions)).1.ackRecorder
      = NewCoordinatorActor.ackRecorder ∧
    (Receive c (Receive c NewCoordinatorActor (Command.newCluster workers nrOfPartitions)).1
        (Command.newCluster workers2 nrOfPartitions2)).1.clusterInfo
      = some { workerInfo := infos } ∧
    Effect.respond OutMessage.newClusterAck
      ∈ (Receive c (Receive c NewCoordinatorActor (Command.newCluster workers nrOfPartitions)).1
          (Command.newCluster workers2 nrOfPartitions2)).2 := by
  have hrej : Receive c NewCoordinatorActor (Command.newCluster workers nrOfPartitions)
      = (NewCoordinatorActor,
          [Effect.fail (if workers = [] then "no available workers" else "no partitions")]) := by
    rcases hbad with h | h
    · subst h
      simp [Receive, behaviorReceive, NewCoordinatorActor, setup, assignPartition]
    · subst h
      by_cases hw : workers = []
      · subst hw
        simp [Receive, behaviorReceive, NewCoordinatorActor, setup, assignPartition]
      · have hl : workers.length ≠ 0 := fun h => hw (List.length_eq_zero.mp h)
        simp [Receive, behaviorReceive, NewCoordinatorActor, setup, assignPartition, hl, hw]
  have hacc : Receive c NewCoordinatorActor (Command.newCluster workers2 nrOfPartitions2)
      = ({ NewCoordinatorActor with ackRecorder := ar, clusterInfo := some { workerInfo := infos } },
          effs ++ infos.map (fun wi =>
              Effect.send wi.workerPid (OutMessage.clusterInfo { workerInfo := infos }))
            ++ [Effect.respond OutMessage.newClusterAck]) := by
    simp [Receive, behaviorReceive, NewCoordinatorActor, setup, hassign, AckRecorder.clear,
      hspawn]
  rw [hrej]
  refine ⟨rfl, ⟨_, rfl⟩, rfl, rfl, rfl, ?_, ?_⟩
  · simp only [hacc]
  · simp only [hacc]
    simp

/-- Instance of C12: an empty worker list is rejected, then two local workers with
two partitions are accepted. -/
theorem newCluster_rejected_keeps_state_witness :
    (Receive exampleCollaborators NewCoordinatorActor (Command.newCluster [] 2)).1
      = NewCoordinatorActor ∧
    (Receive exampleCollaborators
        (Receive exampleCollaborators NewCoordinatorActor (Command.newCluster [] 2)).1
        (Command.newCluster [⟨false, ""⟩, ⟨false, ""⟩] 2)).1.clusterInfo
      = some exampleCluster :=
  have h := newCluster_rejected_keeps_state exampleCollaborators [] 2
    [⟨false, ""⟩, ⟨false, ""⟩] 2 [[0], [1]] ⟨["w0", "w1"]⟩
    [Effect.request exampleW0 (OutMessage.initWorker [0]),
     Effect.request exampleW1 (OutMessage.initWorker [1])]
    exampleCluster.workerInfo (Or.inl rfl) (by decide) (by decide)
  ⟨h.1, h.2.2.2.2.2.1⟩

/-- The reply to `CoordinatorStats` in any state. -/
theorem coordinatorStats_step (c : Collaborators) (s : CoordinatorActor) :
    Receive c s Command.coordinatorStats =
      match s.lastAggregatedValue.values with
      | none => (s, [Effect.respond (OutMessage.coordinatorStatsAck s.stateName 0 0 0)])
      | some values =>
        match getStats c (some values) with
        | Except.error err => (s, [Effect.fail err])
        | Except.ok stats =>
          (s, [Effect.respond (OutMessage.coordinatorStatsAck s.stateName
            s.lastAggregatedValue.superstep stats.activeVertices stats.messagesSent)]) := by
  simp only [Receive]

/-- C13 (amended): when merging a worker's aggregated values fails in the computing
state (the plugin's aggregator or the `VertexStats` extraction returns an error),
the coordinator calls `Fail` with the error and stays in the computing state, its
state name unchanged; every later reply to `CoordinatorStats` reports
"processing superstep - computing", one of the five state names. -/
theorem plugin_error_keeps_computing (c : Collaborators) (cmds : List Command) (pid : PID)
    (vals : GoMap) (ar : AckRecorder) (base : GoMap) (err : String)
    (hb : (run c NewCoordinatorActor cmds).1.behavior = Behavior.computing)
    (hack : (run c NewCoordinatorActor cmds).1.ackRecorder.ack pid.id = (ar, true))
    (hfail : mergeAck c (run c NewCoordinatorActor cmds).1.aggregatedCurrentStep vals
        = (base, some err) ∨
      (mergeAck c (run c NewCoordinatorActor cmds).1.aggregatedCurrentStep vals = (base, none) ∧
        ar.hasCompleted = true ∧ getStats c base = Except.error err)) :
    (Receive c (run c NewCoordinatorActor cmds).1 (Command.computeWorkerAck pid vals)).2
      = [Effect.fail err] ∧
    (Receive c (run c NewCoordinatorActor cmds).1
      (Command.computeWorkerAck pid vals)).1.behavior = Behavior.computing ∧
    (Receive c (run c NewCoordinatorActor cmds).1
      (Command.computeWorkerAck pid vals)).1.stateName = "processing superstep - computing" ∧
    "processing superstep - computing" ∈ normalStateNames ∧
    (∀ st x y z, Effect.respond (OutMessage.coordinatorStatsAck st x y z)
        ∈ (Receive c (Receive c (run c NewCoordinatorActor cmds).1
            (Command.computeWorkerAck pid vals)).1 Command.coordinatorStats).2 →
      st = "processing superstep - computing") := by
  have hname := run_nameMatches c cmds NewCoordinatorActor rfl
  generalize (run c NewCoordinatorActor cmds).1 = s at *
  have hn : s.stateName = CoordinatorStateProcessingComputing := by
    rw [hname, hb]; rfl
  have hstep : Receive c s (Command.computeWorkerAck pid vals)
      = ({ s with ackRecorder := (if (mergeAck c s.aggregatedCurrentStep vals).2 = none
                      then ar.clear else ar),
                  aggregatedCurrentStep := base }, [Effect.fail err]) := by
    rcases hfail with h | ⟨h1, h2, h3⟩
    · simp [Receive, behaviorReceive, hb, computing, hack, h]
    · simp [Receive, behaviorReceive, hb, computing, hack, h1, h2, finishStep, h3]
  rw [hstep]
  refine ⟨rfl, hb, hn, by decide, ?_⟩
  intro st x y z hmem
  rw [coordinatorStats_step] at hmem
  simp only [] at hmem
  split at hmem
  · simp only [List.mem_singleton, Effect.respond.injEq,
      OutMessage.coordinatorStatsAck.injEq] at hmem
    rw [hmem.1]; exact hn
  · split at hmem
    · simp at hmem
    · simp only [List.mem_singleton, Effect.respond.injEq,
        OutMessage.coordinatorStatsAck.injEq] at hmem
      rw [hmem.1]; exact hn

/-- Instance of C13 (amended): in the example job the ack of `w1` for step 0
carries values the plugin rejects. -/
theorem plugin_error_keeps_computing_witness :
    (Receive exampleCollaborators (run exampleCollaborators NewCoordinatorActor
        exampleRejectedRun).1 (Command.computeWorkerAck exampleW1 exampleRejected)).2
      = [Effect.fail "unknown aggregator"] ∧
    (Receive exampleCollaborators (run exampleCollaborators NewCoordinatorActor
        exampleRejectedRun).1
      (Command.computeWorkerAck exampleW1 exampleRejected)).1.stateName
      = "processing superstep - computing" :=
  have h := plugin_error_keeps_computing exampleCollaborators exampleRejectedRun exampleW1
    exampleRejected ⟨[]⟩ (statsMap 1 0) "unknown aggregator" (by decide) (by decide)
    (Or.inl rfl)
  ⟨h.1, h.2.2.1⟩

/-- C13 as stated fails: after a failed merge, and after a failed extraction of
the `VertexStats`, the coordinator is in no failed state; `CoordinatorStats` is
answered with the state name "processing superstep - computing", one of the five
state names of the code. -/
theorem failed_merge_reports_computing :
    (Receive exampleCollaborators
        (Receive exampleCollaborators (run exampleCollaborators NewCoordinatorActor
          exampleRejectedRun).1 (Command.computeWorkerAck exampleW1 exampleRejected)).1
        Command.coordinatorStats).2
      = [Effect.respond (OutMessage.coordinatorStatsAck CoordinatorStateProcessingComputing
          0 0 0)] ∧
    (Receive exampleCollaborators
        (Receive exampleCollaborators (exampleComputing 0 ["w1"] (some []))
          (Command.computeWorkerAck exampleW1 none)).1
        Command.coordinatorStats).2
      = [Effect.respond (OutMessage.coordinatorStatsAck CoordinatorStateProcessingComputing
          0 0 0)] ∧
    CoordinatorStateProcessingComputing ∈ normalStateNames := by
  refine ⟨by decide, by decide, by decide⟩


/-- C14: in every state the coordinator reaches, `CoordinatorStats` is answered,
the state unchanged, with `State` the current state name; if a snapshot has been
published, `SuperStep` is the snapshot's superstep and `NrOfActiveVertex`,
`NrOfSentMessages` are the `activeVertices`, `messagesSent` of the `VertexStats`
stored in the snapshot; if no snapshot has been published, the three numbers
are 0. -/
theorem coordinatorStats_reply (c : Collaborators) (cmds : List Command) :
    (Receive c (run c NewCoordinatorActor cmds).1 Command.coordinatorStats).1
      = (run c NewCoordinatorActor cmds).1 ∧
    ((run c NewCoordinatorActor cmds).1.lastAggregatedValue.values = none →
      (Receive c (run c NewCoordinatorActor cmds).1 Command.coordinatorStats).2
        = [Effect.respond (OutMessage.coordinatorStatsAck
            (run c NewCoordinatorActor cmds).1.stateName 0 0 0)]) ∧
    ((run c NewCoordinatorActor cmds).1.lastAggregatedValue.values ≠ none →
      ∃ stats,
        getStats c (run c NewCoordinatorActor cmds).1.lastAggregatedValue.values
          = Except.ok stats ∧
        (Receive c (run c NewCoordinatorActor cmds).1 Command.coordinatorStats).2
          = [Effect.respond (OutMessage.coordinatorStatsAck
              (run c NewCoordinatorActor cmds).1.stateName
              (run c NewCoordinatorActor cmds).1.lastAggregatedValue.superstep
              stats.activeVertices stats.messagesSent)]) := by
  have hread := run_snapshotReadable c cmds NewCoordinatorActor (Or.inl rfl)
  generalize (run c NewCoordinatorActor cmds).1 = s at *
  rw [coordinatorStats_step]
  cases hv : s.lastAggregatedValue.values with
  | none => simp
  | some v =>
    rcases hread with h | ⟨stats, hst⟩
    · rw [hv] at h; cases h
    · rw [hv] at hst
      simp only [hst, ne_eq, reduceCtorEq, not_false_eq_true, true_implies, false_implies,
        and_true, true_and]
      exact ⟨stats, rfl, rfl⟩

/-- The names a `ShowAggregatedValue` reply holds, with their renderings. -/
theorem mem_showAggregatedValues (c : Collaborators) (values : GoMap) (name str : String) :
    (name, str) ∈ showAggregatedValues c values ↔
      (∃ entries v, values = some entries ∧ (name, v) ∈ entries) ∧
      name ∉ c.systemAggregator ∧
      c.getAggregatedValueString values name = Except.ok str := by
  cases values with
  | none => simp [showAggregatedValues]
  | some entries =>
    simp only [showAggregatedValues, List.mem_filterMap, isSystemAggregator, List.any_eq_true,
      beq_iff_eq, Option.some.injEq, exists_and_left, exists_eq_left']
    constructor
    · rintro ⟨⟨n, v⟩, hmem, h⟩
      simp only [] at h
      split at h
      · cases h
      · rename_i hsys
        split at h
        · cases h
        · rename_i s hs
          simp only [Option.some.injEq, Prod.mk.injEq] at h
          obtain ⟨h1, h2⟩ := h
          subst h1 h2
          refine ⟨⟨v, hmem⟩, ?_, hs⟩
          intro hin
          exact hsys ⟨n, hin, rfl⟩
    · rintro ⟨⟨v, hmem⟩, hsys, hs⟩
      refine ⟨(name, v), hmem, ?_⟩
      have : ¬ ∃ x ∈ c.systemAggregator, x = name := by
        rintro ⟨x, hx, rfl⟩
        exact hsys hx
      simp [this, hs]

/-- C15: in every state the reply to `ShowAggregatedValue` holds exactly the names
of the last published snapshot that are not among the names of the package
variable `systemAggregator` and whose value can be rendered, each with the
rendering of the snapshot value; it holds no name of a system aggregator, and
nothing when no snapshot has been published. -/
theorem showAggregatedValue_reply (c : Collaborators) (s : CoordinatorActor) :
    Receive c s Command.showAggregatedValue
      = (s, [Effect.respond (OutMessage.showAggregatedValueAck
          (showAggregatedValues c s.lastAggregatedValue.values))]) ∧
    (∀ name str, (name, str) ∈ showAggregatedValues c s.lastAggregatedValue.values ↔
      (∃ entries v, s.lastAggregatedValue.values = some entries ∧ (name, v) ∈ entries) ∧
      name ∉ c.systemAggregator ∧
      c.getAggregatedValueString s.lastAggregatedValue.values name = Except.ok str) ∧
    (∀ name str, (name, str) ∈ showAggregatedValues c s.lastAggregatedValue.values →
      name ∉ c.systemAggregator) ∧
    (s.lastAggregatedValue.values = none →
      showAggregatedValues c s.lastAggregatedValue.values = []) := by
  refine ⟨rfl, ?_, ?_, ?_⟩
  · intro name str
    exact mem_showAggregatedValues c _ name str
  · intro name str h
    exact ((mem_showAggregatedValues c _ name str).mp h).2.1
  · intro h
    rw [h]
    rfl

/-! ## The maximum-value example plugin: theorems -/

/-- On `uint32` messages the loop of `getMaxFromMessages` returns a value that is at
least the starting `max` and every message, and is the start or one of the messages. -/
theorem getMaxLoop_spec (ns : List Nat) (max : Nat) :
    ∃ r, getMaxLoop (ns.map GoValue.uint32) max = Except.ok r ∧
      max ≤ r ∧ (∀ n ∈ ns, n ≤ r) ∧ (r = max ∨ r ∈ ns) := by
  induction ns generalizing max with
  | nil => exact ⟨max, rfl, le_refl _, by simp, Or.inl rfl⟩
  | cons n rest ih =>
    obtain ⟨r, hr, hle, hall, hmem⟩ := ih (if n > max then n else max)
    refine ⟨r, by simpa [getMaxLoop] using hr, ?_, ?_, ?_⟩
    · split at hle <;> omega
    · intro k hk
      rcases List.mem_cons.mp hk with rfl | hk
      · split at hle <;> omega
      · exact hall k hk
    · rcases hmem with h | h
      · split at h
        · exact Or.inr (by simp [h])
        · exact Or.inl h
      · exact Or.inr (List.mem_cons_of_mem _ h)

/-- On a non-empty list of `uint32` messages `getMaxFromMessages` returns the
greatest message. -/
theorem getMaxFromMessages_spec (ns : List Nat) (hne : ns ≠ []) :
    ∃ r, getMaxFromMessages (ns.map GoValue.uint32) = Except.ok r ∧
      r ∈ ns ∧ ∀ n ∈ ns, n ≤ r := by
  obtain ⟨r, hr, _, hall, hmem⟩ := getMaxLoop_spec ns 0
  refine ⟨r, ?_, ?_, hall⟩
  · have hlen : ¬ (ns.map GoValue.uint32).length = 0 := by
      simpa [List.length_eq_zero] using hne
    simp only [getMaxFromMessages, if_neg hlen, hr]
  · rcases hmem with h | h
    · cases ns with
      | nil => exact absurd rfl hne
      | cons n rest =>
        have := hall n (List.mem_cons_self _ _)
        have hn : n = 0 := by omega
        rw [h, ← hn]; exact List.mem_cons_self _ _
    · exact h

/-- The result of `getMaxFromMessages` on one `uint32` message is that message. -/
theorem getMaxFromMessages_singleton (m : Nat) :
    getMaxFromMessages [GoValue.uint32 m] = Except.ok m := by
  by_cases h : m > 0 <;> simp [getMaxFromMessages, getMaxLoop, h]
  omega

/-- C16: on `uint32` values the aggregator of the maximum example never fails and is
commutative, associative and idempotent. -/
theorem maxAggregator_comm_assoc_idem (a b c : Nat) :
    (∃ r, maxAggregator.Aggregate (GoValue.uint32 a) (GoValue.uint32 b) = Except.ok r ∧
      maxAggregator.Aggregate (GoValue.uint32 b) (GoValue.uint32 a) = Except.ok r) ∧
    (∃ ab bc r,
      maxAggregator.Aggregate (GoValue.uint32 a) (GoValue.uint32 b) = Except.ok ab ∧
      maxAggregator.Aggregate (GoValue.uint32 b) (GoValue.uint32 c) = Except.ok bc ∧
      maxAggregator.Aggregate ab (GoValue.uint32 c) = Except.ok r ∧
      maxAggregator.Aggregate (GoValue.uint32 a) bc = Except.ok r) ∧
    maxAggregator.Aggregate (GoValue.uint32 a) (GoValue.uint32 a) =
      Except.ok (GoValue.uint32 a) := by
  refine ⟨?_, ?_, ?_⟩
  · by_cases h1 : a > b <;> by_cases h2 : b > a <;>
      simp [maxAggregator.Aggregate, h1, h2] <;> omega
  · by_cases h1 : a > b <;> by_cases h2 : b > c <;> by_cases h3 : a > c <;>
      simp [maxAggregator.Aggregate, h1, h2, h3] <;> omega
  · simp [maxAggregator.Aggregate]

/-- C17: `Aggregate` fails exactly when one of its arguments is not a `uint32` (the
nil interface included); on two `uint32` values it returns the larger one, which is
one of the two and at least both. -/
theorem maxAggregator_error_iff (v1 v2 : GoValue) (a b : Nat) :
    ((∃ err, maxAggregator.Aggregate v1 v2 = Except.error err) ↔
      (v1.isUint32 = false ∨ v2.isUint32 = false)) ∧
    ((∃ r, maxAggregator.Aggregate v1 v2 = Except.ok r) ↔
      (v1.isUint32 = true ∧ v2.isUint32 = true)) ∧
    (∃ err, maxAggregator.Aggregate GoValue.nil v2 = Except.error err) ∧
    (∃ err, maxAggregator.Aggregate v1 GoValue.nil = Except.error err) ∧
    maxAggregator.Aggregate (GoValue.uint32 a) (GoValue.uint32 b) =
      Except.ok (GoValue.uint32 (max a b)) ∧
    (max a b = a ∨ max a b = b) ∧ a ≤ max a b ∧ b ≤ max a b := by
  refine ⟨?_, ?_, ?_, ?_, ?_, ?_, ?_, ?_⟩
  · cases v1 <;> cases v2 <;> simp [maxAggregator.Aggregate, GoValue.isUint32]
    split <;> simp
  · cases v1 <;> cases v2 <;> simp [maxAggregator.Aggregate, GoValue.isUint32]
    split <;> simp
  · exact ⟨_, rfl⟩
  · cases v1 <;> exact ⟨_, rfl⟩
  · by_cases h : a > b
    · simp [maxAggregator.Aggregate, h]; omega
    · simp [maxAggregator.Aggregate, h]; omega
  · omega
  · omega
  · omega

/-- C18: for every destination and non-empty list of `uint32` messages the combiner
of the maximum example returns exactly one message, the greatest of the input and one
of the input; `[3, 7, 5]` is combined to `[7]`. -/
theorem combiner_singleton_max (destination : String) (ns : List Nat) (hne : ns ≠ []) :
    (∃ m, combiner destination (ns.map GoValue.uint32) = Except.ok [GoValue.uint32 m] ∧
      m ∈ ns ∧ (∀ n ∈ ns, n ≤ m) ∧
      [GoValue.uint32 m].length = 1 ∧
      [GoValue.uint32 m].length ≤ (ns.map GoValue.uint32).length) ∧
    combiner destination [GoValue.uint32 3, GoValue.uint32 7, GoValue.uint32 5] =
      Except.ok [GoValue.uint32 7] := by
  refine ⟨?_, rfl⟩
  obtain ⟨r, hr, hmem, hall⟩ := getMaxFromMessages_spec ns hne
  refine ⟨r, by simp only [combiner, hr], hmem, hall, rfl, ?_⟩
  cases ns with
  | nil => exact absurd rfl hne
  | cons n rest => simp

/-- Witness of C18 on the messages `[3, 7, 5]`. -/
theorem combiner_singleton_max_witness :
    ([3, 7, 5] : List Nat) ≠ [] ∧
    ((∃ m, combiner "v" (([3, 7, 5] : List Nat).map GoValue.uint32) =
        Except.ok [GoValue.uint32 m] ∧
      m ∈ ([3, 7, 5] : List Nat) ∧ (∀ n ∈ ([3, 7, 5] : List Nat), n ≤ m) ∧
      [GoValue.uint32 m].length = 1 ∧
      [GoValue.uint32 m].length ≤ (([3, 7, 5] : List Nat).map GoValue.uint32).length) ∧
    combiner "v" [GoValue.uint32 3, GoValue.uint32 7, GoValue.uint32 5] =
      Except.ok [GoValue.uint32 7]) :=
  ⟨by decide, combiner_singleton_max "v" [3, 7, 5] (by decide)⟩

/-- C19: on `uint32` messages the result of the combiner depends neither on the order
of the messages nor on the destination: the same singleton, or the same error. -/
theorem combiner_perm_destination (d1 d2 : String) (ns ms : List Nat)
    (hperm : ns.Perm ms) :
    combiner d1 (ns.map GoValue.uint32) = combiner d2 (ms.map GoValue.uint32) ∧
    ((∃ m, combiner d1 (ns.map GoValue.uint32) = Except.ok [GoValue.uint32 m]) ∨
      (ns = [] ∧ combiner d1 (ns.map GoValue.uint32) =
        Except.error PluginError.emptySlice)) := by
  cases ns with
  | nil =>
    have hms : ms = [] := List.Perm.eq_nil (List.Perm.symm hperm)
    subst hms
    exact ⟨rfl, Or.inr ⟨rfl, rfl⟩⟩
  | cons n rest =>
    have hne : n :: rest ≠ [] := List.cons_ne_nil _ _
    have hne2 : ms ≠ [] := by
      intro h; subst h; exact hne (List.Perm.eq_nil hperm)
    obtain ⟨r, hr, hmem, hall⟩ := getMaxFromMessages_spec (n :: rest) hne
    obtain ⟨q, hq, hmemq, hallq⟩ := getMaxFromMessages_spec ms hne2
    have h1 : q ≤ r := hall q ((List.Perm.mem_iff hperm).mpr hmemq)
    have h2 : r ≤ q := hallq r ((List.Perm.mem_iff hperm).mp hmem)
    have hrq : r = q := by omega
    subst hrq
    refine ⟨by simp only [combiner, hr, hq], Or.inl ⟨r, by simp only [combiner, hr]⟩⟩

/-- Witness of C19 on `[3, 7, 5]` and `[5, 3, 7]`. -/
theorem combiner_perm_destination_witness :
    ([3, 7, 5] : List Nat).Perm [5, 3, 7] ∧
    (combiner "v1" (([3, 7, 5] : List Nat).map GoValue.uint32) =
        combiner "v2" (([5, 3, 7] : List Nat).map GoValue.uint32) ∧
      ((∃ m, combiner "v1" (([3, 7, 5] : List Nat).map GoValue.uint32) =
          Except.ok [GoValue.uint32 m]) ∨
        (([3, 7, 5] : List Nat) = [] ∧
          combiner "v1" (([3, 7, 5] : List Nat).map GoValue.uint32) =
            Except.error PluginError.emptySlice))) :=
  ⟨by decide, combiner_perm_destination "v1" "v2" [3, 7, 5] [5, 3, 7] (by decide)⟩

/-- C20: for every vertex, context and non-empty list of `uint32` messages, `Compute`
run on the combined messages leaves the same vertex, makes the same calls on the
context in the same order (vote to halt, messages sent, `PutAggregatable`) and
returns the same error as `Compute` run on the original messages. -/
theorem compute_same_on_combined (v : vert) (ctx : ComputeContext) (destination : String)
    (ns : List Nat) (hne : ns ≠ []) :
    ∃ combined, combiner destination (ns.map GoValue.uint32) = Except.ok combined ∧
      v.Compute { ctx with receivedMessages := combined } =
        v.Compute { ctx with receivedMessages := ns.map GoValue.uint32 } := by
  obtain ⟨r, hr, _, _⟩ := getMaxFromMessages_spec ns hne
  refine ⟨[GoValue.uint32 r], by simp only [combiner, hr], ?_⟩
  have hlen : ¬ (ns.map GoValue.uint32).length = 0 := by
    simpa [List.length_eq_zero] using hne
  have hsend : ∀ (w : vert) (edges : List String) (calls : List ContextCall),
      sendToEdges { ctx with receivedMessages := [GoValue.uint32 r] } w edges calls =
        sendToEdges { ctx with receivedMessages := ns.map GoValue.uint32 } w edges calls := by
    intro w edges
    induction edges with
    | nil => intro calls; rfl
    | cons e rest ih =>
      intro calls
      simp only [sendToEdges]
      split
      · rfl
      · exact ih _
  simp only [vert.Compute, getMaxFromMessages_singleton, hr, if_neg hlen, hsend]
  rfl

/-- Witness of C20 on a vertex of value 2 that receives `[3, 7, 5]` in superstep 1. -/
theorem compute_same_on_combined_witness :
    ([3, 7, 5] : List Nat) ≠ [] ∧
    ∃ combined, combiner "B" (([3, 7, 5] : List Nat).map GoValue.uint32) =
        Except.ok combined ∧
      vert.Compute ⟨"B", 2, ["C"]⟩
          { exampleContext 1 [] with receivedMessages := combined } =
        vert.Compute ⟨"B", 2, ["C"]⟩
          { exampleContext 1 [] with
            receivedMessages := ([3, 7, 5] : List Nat).map GoValue.uint32 } :=
  ⟨by decide, compute_same_on_combined ⟨"B", 2, ["C"]⟩ (exampleContext 1 []) "B" [3, 7, 5]
    (by decide)⟩

/-! ### The vertex of the maximum example -/

/-- What `PutAggregatable` at the end of `Compute` leaves. -/
theorem putAndReturn_spec (ctx : ComputeContext) (v : vert) (calls : List ContextCall) :
    (putAndReturn ctx v calls).vertex = v ∧
    (putAndReturn ctx v calls).calls =
      calls ++ [ContextCall.putAggregatable aggregatorName (GoValue.uint32 v.value)] := by
  simp [putAndReturn]

/-- The loop over the outgoing edges keeps the vertex, only adds calls that are
not `VoteToHalt`, at most one `SendMessageTo` per edge in edge order, and when no
error is returned it has made one call per edge and the final `PutAggregatable`. -/
theorem sendToEdges_spec (ctx : ComputeContext) (v : vert) :
    ∀ (edges : List String) (calls : List ContextCall),
      (sendToEdges ctx v edges calls).vertex = v ∧
      (∃ tail, (sendToEdges ctx v edges calls).calls = calls ++ tail ∧
        tail.any (fun call => decide (call = ContextCall.voteToHalt)) = false) ∧
      ((sendToEdges ctx v edges calls).error = none →
        (sendToEdges ctx v edges calls).calls =
          calls ++ edges.map (fun edge => ContextCall.sendMessageTo edge (GoValue.uint32 v.value))
            ++ [ContextCall.putAggregatable aggregatorName (GoValue.uint32 v.value)]) := by
  intro edges
  induction edges with
  | nil =>
    intro calls
    refine ⟨rfl, ⟨[ContextCall.putAggregatable aggregatorName (GoValue.uint32 v.value)],
      rfl, by simp⟩, fun _ => by simp [sendToEdges, putAndReturn]⟩
  | cons edge rest ih =>
    intro calls
    simp only [sendToEdges]
    cases hs : ctx.sendMessageTo calls edge (GoValue.uint32 v.value) with
    | some err =>
      refine ⟨rfl, ⟨[ContextCall.sendMessageTo edge (GoValue.uint32 v.value)], rfl, by simp⟩, ?_⟩
      intro h
      simp at h
    | none =>
      obtain ⟨h1, ⟨tail, h2, h3⟩, h4⟩ :=
        ih (calls ++ [ContextCall.sendMessageTo edge (GoValue.uint32 v.value)])
      refine ⟨h1, ⟨ContextCall.sendMessageTo edge (GoValue.uint32 v.value) :: tail, ?_, ?_⟩, ?_⟩
      · simp only [h2, List.append_assoc, List.singleton_append]
      · simpa using h3
      · intro h
        rw [h4 h]
        simp

/-- The three ways of `Compute` on `uint32` messages: superstep 0, no greater
message, a greater message. -/
theorem computeOn_cases (v : vert) (ctx : ComputeContext) (ns : List Nat) :
    (ctx.superStep = 0 ∧
      computeOn v ctx ns =
        sendToEdges { ctx with receivedMessages := ns.map GoValue.uint32 } v v.outgoingEdges []) ∨
    (ctx.superStep > 0 ∧ (∀ n ∈ ns, n ≤ v.value) ∧
      computeOn v ctx ns =
        putAndReturn { ctx with receivedMessages := ns.map GoValue.uint32 } v
          [ContextCall.voteToHalt]) ∨
    (ctx.superStep > 0 ∧ ∃ m ∈ ns, v.value < m ∧ (∀ n ∈ ns, n ≤ m) ∧
      computeOn v ctx ns =
        sendToEdges { ctx with receivedMessages := ns.map GoValue.uint32 }
          { v with value := m } v.outgoingEdges []) := by
  by_cases hstep : ctx.superStep > 0
  · by_cases hne : ns = []
    · subst hne
      exact Or.inr (Or.inl ⟨hstep, by simp, by simp [computeOn, vert.Compute, hstep]⟩)
    · obtain ⟨m, hm, hmem, hall⟩ := getMaxFromMessages_spec ns hne
      have hlen : ¬ (ns.map GoValue.uint32).length = 0 := by
        simpa [List.length_eq_zero] using hne
      by_cases hle : m ≤ v.value
      · refine Or.inr (Or.inl ⟨hstep, fun n hn => le_trans (hall n hn) hle, ?_⟩)
        simp only [computeOn, vert.Compute, hstep, if_true, if_neg hlen, hm, hle]
      · refine Or.inr (Or.inr ⟨hstep, m, hmem, by omega, hall, ?_⟩)
        simp only [computeOn, vert.Compute, hstep, if_true, if_neg hlen, hm, hle, if_false]
  · refine Or.inl ⟨by omega, ?_⟩
    simp only [computeOn, vert.Compute, hstep, if_false]

/-- The messages sent by a run of `Compute` whose calls are one `SendMessageTo` per
edge and the final `PutAggregatable`. -/
theorem sent_of_calls (r : ComputeResult) (edges : List String) (m : GoValue)
    (put : String × GoValue)
    (h : r.calls = [] ++ edges.map (fun edge => ContextCall.sendMessageTo edge m)
      ++ [ContextCall.putAggregatable put.1 put.2]) :
    r.sent = edges.map (fun edge => (edge, m)) := by
  simp only [ComputeResult.sent, h, List.nil_append, List.filterMap_append]
  clear h
  induction edges with
  | nil => rfl
  | cons edge rest ih => simpa using ih

/-- C21: under the superstep semantics of the specification the maximum example on
the graph `A→B, B→C, C→D, A→C` with `A=5, B=2, C=9, D=1` ends, after three
supersteps, with `A=5, B=5, C=9, D=9`, every vertex halted, and the aggregated
maximum 9. -/
theorem max_example_run (k : Nat) :
    ∃ final, bspRun (k + 3) (bspInit exampleGraph) = some (Except.ok final) ∧
      final.vertices.map (fun b => (b.vertex.id, b.vertex.value)) =
        [("A", 5), ("B", 5), ("C", 9), ("D", 9)] ∧
      final.aggregated = some (GoValue.uint32 9) ∧
      final.vertices.all (fun b => b.halted) = true ∧
      final.vertices.all (fun b => decide (b.inbox = [])) = true ∧
      bspRun 2 (bspInit exampleGraph) = none :=
  ⟨_, rfl, rfl, rfl, rfl, rfl, rfl⟩

/-- The vote to halt and the messages sent by `Compute` on `uint32` messages. -/
theorem computeOn_halts_iff (v : vert) (ctx : ComputeContext) (ns : List Nat) :
    ((computeOn v ctx ns).votedToHalt = true ↔
      (ctx.superStep > 0 ∧ ∀ n ∈ ns, n ≤ v.value)) ∧
    ((computeOn v ctx ns).votedToHalt = true →
      (computeOn v ctx ns).sent = [] ∧ (computeOn v ctx ns).vertex = v) ∧
    ((computeOn v ctx ns).error = none → (computeOn v ctx ns).votedToHalt = false →
      (computeOn v ctx ns).sent =
        v.outgoingEdges.map
          (fun edge => (edge, GoValue.uint32 (computeOn v ctx ns).vertex.value)) ∧
      ((ctx.superStep = 0 ∧ (computeOn v ctx ns).vertex = v) ∨
        (ctx.superStep > 0 ∧ ∃ m ∈ ns, v.value < m ∧ (∀ n ∈ ns, n ≤ m) ∧
          (computeOn v ctx ns).vertex = { v with value := m }))) := by
  refine ⟨?_, ?_, ?_⟩
  · rcases computeOn_cases v ctx ns with ⟨h0, heq⟩ | ⟨hpos, hall, heq⟩ | ⟨hpos, m, hm, hlt, _, heq⟩
    · obtain ⟨_, ⟨tail, hc, hnv⟩, _⟩ :=
        sendToEdges_spec { ctx with receivedMessages := ns.map GoValue.uint32 } v
          v.outgoingEdges []
      rw [heq]
      simp only [ComputeResult.votedToHalt, hc, List.nil_append, hnv]
      constructor
      · intro h; cases h
      · intro h; omega
    · rw [heq]
      simp only [ComputeResult.votedToHalt, putAndReturn]
      exact ⟨fun _ => ⟨hpos, hall⟩, fun _ => by simp⟩
    · obtain ⟨_, ⟨tail, hc, hnv⟩, _⟩ :=
        sendToEdges_spec { ctx with receivedMessages := ns.map GoValue.uint32 }
          { v with value := m } v.outgoingEdges []
      rw [heq]
      simp only [ComputeResult.votedToHalt, hc, List.nil_append, hnv]
      constructor
      · intro h; cases h
      · intro h
        have := h.2 m hm
        omega
  · rcases computeOn_cases v ctx ns with ⟨h0, heq⟩ | ⟨hpos, hall, heq⟩ | ⟨hpos, m, hm, hlt, _, heq⟩
    · obtain ⟨_, ⟨tail, hc, hnv⟩, _⟩ :=
        sendToEdges_spec { ctx with receivedMessages := ns.map GoValue.uint32 } v
          v.outgoingEdges []
      rw [heq]
      simp only [ComputeResult.votedToHalt, hc, List.nil_append, hnv]
      intro h; cases h
    · rw [heq]
      intro _
      simp [ComputeResult.sent, putAndReturn]
    · obtain ⟨_, ⟨tail, hc, hnv⟩, _⟩ :=
        sendToEdges_spec { ctx with receivedMessages := ns.map GoValue.uint32 }
          { v with value := m } v.outgoingEdges []
      rw [heq]
      simp only [ComputeResult.votedToHalt, hc, List.nil_append, hnv]
      intro h; cases h
  · rcases computeOn_cases v ctx ns with ⟨h0, heq⟩ | ⟨hpos, hall, heq⟩ | ⟨hpos, m, hm, hlt, hmax, heq⟩
    · obtain ⟨hv, _, hok⟩ :=
        sendToEdges_spec { ctx with receivedMessages := ns.map GoValue.uint32 } v
          v.outgoingEdges []
      rw [heq]
      intro herr _
      refine ⟨?_, Or.inl ⟨h0, hv⟩⟩
      rw [hv]
      exact sent_of_calls _ _ _ (aggregatorName, GoValue.uint32 v.value) (hok herr)
    · rw [heq]
      intro _ h
      simp [ComputeResult.votedToHalt, putAndReturn] at h
    · obtain ⟨hv, _, hok⟩ :=
        sendToEdges_spec { ctx with receivedMessages := ns.map GoValue.uint32 }
          { v with value := m } v.outgoingEdges []
      rw [heq]
      intro herr _
      refine ⟨?_, Or.inr ⟨hpos, m, hm, hlt, hmax, hv⟩⟩
      rw [hv]
      exact sent_of_calls _ _ _ (aggregatorName, GoValue.uint32 m) (hok herr)

/-- C22 at its counterexamples: at superstep 0 a vertex with two outgoing edges
whose first `SendMessageTo` fails does not vote to halt and has called
`SendMessageTo` for the first edge only; at superstep 1 a vertex of value 5 that
receives a message that is no `uint32` keeps the value 5, so the value did not
increase, and yet does not vote to halt, and it sends nothing to its outgoing
edge. Both runs return an error. -/
theorem compute_error_sends_less :
    (vert.Compute ⟨"A", 5, ["B", "C"]⟩ (exampleFailingContext 0 [])).votedToHalt = false ∧
    (vert.Compute ⟨"A", 5, ["B", "C"]⟩ (exampleFailingContext 0 [])).sent =
      [("B", GoValue.uint32 5)] ∧
    (vert.Compute ⟨"A", 5, ["B", "C"]⟩ (exampleFailingContext 0 [])).error =
      some (PluginError.context "failed to send") ∧
    (vert.Compute ⟨"A", 5, ["B"]⟩
      (exampleContext 1 [GoValue.other "string"])).votedToHalt = false ∧
    (vert.Compute ⟨"A", 5, ["B"]⟩ (exampleContext 1 [GoValue.other "string"])).sent = [] ∧
    (vert.Compute ⟨"A", 5, ["B"]⟩
      (exampleContext 1 [GoValue.other "string"])).vertex.value = 5 ∧
    (vert.Compute ⟨"A", 5, ["B"]⟩ (exampleContext 1 [GoValue.other "string"])).error =
      some (PluginError.unknownMessageType (GoValue.other "string")) := by
  decide

/-- C23: a call of `Compute` on `uint32` messages that returns no error leaves the
value unchanged at superstep 0 and makes it the maximum of the old value and the
received messages at a superstep greater than 0; the value does not decrease, the
rest of the vertex is kept, and `PutAggregatable` is called once, with the name
`prerogel-maximum` and the value of the vertex after the call. -/
theorem compute_value_is_max (v : vert) (ctx : ComputeContext) (ns : List Nat)
    (hok : (computeOn v ctx ns).error = none) :
    (ctx.superStep = 0 → (computeOn v ctx ns).vertex.value = v.value) ∧
    (ctx.superStep > 0 →
      v.value ≤ (computeOn v ctx ns).vertex.value ∧
      (∀ n ∈ ns, n ≤ (computeOn v ctx ns).vertex.value) ∧
      ((computeOn v ctx ns).vertex.value = v.value ∨
        (computeOn v ctx ns).vertex.value ∈ ns)) ∧
    v.value ≤ (computeOn v ctx ns).vertex.value ∧
    (computeOn v ctx ns).vertex.id = v.id ∧
    (computeOn v ctx ns).vertex.outgoingEdges = v.outgoingEdges ∧
    (computeOn v ctx ns).published =
      [("prerogel-maximum", GoValue.uint32 (computeOn v ctx ns).vertex.value)] := by
  have hpub : ∀ (r : ComputeResult) (pre : List ContextCall) (edges : List String)
      (m : GoValue) (put : String × GoValue),
      pre.all (fun call => decide (call = ContextCall.voteToHalt)) = true →
      r.calls = pre ++ edges.map (fun edge => ContextCall.sendMessageTo edge m)
        ++ [ContextCall.putAggregatable put.1 put.2] →
      r.published = [put] := by
    intro r pre edges m put hpre h
    simp only [ComputeResult.published, h, List.filterMap_append]
    have h1 : pre.filterMap (fun call =>
        match call with
        | ContextCall.putAggregatable name v => some (name, v)
        | _ => none) = [] := by
      clear h
      induction pre with
      | nil => rfl
      | cons call rest ih =>
        simp only [List.all_cons, Bool.and_eq_true, decide_eq_true_eq] at hpre
        obtain ⟨hc, hrest⟩ := hpre
        subst hc
        simpa using ih hrest
    have h2 : (edges.map (fun edge => ContextCall.sendMessageTo edge m)).filterMap (fun call =>
        match call with
        | ContextCall.putAggregatable name v => some (name, v)
        | _ => none) = [] := by
      simp
    rw [h1, h2]
    rfl
  rcases computeOn_cases v ctx ns with ⟨h0, heq⟩ | ⟨hpos, hall, heq⟩ | ⟨hpos, m, hm, hlt, hmax, heq⟩
  · obtain ⟨hv, _, hcalls⟩ :=
      sendToEdges_spec { ctx with receivedMessages := ns.map GoValue.uint32 } v
        v.outgoingEdges []
    rw [heq] at hok ⊢
    rw [hv]
    refine ⟨fun _ => rfl, fun h => by omega, le_refl _, rfl, rfl, ?_⟩
    exact hpub _ [] _ _ (aggregatorName, GoValue.uint32 v.value) rfl (hcalls hok)
  · rw [heq]
    refine ⟨fun _ => rfl, fun _ => ⟨le_refl _, hall, Or.inl rfl⟩, le_refl _, rfl, rfl, ?_⟩
    exact hpub _ [ContextCall.voteToHalt] [] (GoValue.uint32 v.value)
      (aggregatorName, GoValue.uint32 v.value) rfl rfl
  · obtain ⟨hv, _, hcalls⟩ :=
      sendToEdges_spec { ctx with receivedMessages := ns.map GoValue.uint32 }
        { v with value := m } v.outgoingEdges []
    rw [heq] at hok ⊢
    rw [hv]
    refine ⟨fun h => by omega, fun _ => ⟨le_of_lt hlt, hmax, Or.inr hm⟩, le_of_lt hlt, rfl,
      rfl, ?_⟩
    exact hpub _ [] _ _ (aggregatorName, GoValue.uint32 m) rfl (hcalls hok)

/-- Witness of C23: the vertex `B` of value 2 receives `[5, 1]` in superstep 1. -/
theorem compute_value_is_max_witness :
    (computeOn ⟨"B", 2, ["C"]⟩ (exampleContext 1 []) [5, 1]).error = none ∧
    (computeOn ⟨"B", 2, ["C"]⟩ (exampleContext 1 []) [5, 1]).vertex.value = 5 ∧
    (computeOn ⟨"B", 2, ["C"]⟩ (exampleContext 1 []) [5, 1]).published =
      [("prerogel-maximum", GoValue.uint32
        (computeOn ⟨"B", 2, ["C"]⟩ (exampleContext 1 []) [5, 1]).vertex.value)] :=
  ⟨by decide, by decide,
    (compute_value_is_max ⟨"B", 2, ["C"]⟩ (exampleContext 1 []) [5, 1] (by decide)).2.2.2.2.2⟩

/-- A message that is no `uint32` makes the loop of `getMaxFromMessages` fail. -/
theorem getMaxLoop_error (messages : List GoValue) :
    ∀ (max : Nat), (∃ m ∈ messages, m.isUint32 = false) →
      ∃ err, getMaxLoop messages max = Except.error err := by
  induction messages with
  | nil => intro max h; obtain ⟨m, hm, _⟩ := h; cases hm
  | cons m rest ih =>
    intro max h
    cases m with
    | uint32 n =>
      have hrest : ∃ m ∈ rest, m.isUint32 = false := by
        obtain ⟨x, hx, hxu⟩ := h
        rcases List.mem_cons.mp hx with rfl | hx
        · cases hxu
        · exact ⟨x, hx, hxu⟩
      simpa [getMaxLoop] using ih _ hrest
    | nil => exact ⟨_, rfl⟩
    | other d => exact ⟨_, rfl⟩

/-- A list of messages that are all `uint32` is a list of numbers. -/
theorem all_uint32_eq_map (messages : List GoValue)
    (h : ∀ m ∈ messages, m.isUint32 = true) :
    ∃ ns : List Nat, messages = ns.map GoValue.uint32 := by
  induction messages with
  | nil => exact ⟨[], rfl⟩
  | cons m rest ih =>
    obtain ⟨ns, hns⟩ := ih (fun x hx => h x (List.mem_cons_of_mem _ hx))
    cases m with
    | uint32 n => exact ⟨n :: ns, by simp [hns]⟩
    | nil => have := h GoValue.nil (List.mem_cons_self _ _); cases this
    | other d => have := h (GoValue.other d) (List.mem_cons_self _ _); cases this

/-- A list that holds a message that is no `uint32` makes `getMaxFromMessages` fail. -/
theorem getMaxFromMessages_not_uint32 (messages : List GoValue)
    (h : ∃ m ∈ messages, m.isUint32 = false) :
    ∃ err, getMaxFromMessages messages = Except.error err := by
  simp only [getMaxFromMessages]
  split
  · exact ⟨_, rfl⟩
  · exact getMaxLoop_error messages 0 h

/-- C22 (amended): `Compute` votes to halt exactly when the superstep is greater
than 0 and every received message is a `uint32` not greater than the value (so
also when no message was received); when it votes to halt it sends nothing and
keeps the vertex; when it returns no error and does not vote to halt it has sent
the value after the update to every outgoing edge once, in edge order, which
happens at superstep 0 with the vertex unchanged or when a greater message
arrived, the value then being that message. A vertex that receives no message at
step 1 votes to halt with its value unchanged, and `GetValueAsString` of a vertex
of value 7 is `"7"`. -/
theorem compute_halts_iff_no_increase (v : vert) (ctx : ComputeContext) :
    ((v.Compute ctx).votedToHalt = true ↔
      (ctx.superStep > 0 ∧
        ∀ m ∈ ctx.receivedMessages, ∃ n, m = GoValue.uint32 n ∧ n ≤ v.value)) ∧
    ((v.Compute ctx).votedToHalt = true →
      (v.Compute ctx).sent = [] ∧ (v.Compute ctx).vertex = v) ∧
    ((v.Compute ctx).error = none → (v.Compute ctx).votedToHalt = false →
      (v.Compute ctx).sent =
        v.outgoingEdges.map
          (fun edge => (edge, GoValue.uint32 (v.Compute ctx).vertex.value)) ∧
      ((ctx.superStep = 0 ∧ (v.Compute ctx).vertex = v) ∨
        (ctx.superStep > 0 ∧ ∃ n, GoValue.uint32 n ∈ ctx.receivedMessages ∧ v.value < n ∧
          (∀ m ∈ ctx.receivedMessages, ∃ k, m = GoValue.uint32 k ∧ k ≤ n) ∧
          (v.Compute ctx).vertex = { v with value := n }))) ∧
    (ctx.superStep = 1 → ctx.receivedMessages = [] →
      (v.Compute ctx).votedToHalt = true ∧ (v.Compute ctx).vertex.value = v.value) ∧
    (∀ (id : String) (edges : List String), vert.GetValueAsString ⟨id, 7, edges⟩ = "7") := by
  have hiso : ctx.superStep = 1 → ctx.receivedMessages = [] →
      (v.Compute ctx).votedToHalt = true ∧ (v.Compute ctx).vertex.value = v.value := by
    intro h1 h2
    simp [vert.Compute, h1, h2, putAndReturn, ComputeResult.votedToHalt]
  have hcase : (∃ ns : List Nat, ctx.receivedMessages = ns.map GoValue.uint32) ∨
      (∃ m ∈ ctx.receivedMessages, m.isUint32 = false) := by
    by_cases hall : ∀ m ∈ ctx.receivedMessages, m.isUint32 = true
    · exact Or.inl (all_uint32_eq_map ctx.receivedMessages hall)
    · refine Or.inr ?_
      by_contra hcon
      apply hall
      intro m hm
      by_contra hmu
      exact hcon ⟨m, hm, by simpa using hmu⟩
  have hnovote : ∀ r : ComputeResult, r.calls = [] → r.votedToHalt = false := by
    intro r hr
    simp [ComputeResult.votedToHalt, hr]
  rcases hcase with ⟨ns, hns⟩ | hex
  · have hc : v.Compute ctx = computeOn v ctx ns := by
      simp only [computeOn, ← hns]
    have hmem : ∀ (b : Nat), (∀ m ∈ ctx.receivedMessages, ∃ n, m = GoValue.uint32 n ∧ n ≤ b)
        ↔ (∀ n ∈ ns, n ≤ b) := by
      intro b
      rw [hns]
      simp
    have hold := computeOn_halts_iff v ctx ns
    rw [hc]
    refine ⟨?_, hold.2.1, ?_, hc ▸ hiso, fun _ _ => (by decide : toString 7 = "7")⟩
    · rw [hmem]
      exact hold.1
    · intro herr hnv
      obtain ⟨hs, hcs⟩ := hold.2.2 herr hnv
      refine ⟨hs, ?_⟩
      rcases hcs with h | ⟨hpos, m, hm, hlt, hmax, hv⟩
      · exact Or.inl h
      · refine Or.inr ⟨hpos, m, ?_, hlt, (hmem m).mpr hmax, hv⟩
        rw [hns]
        exact List.mem_map.mpr ⟨m, hm, rfl⟩
  · have hrhs : ¬ ∀ m ∈ ctx.receivedMessages, ∃ n, m = GoValue.uint32 n ∧ n ≤ v.value := by
      intro h
      obtain ⟨m, hm, hmu⟩ := hex
      obtain ⟨n, rfl, _⟩ := h m hm
      cases hmu
    by_cases hstep : ctx.superStep > 0
    · obtain ⟨err, herr⟩ := getMaxFromMessages_not_uint32 _ hex
      have hlen : ¬ ctx.receivedMessages.length = 0 := by
        obtain ⟨m, hm, _⟩ := hex
        intro h0
        rw [List.length_eq_zero] at h0
        rw [h0] at hm
        cases hm
      have hc : v.Compute ctx = { vertex := v, calls := [], error := some err } := by
        simp only [vert.Compute, hstep, if_true, if_neg hlen, herr]
      have hnv := hnovote _ (congrArg ComputeResult.calls hc)
      refine ⟨?_, ?_, ?_, hiso, fun _ _ => (by decide : toString 7 = "7")⟩
      · rw [hnv]
        exact ⟨fun h => (by cases h), fun h => absurd h.2 hrhs⟩
      · rw [hnv]
        intro h
        cases h
      · rw [hc]
        intro h
        cases h
    · have hc : v.Compute ctx = sendToEdges ctx v v.outgoingEdges [] := by
        simp only [vert.Compute, hstep, if_false]
      obtain ⟨hv, ⟨tail, hcalls, hnvt⟩, hok⟩ := sendToEdges_spec ctx v v.outgoingEdges []
      have hnv : (v.Compute ctx).votedToHalt = false := by
        rw [hc]
        simp only [ComputeResult.votedToHalt, hcalls, List.nil_append, hnvt]
      refine ⟨?_, ?_, ?_, hiso, fun _ _ => (by decide : toString 7 = "7")⟩
      · rw [hnv]
        exact ⟨fun h => (by cases h), fun h => absurd h.1 hstep⟩
      · rw [hnv]
        intro h
        cases h
      · rw [hc]
        intro herr _
        refine ⟨?_, Or.inl ⟨by omega, hv⟩⟩
        rw [hv]
        exact sent_of_calls _ _ _ (aggregatorName, GoValue.uint32 v.value) (hok herr)

/-- Witness of C22: the vertex `B` of value 2 with the edge to `C` receives
`[5, 1]` in superstep 1, returns no error, does not vote to halt and sends 5
to `C`; an isolated vertex of value 7 votes to halt at step 1. -/
theorem compute_halts_iff_no_increase_witness :
    (vert.Compute ⟨"B", 2, ["C"]⟩
      (exampleContext 1 [GoValue.uint32 5, GoValue.uint32 1])).sent = [("C", GoValue.uint32 5)] ∧
    (vert.Compute ⟨"D", 7, []⟩ (exampleContext 1 [])).votedToHalt = true ∧
    (vert.Compute ⟨"D", 7, []⟩ (exampleContext 1 [])).vertex.value = 7 :=
  ⟨((compute_halts_iff_no_increase ⟨"B", 2, ["C"]⟩
      (exampleContext 1 [GoValue.uint32 5, GoValue.uint32 1])).2.2.1 (by decide) (by decide)).1,
    (compute_halts_iff_no_increase ⟨"D", 7, []⟩ (exampleContext 1 [])).2.2.2.1 rfl rfl⟩

/-- C24: `getMaxFromMessages`, and with it `combiner`, returns an error exactly
when the list is empty or holds a message that is no `uint32`; a value it returns
is one of the messages and at least every message, and `combiner` returns that
value alone. -/
theorem getMaxFromMessages_error_iff (destination : String) (messages : List GoValue) :
    ((∃ err, getMaxFromMessages messages = Except.error err) ↔
      (messages = [] ∨ ∃ m ∈ messages, m.isUint32 = false)) ∧
    ((∃ err, combiner destination messages = Except.error err) ↔
      (messages = [] ∨ ∃ m ∈ messages, m.isUint32 = false)) ∧
    ((∃ r, getMaxFromMessages messages = Except.ok r) ∨
      (∃ err, getMaxFromMessages messages = Except.error err)) ∧
    (∀ r, getMaxFromMessages messages = Except.ok r →
      GoValue.uint32 r ∈ messages ∧ (∀ n, GoValue.uint32 n ∈ messages → n ≤ r) ∧
      combiner destination messages = Except.ok [GoValue.uint32 r]) := by
  have hcomb : ∀ err, combiner destination messages = Except.error err ↔
      getMaxFromMessages messages = Except.error err := by
    intro err
    simp only [combiner]
    cases getMaxFromMessages messages <;> simp
  have hmain : (messages = [] ∨ ∃ m ∈ messages, m.isUint32 = false) ∧
        (∃ err, getMaxFromMessages messages = Except.error err) ∨
      ¬ (messages = [] ∨ ∃ m ∈ messages, m.isUint32 = false) ∧
        ∃ r, getMaxFromMessages messages = Except.ok r ∧
          GoValue.uint32 r ∈ messages ∧ ∀ n, GoValue.uint32 n ∈ messages → n ≤ r := by
    by_cases hempty : messages = []
    · subst hempty
      exact Or.inl ⟨Or.inl rfl, _, rfl⟩
    · have hlen : ¬ messages.length = 0 := by simpa [List.length_eq_zero] using hempty
      by_cases hbad : ∃ m ∈ messages, m.isUint32 = false
      · obtain ⟨err, herr⟩ := getMaxLoop_error messages 0 hbad
        exact Or.inl ⟨Or.inr hbad, err, by simp only [getMaxFromMessages, if_neg hlen, herr]⟩
      · have hall : ∀ m ∈ messages, m.isUint32 = true := by
          intro m hm
          cases hu : m.isUint32
          · exact absurd ⟨m, hm, hu⟩ hbad
          · rfl
        obtain ⟨ns, hns⟩ := all_uint32_eq_map messages hall
        subst hns
        have hne : ns ≠ [] := by
          intro h; subst h; exact hempty rfl
        obtain ⟨r, hr, hmem, hmax⟩ := getMaxFromMessages_spec ns hne
        refine Or.inr ⟨fun h => h.elim hempty hbad, r, hr, ?_, ?_⟩
        · exact List.mem_map.mpr ⟨r, hmem, rfl⟩
        · intro n hn
          obtain ⟨k, hk, hkn⟩ := List.mem_map.mp hn
          injection hkn with hkn
          subst hkn
          exact hmax k hk
  rcases hmain with ⟨hcond, err, herr⟩ | ⟨hcond, r, hr, hmem, hmax⟩
  · refine ⟨⟨fun _ => hcond, fun _ => ⟨err, herr⟩⟩,
      ⟨fun _ => hcond, fun _ => ⟨err, (hcomb err).mpr herr⟩⟩, Or.inr ⟨err, herr⟩, ?_⟩
    intro r hr
    rw [herr] at hr
    cases hr
  · refine ⟨⟨?_, fun h => absurd h hcond⟩, ⟨?_, fun h => absurd h hcond⟩, Or.inl ⟨r, hr⟩, ?_⟩
    · rintro ⟨err, herr⟩
      rw [hr] at herr
      cases herr
    · rintro ⟨err, herr⟩
      rw [hcomb err, hr] at herr
      cases herr
    · intro r2 hr2
      rw [hr] at hr2
      injection hr2 with hr2
      subst hr2
      exact ⟨hmem, hmax, by simp only [combiner, hr]⟩

/-! ### More workers than partitions -/

/-- With no quotient the closed form gives one partition to each of the first
`surplus` workers and none to the others. -/
theorem blocks_zero : ∀ (n part surplus : Nat), surplus ≤ n →
    blocks 0 n part surplus =
      (List.range' part surplus).map (fun i => [i]) ++ List.replicate (n - surplus) [] := by
  intro n
  induction n with
  | zero =>
    intro part surplus h
    have : surplus = 0 := by omega
    subst this
    rfl
  | succ n ih =>
    intro part surplus h
    by_cases hs : surplus > 0
    · obtain ⟨k, rfl⟩ : ∃ k, surplus = k + 1 := ⟨surplus - 1, by omega⟩
      simp only [blocks, hs, if_true, Nat.zero_add, Nat.add_sub_cancel]
      rw [ih (part + 1) k (by omega)]
      simp [List.range'_succ, Nat.succ_sub_succ]
    · have : surplus = 0 := by omega
      subst this
      simp only [blocks, if_false, Nat.lt_irrefl, gt_iff_lt, Nat.add_zero, Nat.sub_zero]
      rw [ih part 0 (by omega)]
      simp [List.replicate_succ]

/-- C25 (amended): with more workers than partitions, `W > P ≥ 1`, and `make` able
to allocate the `W` slice headers, `assignPartition` returns an assignment: worker
`i < P` gets the one partition `i`, each of the other `W - P` workers gets the
empty list. In the first iteration `part + max - 1` wraps to `2^64 - 1` and the
surplus increment brings it back to 0. -/
theorem assignPartition_more_workers (maxAlloc W P : Nat) (hM : maxAlloc < U64) (hP : 1 ≤ P)
    (hWP : P < W) (houter : 24 * W ≤ maxAlloc) :
    assignPartition maxAlloc W P =
      GoResult.ok ((List.range P).map (fun i => [i]) ++ List.replicate (W - P) []) ∧
    (∀ pairs, assignPartition maxAlloc W P = GoResult.ok pairs →
      pairs.length = W ∧
      (∀ i, i < P → pairs[i]? = some [i]) ∧
      (∀ i, P ≤ i → i < W → pairs[i]? = some [])) ∧
    u64sub (u64add 0 (P / W)) 1 = 2 ^ 64 - 1 ∧
    u64add (u64sub (u64add 0 (P / W)) 1) 1 = 0 := by
  have hPu : P < U64 := by simp only [U64] at *; omega
  have hdiv : P / W = 0 := Nat.div_eq_of_lt hWP
  have hmod : P % W = P := Nat.mod_eq_of_lt hWP
  have hfit : 8 * maxLen W P ≤ maxAlloc := by
    simp only [maxLen, hdiv, hmod]
    split <;> omega
  have heq : assignPartition maxAlloc W P =
      GoResult.ok ((List.range P).map (fun i => [i]) ++ List.replicate (W - P) []) := by
    rw [assignPartition_ok_of_fit maxAlloc W P hM (by omega) hP hPu houter hfit, hdiv, hmod,
      blocks_zero W 0 P (by omega), List.range_eq_range']
  refine ⟨heq, ?_, ?_, ?_⟩
  · intro pairs hpairs
    rw [heq] at hpairs
    injection hpairs with hpairs
    subst hpairs
    refine ⟨by simp; omega, ?_, ?_⟩
    · intro i hi
      rw [List.getElem?_append_left (by simpa using hi)]
      simp [hi]
    · intro i hi hiW
      rw [List.getElem?_append_right (by simpa using hi)]
      simp only [List.length_map, List.length_range]
      rw [List.getElem?_eq_getElem (by simp; omega)]
      simp
  · simp [hdiv, u64sub, u64add, U64]
  · simp [hdiv, u64sub, u64add, U64]

/-- Witness of C25: three workers and two partitions. -/
theorem assignPartition_more_workers_witness :
    assignPartition maxAlloc64 3 2 = GoResult.ok [[0], [1], []] :=
  (assignPartition_more_workers maxAlloc64 3 2 (by decide) (by decide) (by decide)
    (by decide)).1

/-- C25 as stated fails: with `2^48` workers and one partition (`W > P ≥ 1`) the
`W` slice headers of `pairs` would need `24 * 2^48` bytes, more than the limit of
`2^48`, and `make([][]uint64, nrOfWorkers)` panics: the call does not return. -/
theorem assignPartition_many_workers_panics :
    1 ≤ 1 ∧ 1 < 2 ^ 48 ∧ 2 ^ 48 < IntMax1 ∧
    assignPartition maxAlloc64 (2 ^ 48) 1 = GoResult.panicked ∧
    ¬ ∃ pairs, assignPartition maxAlloc64 (2 ^ 48) 1 = GoResult.ok pairs := by
  have h : assignPartition maxAlloc64 (2 ^ 48) 1 = GoResult.panicked := by decide
  refine ⟨by decide, by decide, by decide, h, ?_⟩
  rintro ⟨pairs, hp⟩
  rw [h] at hp
  cases hp

/-! ### Acks that the coordinator does not wait for -/

/-- C26: in a waiting stage (`setup`, `waitLoadPartitionVertices`, `superstep`,
`computing`) the stage's ack of a worker whose id is not in the ack set leaves the
coordinator as it was and has no effect: same behaviour, state name, step, ack
set, accumulated values and snapshot; the values such a `ComputeWorkerAck` carries
are not merged. A second ack of a worker whose first ack was accepted and did not
end the stage is such an ack. -/
theorem unknown_ack_leaves_state (c : Collaborators) (b : Behavior) (s : CoordinatorActor)
    (cmd : Command) (pid : PID) (hb : s.behavior = b)
    (hcmd : stageAckPid b cmd = some pid) (hmem : pid.id ∉ s.ackRecorder.waiting) :
    Receive c s cmd = (s, []) ∧
    (Receive c s cmd).1.stateName = s.stateName ∧
    (Receive c s cmd).1.behavior = s.behavior ∧
    (Receive c s cmd).1.currentStep = s.currentStep ∧
    (Receive c s cmd).1.ackRecorder = s.ackRecorder ∧
    (Receive c s cmd).1.aggregatedCurrentStep = s.aggregatedCurrentStep ∧
    (Receive c s cmd).1.lastAggregatedValue = s.lastAggregatedValue ∧
    (∀ (s0 : CoordinatorActor) (cmd0 : Command), s0.ackRecorder.waiting.Nodup →
      stageAckPid s0.behavior cmd0 = some pid →
      (Receive c s0 cmd0).1.behavior = s0.behavior →
      pid.id ∈ s0.ackRecorder.waiting →
      Receive c (Receive c s0 cmd0).1 cmd0 = ((Receive c s0 cmd0).1, [])) := by
  have h := stage_step_unknown c b s cmd pid hb hcmd hmem
  refine ⟨h, by rw [h], by rw [h], by rw [h], by rw [h], by rw [h], by rw [h], ?_⟩
  intro s0 cmd0 hnodup hcmd0 hsame hin
  refine stage_step_unknown c s0.behavior _ cmd0 pid hsame hcmd0 ?_
  have herase : pid.id ∉ s0.ackRecorder.waiting.erase pid.id :=
    fun hx => (List.Nodup.mem_erase_iff hnodup).mp hx |>.1 rfl
  cases hb0 : s0.behavior <;> rw [hb0] at hcmd0 hsame <;> cases cmd0 <;>
    simp only [stageAckPid, Option.some.injEq] at hcmd0 <;> (try cases hcmd0) <;>
    simp only [Receive, behaviorReceive, hb0, setup, waitLoadPartitionVertices, superstep,
      computing, finishStep, AckRecorder.ack, hin, if_true, requestAll_eq] at hsame ⊢ <;>
    (repeat' split) <;> simp_all [AckRecorder.clear]

/-- Witness of C26: a coordinator in `computing` that waits for `w0` receives a
`ComputeWorkerAck` with values from a worker it does not wait for. -/
theorem unknown_ack_leaves_state_witness :
    Receive exampleCollaborators (exampleComputing 1 ["w0"] (statsMap 0 0))
        (Command.computeWorkerAck exampleStranger (statsMap 1 1)) =
      (exampleComputing 1 ["w0"] (statsMap 0 0), []) :=
  (unknown_ack_leaves_state exampleCollaborators Behavior.computing
    (exampleComputing 1 ["w0"] (statsMap 0 0))
    (Command.computeWorkerAck exampleStranger (statsMap 1 1)) exampleStranger
    (by decide) (by decide) (by decide)).1

/-! ### The transitions of the coordinator -/

/-- The state names of the five behaviours are pairwise different. -/
theorem stateNameOf_injective (b1 b2 : Behavior) (h : stateNameOf b1 = stateNameOf b2) :
    b1 = b2 := by
  cases b1 <;> cases b2 <;> first | rfl | (exact absurd h (by decide))

theorem setup_transition (c : Collaborators) (s : CoordinatorActor) (cmd : Command)
    (hb : s.behavior = Behavior.setup) :
    (setup c s cmd).1.behavior = s.behavior ∨
      (s.behavior, (setup c s cmd).1.behavior) ∈ coordinatorTransitions := by
  cases cmd <;> simp only [setup] <;> repeat' split
  all_goals simp_all [coordinatorTransitions]

theorem idle_transition (c : Collaborators) (s : CoordinatorActor) (cmd : Command)
    (hb : s.behavior = Behavior.idle) :
    (idle c s cmd).1.behavior = s.behavior ∨
      (s.behavior, (idle c s cmd).1.behavior) ∈ coordinatorTransitions := by
  cases cmd <;> simp only [idle, requestAll_eq] <;> repeat' split
  all_goals simp_all [coordinatorTransitions]

theorem waitLoad_transition (c : Collaborators) (s : CoordinatorActor) (cmd : Command)
    (hb : s.behavior = Behavior.waitLoadPartitionVertices) :
    (waitLoadPartitionVertices c s cmd).1.behavior = s.behavior ∨
      (s.behavior, (waitLoadPartitionVertices c s cmd).1.behavior) ∈
        coordinatorTransitions := by
  cases cmd <;> simp only [waitLoadPartitionVertices] <;> repeat' split
  all_goals simp_all [coordinatorTransitions]

theorem superstep_transition (c : Collaborators) (s : CoordinatorActor) (cmd : Command)
    (hb : s.behavior = Behavior.superstep) :
    (superstep c s cmd).1.behavior = s.behavior ∨
      (s.behavior, (superstep c s cmd).1.behavior) ∈ coordinatorTransitions := by
  cases cmd <;> simp only [superstep, requestAll_eq] <;> repeat' split
  all_goals simp_all [coordinatorTransitions]

theorem computing_transition (c : Collaborators) (s : CoordinatorActor) (cmd : Command)
    (hb : s.behavior = Behavior.computing) :
    (computing c s cmd).1.behavior = s.behavior ∨
      (s.behavior, (computing c s cmd).1.behavior) ∈ coordinatorTransitions := by
  cases cmd <;> simp only [computing, finishStep, requestAll_eq] <;> repeat' split
  all_goals simp_all [coordinatorTransitions]

theorem Receive_transition (c : Collaborators) (s : CoordinatorActor) (cmd : Command) :
    (Receive c s cmd).1.behavior = s.behavior ∨
      (s.behavior, (Receive c s cmd).1.behavior) ∈ coordinatorTransitions := by
  have hbeh : (behaviorReceive c s cmd).1.behavior = s.behavior ∨
      (s.behavior, (behaviorReceive c s cmd).1.behavior) ∈ coordinatorTransitions := by
    simp only [behaviorReceive]
    cases hb : s.behavior
    · simpa [hb] using setup_transition c s cmd hb
    · simpa [hb] using idle_transition c s cmd hb
    · simpa [hb] using waitLoad_transition c s cmd hb
    · simpa [hb] using superstep_transition c s cmd hb
    · simpa [hb] using computing_transition c s cmd hb
  cases cmd <;> simp only [Receive] <;>
    first
      | exact hbeh
      | ((repeat' split) <;> first | exact Or.inl rfl | exact Or.inl trivial)

/-- C27: in every state the coordinator reaches from `NewCoordinatorActor` the
state name is the one of the active behaviour, each of the five names standing for
exactly one behaviour; a message either keeps behaviour and name or makes one of
the transitions setup→idle, idle→loading, loading→idle, idle→superstep,
superstep→computing, computing→superstep, computing→idle, the name following
the behaviour. -/
theorem state_name_follows_behavior (c : Collaborators) (cmds : List Command)
    (cmd : Command) :
    (run c NewCoordinatorActor cmds).1.stateName =
      stateNameOf (run c NewCoordinatorActor cmds).1.behavior ∧
    ((run c NewCoordinatorActor cmds).1.stateName = "initializing cluster" ↔
      (run c NewCoordinatorActor cmds).1.behavior = Behavior.setup) ∧
    ((run c NewCoordinatorActor cmds).1.stateName = "idle" ↔
      (run c NewCoordinatorActor cmds).1.behavior = Behavior.idle) ∧
    ((run c NewCoordinatorActor cmds).1.stateName = "loading vertices of each partition" ↔
      (run c NewCoordinatorActor cmds).1.behavior = Behavior.waitLoadPartitionVertices) ∧
    ((run c NewCoordinatorActor cmds).1.stateName = "processing superstep" ↔
      (run c NewCoordinatorActor cmds).1.behavior = Behavior.superstep) ∧
    ((run c NewCoordinatorActor cmds).1.stateName = "processing superstep - computing" ↔
      (run c NewCoordinatorActor cmds).1.behavior = Behavior.computing) ∧
    (((Receive c (run c NewCoordinatorActor cmds).1 cmd).1.behavior =
          (run c NewCoordinatorActor cmds).1.behavior ∧
        (Receive c (run c NewCoordinatorActor cmds).1 cmd).1.stateName =
          (run c NewCoordinatorActor cmds).1.stateName) ∨
      (((run c NewCoordinatorActor cmds).1.behavior,
          (Receive c (run c NewCoordinatorActor cmds).1 cmd).1.behavior) ∈
            coordinatorTransitions ∧
        (Receive c (run c NewCoordinatorActor cmds).1 cmd).1.stateName =
          stateNameOf (Receive c (run c NewCoordinatorActor cmds).1 cmd).1.behavior)) ∧
    coordinatorTransitions =
      [(Behavior.setup, Behavior.idle),
       (Behavior.idle, Behavior.waitLoadPartitionVertices),
       (Behavior.waitLoadPartitionVertices, Behavior.idle),
       (Behavior.idle, Behavior.superstep),
       (Behavior.superstep, Behavior.computing),
       (Behavior.computing, Behavior.superstep),
       (Behavior.computing, Behavior.idle)] := by
  have hname : NameMatches (run c NewCoordinatorActor cmds).1 :=
    run_nameMatches c cmds NewCoordinatorActor rfl
  have hnext : NameMatches (Receive c (run c NewCoordinatorActor cmds).1 cmd).1 :=
    Receive_nameMatches c _ cmd hname
  simp only [NameMatches] at hname hnext
  have hiff : ∀ b : Behavior, (run c NewCoordinatorActor cmds).1.stateName = stateNameOf b ↔
      (run c NewCoordinatorActor cmds).1.behavior = b := by
    intro b
    constructor
    · intro h
      exact stateNameOf_injective _ _ (hname.symm.trans h)
    · intro h
      rw [hname, h]
  refine ⟨hname, hiff Behavior.setup, hiff Behavior.idle,
    hiff Behavior.waitLoadPartitionVertices, hiff Behavior.superstep,
    hiff Behavior.computing, ?_, rfl⟩
  rcases Receive_transition c (run c NewCoordinatorActor cmds).1 cmd with h | h
  · exact Or.inl ⟨h, by rw [hnext, hname, h]⟩
  · exact Or.inr ⟨h, hnext⟩

/-! ## The message of the shortest-path example: theorems -/

/-! ### Varints -/

theorem or_128_of_lt (a : Nat) (h : a < 128) : a ||| 0x80 = a + 128 := by
  have := Nat.mul_add_lt_is_or (i := 7) (b := a) (by simpa using h) 1
  simp only [Nat.reducePow, Nat.mul_one] at this
  rw [Nat.or_comm, ← this]
  omega

theorem getElem?_append_cons (pre : List Nat) (b : Nat) (post : List Nat) :
    (pre ++ b :: post)[pre.length]? = some b := by
  rw [List.getElem?_append_right (le_refl _)]
  simp

theorem varintBytes_lt (v : Nat) (h : v < 128) : varintBytes v = [v] := by
  rw [varintBytes]
  simp [Nat.not_le.mpr h]

theorem varintBytes_ge (v : Nat) (h : v ≥ 128) :
    varintBytes v = (v % 128 + 128) :: varintBytes (v / 128) := by
  rw [varintBytes]
  simp [h]

theorem varintBytes_length_pos (v : Nat) : 0 < (varintBytes v).length := by
  by_cases h : v < 128
  · simp [varintBytes_lt v h]
  · simp [varintBytes_ge v (by omega)]

/-- A number below `2 ^ (7 * n)` has a varint of at most `n` bytes. -/
theorem varintBytes_length_le : ∀ (n v : Nat), 0 < n → v < 2 ^ (7 * n) →
    (varintBytes v).length ≤ n := by
  intro n
  induction n with
  | zero => intro v h; omega
  | succ n ih =>
    intro v _ hv
    by_cases h : v < 128
    · simp [varintBytes_lt v h]
    · rw [varintBytes_ge v (by omega)]
      have hn : 0 < n := by
        rcases Nat.eq_zero_or_pos n with h0 | h0
        · subst h0; simp at hv; omega
        · exact h0
      have : v / 128 < 2 ^ (7 * n) := by
        rw [Nat.div_lt_iff_lt_mul (by decide)]
        calc v < 2 ^ (7 * (n + 1)) := hv
          _ = 2 ^ (7 * n) * 128 := by rw [Nat.mul_succ, Nat.pow_add]
      have := ih (v / 128) hn this
      simp only [List.length_cons]
      omega

theorem sovLoop_eq (x : Nat) : ∀ n, sovLoop x n = n + (varintBytes x).length := by
  induction x using Nat.strong_induction_on with
  | _ x ih =>
    intro n
    rw [sovLoop]
    simp only [Nat.shiftRight_eq_div_pow, Nat.reducePow]
    by_cases h : x / 128 = 0
    · have hx : x < 128 := by
        rcases Nat.lt_or_ge x 128 with h1 | h1
        · exact h1
        · have := Nat.div_pos h1 (by decide : 0 < 128); omega
      simp [h, varintBytes_lt x hx]
    · have hx : x ≥ 128 := by
        rcases Nat.lt_or_ge x 128 with h1 | h1
        · exact absurd (Nat.div_eq_of_lt h1) h
        · exact h1
      simp only [h, dite_false]
      rw [ih (x / 128) (Nat.div_lt_self (by omega) (by decide)), varintBytes_ge x hx]
      simp only [List.length_cons]
      omega

/-- The size `sovSssp` computes is the length of the varint. -/
theorem sovSssp_eq (x : Nat) : sovSssp x = (varintBytes x).length := by
  simp [sovSssp, sovLoop_eq]

/-- Written into a buffer with enough room after `w`, `encodeVarintSssp` leaves the
varint behind `w` and returns the offset behind it. -/
theorem encodeVarintSssp_eq (v : Nat) : ∀ (w : List Nat) (k : Nat),
    (varintBytes v).length ≤ k →
    encodeVarintSssp (w ++ List.replicate k 0) w.length v =
      GoResult.ok (w ++ varintBytes v ++ List.replicate (k - (varintBytes v).length) 0,
        w.length + (varintBytes v).length) := by
  induction v using Nat.strong_induction_on with
  | _ v ih =>
    intro w k hk
    rw [encodeVarintSssp]
    by_cases h : v ≥ 128
    · rw [varintBytes_ge v h] at hk ⊢
      simp only [List.length_cons] at hk
      obtain ⟨k1, rfl⟩ : ∃ k1, k = k1 + 1 := ⟨k - 1, by omega⟩
      have hw : writeByte (w ++ List.replicate (k1 + 1) 0) w.length
          (((v &&& 0x7f) ||| 0x80) % 256) =
          GoResult.ok ((w ++ [v % 128 + 128]) ++ List.replicate k1 0) := by
        have hand : v &&& 0x7f = v % 128 := Nat.and_pow_two_sub_one_eq_mod v 7
        rw [hand, or_128_of_lt _ (Nat.mod_lt _ (by decide))]
        have hlt : v % 128 + 128 < 256 := by omega
        simp [writeByte, Nat.mod_eq_of_lt hlt, List.replicate_succ]
      have hsh : (1 : Nat) <<< 7 = 128 := by decide
      simp only [hsh, h, dite_true, hw, Nat.shiftRight_eq_div_pow, Nat.reducePow]
      have := ih (v / 128) (Nat.div_lt_self (by omega) (by decide)) (w ++ [v % 128 + 128]) k1
        (by omega)
      simp only [List.length_append, List.length_singleton] at this
      rw [this]
      simp only [List.append_assoc, List.singleton_append, List.length_cons,
        Nat.add_sub_add_right]
      congr 2
      omega
    · have hlt : v < 128 := by omega
      rw [varintBytes_lt v hlt] at hk ⊢
      simp only [List.length_singleton] at hk
      obtain ⟨k1, rfl⟩ : ∃ k1, k = k1 + 1 := ⟨k - 1, by omega⟩
      have hsh : (1 : Nat) <<< 7 = 128 := by decide
      have h256 : v % 256 = v := Nat.mod_eq_of_lt (by omega)
      simp [hsh, h, writeByte, h256, List.replicate_succ]

/-- Reading a varint back: with `n` iterations left and the variable holding `acc`
below `2 ^ shift`, the loop adds the number shifted by `shift` and stops behind the
varint. -/
theorem readVarint_eq (width : Nat) (v : Nat) : ∀ (n acc : Nat) (pre post : List Nat),
    (varintBytes v).length ≤ n → n ≤ 10 → acc < 2 ^ (7 * (10 - n)) →
    acc + v * 2 ^ (7 * (10 - n)) < 2 ^ width →
    readVarint width (pre ++ varintBytes v ++ post) n pre.length acc =
      GoResult.ok (acc + v * 2 ^ (7 * (10 - n)), pre.length + (varintBytes v).length) := by
  induction v using Nat.strong_induction_on with
  | _ v ih =>
    intro n acc pre post hlen hn hacc hfit
    obtain ⟨n1, rfl⟩ : ∃ n1, n = n1 + 1 :=
      ⟨n - 1, by have := varintBytes_length_pos v; omega⟩
    have hshift : 7 * (9 - n1) = 7 * (10 - (n1 + 1)) := by omega
    have hor : ∀ x, acc ||| (x * 2 ^ (7 * (10 - (n1 + 1)))) =
        acc + x * 2 ^ (7 * (10 - (n1 + 1))) := by
      intro x
      rw [Nat.or_comm, Nat.mul_comm x, ← Nat.mul_add_lt_is_or hacc x, Nat.add_comm]
    by_cases h : v ≥ 128
    · rw [varintBytes_ge v h] at hlen ⊢
      simp only [List.length_cons] at hlen
      have hget : (pre ++ (v % 128 + 128) :: varintBytes (v / 128) ++ post)[pre.length]? =
          some (v % 128 + 128) := by
        rw [List.append_assoc]
        exact getElem?_append_cons _ _ _
      have hand : (v % 128 + 128) &&& 0x7F = v % 128 := by
        have := Nat.and_pow_two_sub_one_eq_mod (v % 128 + 128) 7
        simp only [Nat.reducePow, Nat.add_one_sub_one] at this
        rw [this]
        omega
      have hsmall : (v % 128) * 2 ^ (7 * (10 - (n1 + 1))) < 2 ^ width := by
        have : (v % 128) * 2 ^ (7 * (10 - (n1 + 1))) ≤ v * 2 ^ (7 * (10 - (n1 + 1))) :=
          Nat.mul_le_mul_right _ (Nat.mod_le _ _)
        omega
      have hnb : ¬ (v % 128 + 128 < 0x80) := by omega
      have hbound : ¬ (pre.length ≥
          (pre ++ (v % 128 + 128) :: varintBytes (v / 128) ++ post).length) := by
        simp
      simp only [readVarint, hbound, if_false, hget, hand, hshift, Nat.shiftLeft_eq,
        Nat.mod_eq_of_lt hsmall, hor, hnb]
      have hpow : 2 ^ (7 * (10 - n1)) = 2 ^ (7 * (10 - (n1 + 1))) * 128 := by
        have : 7 * (10 - n1) = 7 * (10 - (n1 + 1)) + 7 := by omega
        rw [this, Nat.pow_add]
      have hv : v = v / 128 * 128 + v % 128 := (Nat.div_add_mod' v 128).symm
      have hsum : acc + v % 128 * 2 ^ (7 * (10 - (n1 + 1))) +
          v / 128 * 2 ^ (7 * (10 - n1)) = acc + v * 2 ^ (7 * (10 - (n1 + 1))) := by
        rw [hpow]
        conv_rhs => rw [hv]
        ring
      have := ih (v / 128) (Nat.div_lt_self (by omega) (by decide)) n1
        (acc + v % 128 * 2 ^ (7 * (10 - (n1 + 1))))
        (pre ++ [v % 128 + 128]) post (by omega) (by omega)
        (by
          rw [hpow]
          have h1 : v % 128 < 128 := Nat.mod_lt _ (by decide)
          have h2 : 0 < 2 ^ (7 * (10 - (n1 + 1))) := by positivity
          nlinarith)
        (by rw [hsum]; exact hfit)
      simp only [List.append_assoc, List.singleton_append, List.length_append,
        List.length_singleton] at this
      simp only [List.cons_append, List.append_assoc] at this ⊢
      rw [this, hsum]
      simp only [List.length_cons]
      congr 2
      omega
    · have hlt : v < 128 := by omega
      rw [varintBytes_lt v hlt]
      have hget : (pre ++ [v] ++ post)[pre.length]? = some v := by
        rw [List.append_assoc]
        exact getElem?_append_cons _ _ _
      have hand : v &&& 0x7F = v := by
        have := Nat.and_pow_two_sub_one_eq_mod v 7
        simp only [Nat.reducePow, Nat.add_one_sub_one] at this
        rw [this]
        exact Nat.mod_eq_of_lt hlt
      have hsmall : v * 2 ^ (7 * (10 - (n1 + 1))) < 2 ^ width := by omega
      have hb : v < 0x80 := hlt
      have hbound : ¬ (pre.length ≥ (pre ++ [v] ++ post).length) := by simp
      simp only [readVarint, hbound, if_false, hget, hand, hshift, Nat.shiftLeft_eq,
        Nat.mod_eq_of_lt hsmall, hor, hb, if_true, List.length_singleton]

/-! ### Marshalling -/

theorem writeByte_at (w : List Nat) (k b off : Nat) (hoff : off = w.length) (hk : 1 ≤ k) :
    writeByte (w ++ List.replicate k 0) off b =
      GoResult.ok ((w ++ [b]) ++ List.replicate (k - 1) 0) := by
  obtain ⟨k1, rfl⟩ : ∃ k1, k = k1 + 1 := ⟨k - 1, by omega⟩
  subst hoff
  simp [writeByte, List.replicate_succ]

theorem encodeVarintSssp_at (v : Nat) (w : List Nat) (k off : Nat) (hoff : off = w.length)
    (hk : (varintBytes v).length ≤ k) :
    encodeVarintSssp (w ++ List.replicate k 0) off v =
      GoResult.ok ((w ++ varintBytes v) ++ List.replicate (k - (varintBytes v).length) 0,
        off + (varintBytes v).length) := by
  subst hoff
  exact encodeVarintSssp_eq v w k hk

theorem copyBytes_at (w src : List Nat) (k off : Nat) (hoff : off = w.length)
    (h : src.length ≤ k) :
    copyBytes (w ++ List.replicate k 0) off src =
      GoResult.ok ((w ++ src) ++ List.replicate (k - src.length) 0, src.length) := by
  subst hoff
  have hmin : min (w.length + k - w.length) src.length = src.length := by
    rw [Nat.add_sub_cancel_left]; exact Nat.min_eq_right h
  simp only [copyBytes, List.length_append, List.length_replicate, gt_iff_lt,
    Nat.not_lt.mpr (Nat.le_add_right _ _), if_false, hmin, List.take_length,
    List.take_left, List.drop_append, List.drop_replicate]

/-- Written into a zeroed buffer of `k` bytes that is long enough, `MarshalTo`
leaves the wire encoding at its start and returns its length. -/
theorem marshalTo_eq (m : SSSPMessage) (k : Nat) (hk : (wireBytes m).length ≤ k) :
    m.MarshalTo (List.replicate k 0) =
      GoResult.ok (wireBytes m ++ List.replicate (k - (wireBytes m).length) 0,
        (wireBytes m).length) := by
  rw [← List.nil_append (List.replicate k 0)]
  by_cases hid : m.FromVertexId.length > 0
  · by_cases hval : m.Value ≠ 0
    · simp only [wireBytes, hid, hval, if_true, List.length_append, List.length_singleton,
        ne_eq, not_false_eq_true] at hk
      simp only [SSSPMessage.MarshalTo, hid, hval, if_true, ne_eq, not_false_eq_true]
      rw [writeByte_at [] k 0xa 0 rfl (by omega)]
      simp only []
      rw [encodeVarintSssp_at _ _ _ 1 (by rfl) (by omega)]
      simp only []
      rw [copyBytes_at _ _ _ _ (by simp; omega) (by omega)]
      simp only []
      rw [writeByte_at _ _ 0x10 _ (by simp; omega) (by omega)]
      simp only []
      rw [encodeVarintSssp_at _ _ _ _ (by simp; omega) (by omega)]
      simp only [wireBytes, hid, hval, if_true, ne_eq, not_false_eq_true, List.nil_append,
        List.append_assoc, List.length_append, List.length_singleton, GoResult.ok.injEq,
        Prod.mk.injEq]
      refine ⟨?_, by omega⟩
      congr 6
      omega
    · simp only [wireBytes, hid, hval, if_true, if_false, List.length_append,
        List.length_singleton, List.append_nil] at hk
      simp only [SSSPMessage.MarshalTo, hid, hval, if_true, if_false]
      rw [writeByte_at [] k 0xa 0 rfl (by omega)]
      simp only []
      rw [encodeVarintSssp_at _ _ _ 1 (by rfl) (by omega)]
      simp only []
      rw [copyBytes_at _ _ _ _ (by simp; omega) (by omega)]
      simp only [wireBytes, hid, hval, if_true, if_false, List.nil_append,
        List.append_assoc, List.length_append, List.length_singleton, GoResult.ok.injEq,
        Prod.mk.injEq, List.append_nil]
      refine ⟨?_, by omega⟩
      congr 4
      omega
  · by_cases hval : m.Value ≠ 0
    · simp only [wireBytes, hid, hval, if_true, if_false, List.length_append,
        List.length_singleton, List.nil_append, ne_eq, not_false_eq_true] at hk
      simp only [SSSPMessage.MarshalTo, hid, hval, if_true, if_false, ne_eq,
        not_false_eq_true]
      rw [writeByte_at [] k 0x10 0 rfl (by omega)]
      simp only []
      rw [encodeVarintSssp_at _ _ _ _ (by rfl) (by omega)]
      simp only [wireBytes, hid, hval, if_true, if_false, List.nil_append,
        List.append_assoc, List.length_append, List.length_singleton, GoResult.ok.injEq,
        Prod.mk.injEq, ne_eq, not_false_eq_true, and_true]
      congr 3
      omega
    · simp [SSSPMessage.MarshalTo, wireBytes, hid, hval]

/-- The size `Size` computes is the length of the wire encoding. -/
theorem size_eq (m : SSSPMessage) : m.Size = (wireBytes m).length := by
  simp only [SSSPMessage.Size, wireBytes, sovSssp_eq]
  by_cases hid : m.FromVertexId.length > 0 <;> by_cases hval : m.Value ≠ 0 <;>
    simp [hid, hval] <;> omega

/-- The method `Marshal` returns the wire encoding. -/
theorem marshal_eq (m : SSSPMessage) : m.Marshal = GoResult.ok (wireBytes m) := by
  simp only [SSSPMessage.Marshal, size_eq]
  rw [marshalTo_eq m _ (le_refl _)]
  simp

/-! ### Unmarshalling what was marshalled -/

theorem wrapInt_of_lt (x : Nat) (h : x < IntMax1) : wrapInt (x : Int) = (x : Int) := by
  have hx : ((x : Int) % (U64 : Int)).toNat = x := by
    have : x < U64 := by simp only [IntMax1, U64] at *; omega
    rw [← Int.natCast_mod, Int.toNat_natCast, Nat.mod_eq_of_lt this]
  rw [wrapInt, hx, toGoInt_of_lt h]

theorem readVarint_tag (width : Nat) (data pre post : List Nat) (tag : Nat) (htag : tag < 128)
    (hw : tag < 2 ^ width) (hdata : data = pre ++ tag :: post) :
    readVarint width data 10 pre.length 0 = GoResult.ok (tag, pre.length + 1) := by
  have h := readVarint_eq width tag 10 0 pre post (by simp [varintBytes_lt tag htag])
    (le_refl _) (by simp) (by simpa using hw)
  simp only [varintBytes_lt tag htag, List.length_singleton, Nat.sub_self, Nat.mul_zero,
    Nat.pow_zero, Nat.mul_one, Nat.zero_add, List.append_assoc, List.singleton_append] at h
  rw [hdata]
  exact h

theorem readVarint_value (width : Nat) (data pre post : List Nat) (v i : Nat)
    (hv : v < 2 ^ width) (hw : width ≤ 64) (hi : i = pre.length)
    (hdata : data = pre ++ varintBytes v ++ post) :
    readVarint width data 10 i 0 = GoResult.ok (v, i + (varintBytes v).length) := by
  have hv64 : v < 2 ^ (7 * 10) :=
    lt_of_lt_of_le hv (Nat.pow_le_pow_right (by decide) (by omega))
  have h := readVarint_eq width v 10 0 pre post
    (varintBytes_length_le 10 v (by decide) hv64) (le_refl _) (by simp) (by simpa using hv)
  simp only [Nat.sub_self, Nat.mul_zero, Nat.pow_zero, Nat.mul_one, Nat.zero_add] at h
  rw [hdata, hi]
  exact h

/-- One iteration of the loop of `Unmarshal` on field 1. -/
theorem unmarshalLoop_field1 (fuel : Nat) (m : SSSPMessage) (data pre str post : List Nat)
    (hlen : data.length < IntMax1)
    (hdata : data = pre ++ [0xa] ++ varintBytes str.length ++ str ++ post) :
    unmarshalLoop (fuel + 1) m data pre.length =
      unmarshalLoop fuel { m with FromVertexId := str } data
        (pre.length + 1 + (varintBytes str.length).length + str.length) := by
  have hl : data.length = pre.length + 1 + (varintBytes str.length).length + str.length +
      post.length := by
    rw [hdata]; simp only [List.length_append, List.length_singleton]
  have hstr : str.length < 2 ^ 64 := by simp only [IntMax1] at hlen; omega
  have hr1 : readVarint 64 data 10 pre.length 0 = GoResult.ok (10, pre.length + 1) :=
    readVarint_tag 64 data pre (varintBytes str.length ++ str ++ post) 10 (by decide)
      (by decide) (by rw [hdata]; simp)
  have hr2 : readVarint 64 data 10 (pre.length + 1) 0 =
      GoResult.ok (str.length, pre.length + 1 + (varintBytes str.length).length) :=
    readVarint_value 64 data (pre ++ [0xa]) (str ++ post) str.length _ hstr (le_refl _)
      (by simp) (by rw [hdata]; simp)
  have hint : toGoInt str.length = (str.length : Int) :=
    toGoInt_of_lt (by omega)
  have hpost : wrapInt (((pre.length + 1 + (varintBytes str.length).length : Nat) : Int) +
      (str.length : Int)) =
      ((pre.length + 1 + (varintBytes str.length).length + str.length : Nat) : Int) := by
    rw [← Int.natCast_add]
    exact wrapInt_of_lt _ (by omega)
  have hslice : sliceBytes data (pre.length + 1 + (varintBytes str.length).length)
      (pre.length + 1 + (varintBytes str.length).length + str.length) = GoResult.ok str := by
    have hd : data = (pre ++ [0xa] ++ varintBytes str.length) ++ (str ++ post) := by
      rw [hdata]; simp
    have hpl : (pre ++ [0xa] ++ varintBytes str.length).length =
        pre.length + 1 + (varintBytes str.length).length := by simp; omega
    have hcond : pre.length + 1 + (varintBytes str.length).length ≤
        pre.length + 1 + (varintBytes str.length).length + str.length ∧
        pre.length + 1 + (varintBytes str.length).length + str.length ≤ data.length := by
      omega
    rw [sliceBytes, if_pos hcond, Nat.add_sub_cancel_left]
    conv_lhs => rw [hd]
    rw [← hpl, List.drop_left, List.take_left]
  have hlt : pre.length < data.length := by omega
  have hfield : toGoInt32 (10 >>> 3) = 1 := by decide
  have hwt : (10 : Nat) &&& 0x7 = 2 := by decide
  rw [unmarshalLoop]
  simp only [hlt, not_true_eq_false, if_false, hr1, hfield, hwt, hr2, hint, hpost, hslice,
    Int.toNat_natCast]
  have h1 : ¬ ((str.length : Int) < 0) := by omega
  have h2 : ¬ (((pre.length + 1 + (varintBytes str.length).length + str.length : Nat) : Int)
      < 0) := by omega
  have h3 : ¬ (((pre.length + 1 + (varintBytes str.length).length + str.length : Nat) : Int)
      > (data.length : Int)) := by omega
  rw [if_neg (by decide), if_neg (by decide), if_pos trivial, if_neg (by decide), if_neg h1,
    if_neg h2, if_neg h3]

/-- One iteration of the loop of `Unmarshal` on field 2. -/
theorem unmarshalLoop_field2 (fuel : Nat) (m : SSSPMessage) (data pre post : List Nat)
    (v : Nat) (hv : v < 2 ^ 32) (hdata : data = pre ++ [0x10] ++ varintBytes v ++ post) :
    unmarshalLoop (fuel + 1) m data pre.length =
      unmarshalLoop fuel { m with Value := v } data
        (pre.length + 1 + (varintBytes v).length) := by
  have hl : data.length = pre.length + 1 + (varintBytes v).length + post.length := by
    rw [hdata]; simp only [List.length_append, List.length_singleton]
  have hr1 : readVarint 64 data 10 pre.length 0 = GoResult.ok (0x10, pre.length + 1) :=
    readVarint_tag 64 data pre (varintBytes v ++ post) 0x10 (by decide)
      (by decide) (by rw [hdata]; simp)
  have hr2 : readVarint 32 data 10 (pre.length + 1) 0 =
      GoResult.ok (v, pre.length + 1 + (varintBytes v).length) :=
    readVarint_value 32 data (pre ++ [0x10]) post v _ hv (by decide)
      (by simp) (by rw [hdata])
  have hlt : pre.length < data.length := by omega
  have hfield : toGoInt32 (0x10 >>> 3) = 2 := by decide
  have hwt : (0x10 : Nat) &&& 0x7 = 0 := by decide
  rw [unmarshalLoop]
  simp only [hlt, not_true_eq_false, if_false, hr1, hfield, hwt, hr2]
  rw [if_neg (by decide), if_neg (by decide), if_neg (by decide), if_pos trivial,
    if_neg (by decide)]

/-- The loop of `Unmarshal` entered at the end of the data returns the message. -/
theorem unmarshalLoop_end (fuel : Nat) (m : SSSPMessage) (data : List Nat) :
    unmarshalLoop (fuel + 1) m data data.length = some (GoResult.ok m, []) := by
  rw [unmarshalLoop]
  simp

/-- Unmarshalling the wire encoding of a message into the zero message gives the
message back, without a call of `skipSssp`, as soon as three iterations are
allowed. -/
theorem unmarshal_wireBytes (fuel : Nat) (m : SSSPMessage)
    (hwl : (wireBytes m).length < IntMax1) (hval : m.Value < 2 ^ 32) :
    SSSPMessage.Unmarshal (fuel + 3) ⟨[], 0⟩ (wireBytes m) = some (GoResult.ok m, []) := by
  simp only [SSSPMessage.Unmarshal]
  by_cases hid : m.FromVertexId.length > 0
  · by_cases hv : m.Value ≠ 0
    · have hdata : wireBytes m = [] ++ [0xa] ++ varintBytes m.FromVertexId.length ++
          m.FromVertexId ++ ([0x10] ++ varintBytes m.Value) := by
        simp [wireBytes, hid, hv]
      have hdata2 : wireBytes m = ([0xa] ++ varintBytes m.FromVertexId.length ++
          m.FromVertexId) ++ [0x10] ++ varintBytes m.Value ++ [] := by
        simp [wireBytes, hid, hv]
      have hstep1 := unmarshalLoop_field1 (fuel + 2) ⟨[], 0⟩ (wireBytes m) [] m.FromVertexId
        ([0x10] ++ varintBytes m.Value) hwl hdata
      have hstep2 := unmarshalLoop_field2 (fuel + 1) ⟨m.FromVertexId, 0⟩ (wireBytes m)
        ([0xa] ++ varintBytes m.FromVertexId.length ++ m.FromVertexId) [] m.Value hval hdata2
      have hend := unmarshalLoop_end fuel m (wireBytes m)
      have hl : (wireBytes m).length = 1 + (varintBytes m.FromVertexId.length).length +
          m.FromVertexId.length + 1 + (varintBytes m.Value).length := by
        rw [hdata]; simp; omega
      simp only [List.length_nil, Nat.zero_add, List.length_append, List.length_singleton]
        at hstep1 hstep2
      rw [hstep1, hstep2, ← hl]
      exact hend
    · have hv0 : m.Value = 0 := by simpa using hv
      have hdata : wireBytes m = [] ++ [0xa] ++ varintBytes m.FromVertexId.length ++
          m.FromVertexId ++ [] := by
        simp [wireBytes, hid, hv0]
      have hstep1 := unmarshalLoop_field1 (fuel + 2) ⟨[], 0⟩ (wireBytes m) [] m.FromVertexId
        [] hwl hdata
      have hend := unmarshalLoop_end (fuel + 1) ⟨m.FromVertexId, 0⟩ (wireBytes m)
      have hl : (wireBytes m).length = 1 + (varintBytes m.FromVertexId.length).length +
          m.FromVertexId.length := by
        rw [hdata]; simp; omega
      simp only [List.length_nil, Nat.zero_add] at hstep1
      rw [hstep1, ← hl, hend]
      cases m
      simp_all
  · have hid0 : m.FromVertexId = [] := by
      cases hm : m.FromVertexId with
      | nil => rfl
      | cons a rest => rw [hm] at hid; simp at hid
    by_cases hv : m.Value ≠ 0
    · have hdata : wireBytes m = [] ++ [0x10] ++ varintBytes m.Value ++ [] := by
        simp [wireBytes, hid0, hv]
      have hstep2 := unmarshalLoop_field2 (fuel + 2) ⟨[], 0⟩ (wireBytes m) [] [] m.Value
        hval hdata
      have hend := unmarshalLoop_end (fuel + 1) ⟨[], m.Value⟩ (wireBytes m)
      have hl : (wireBytes m).length = 1 + (varintBytes m.Value).length := by
        rw [hdata]; simp; omega
      simp only [List.length_nil, Nat.zero_add] at hstep2
      rw [hstep2, ← hl, hend]
      cases m
      simp_all
    · have hv0 : m.Value = 0 := by simpa using hv
      have hdata : wireBytes m = [] := by simp [wireBytes, hid0, hv0]
      rw [hdata]
      have hend := unmarshalLoop_end (fuel + 2) ⟨[], 0⟩ []
      simp only [List.length_nil] at hend
      rw [hend]
      cases m
      simp_all

/-! ### `Unmarshal` on arbitrary bytes -/

theorem toGoInt_range (x : Nat) : -(IntMax1 : Int) ≤ toGoInt x ∧ toGoInt x < (IntMax1 : Int) := by
  simp only [toGoInt, IntMax1, U64]
  have : x % 2 ^ 64 < 2 ^ 64 := Nat.mod_lt _ (by decide)
  split <;> constructor <;> push_cast <;> omega

theorem wrapInt_eq (x : Int) (h1 : -(IntMax1 : Int) ≤ x) (h2 : x < (U64 : Int)) :
    wrapInt x = if x < (IntMax1 : Int) then x else x - (U64 : Int) := by
  simp only [wrapInt, toGoInt, IntMax1, U64] at *
  push_cast at *
  have hmod : ((x % 18446744073709551616).toNat : Int) = x % 18446744073709551616 :=
    Int.toNat_of_nonneg (Int.emod_nonneg _ (by decide))
  have hlt : (x % 18446744073709551616).toNat % 18446744073709551616 =
      (x % 18446744073709551616).toNat := by
    apply Nat.mod_eq_of_lt
    have := Int.emod_lt_of_pos x (by decide : (0 : Int) < 18446744073709551616)
    omega
  simp only [Nat.reducePow] at *
  rw [hlt]
  split <;> split <;> omega

/-- A varint that was read ends behind its start and within the data; the loop
does not index out of range. -/
theorem readVarint_bounds (width : Nat) (d : List Nat) : ∀ (n i acc : Nat),
    (∃ x j, readVarint width d n i acc = GoResult.ok (x, j) ∧ i < j ∧ j ≤ d.length) ∨
      (∃ err, readVarint width d n i acc = GoResult.error err) := by
  intro n
  induction n with
  | zero => intro i acc; exact Or.inr ⟨_, rfl⟩
  | succ n ih =>
    intro i acc
    by_cases hi : i ≥ d.length
    · exact Or.inr ⟨ErrUnexpectedEOF, by simp [readVarint, hi]⟩
    · have hlt : i < d.length := by omega
      have hget : d[i]? = some d[i] := List.getElem?_eq_getElem hlt
      by_cases hb : d[i] < 0x80
      · refine Or.inl ⟨acc ||| ((d[i] &&& 0x7F) <<< (7 * (9 - n))) % 2 ^ width, i + 1, ?_,
          by omega, by omega⟩
        simp only [readVarint, hi, if_false, hget, hb, if_true]
      · rcases ih (i + 1) (acc ||| ((d[i] &&& 0x7F) <<< (7 * (9 - n))) % 2 ^ width)
          with ⟨x, j, hr, hj1, hj2⟩ | ⟨err, hr⟩
        · refine Or.inl ⟨x, j, ?_, by omega, hj2⟩
          simp only [readVarint, hi, if_false, hget, hb, hr]
        · refine Or.inr ⟨err, ?_⟩
          simp only [readVarint, hi, if_false, hget, hb, hr]

theorem skipVarint_bounds (d : List Nat) : ∀ (n i : Nat),
    (∃ j, skipVarint d n i = GoResult.ok j ∧ i < j ∧ j ≤ d.length) ∨
      (∃ err, skipVarint d n i = GoResult.error err) := by
  intro n
  induction n with
  | zero => intro i; exact Or.inr ⟨_, rfl⟩
  | succ n ih =>
    intro i
    by_cases hi : i ≥ d.length
    · exact Or.inr ⟨ErrUnexpectedEOF, by simp [skipVarint, hi]⟩
    · have hlt : i < d.length := by omega
      have hget : d[i + 1 - 1]? = some d[i] := by
        rw [Nat.add_sub_cancel]
        exact List.getElem?_eq_getElem hlt
      by_cases hb : d[i] < 0x80
      · refine Or.inl ⟨i + 1, ?_, by omega, by omega⟩
        simp only [skipVarint, hi, if_false, hget, hb, if_true]
      · rcases ih (i + 1) with ⟨j, hr, hj1, hj2⟩ | ⟨err, hr⟩
        · refine Or.inl ⟨j, ?_, by omega, hj2⟩
          simp only [skipVarint, hi, if_false, hget, hb, hr]
        · refine Or.inr ⟨err, ?_⟩
          simp only [skipVarint, hi, if_false, hget, hb, hr]

theorem sliceBytes_suffix (d : List Nat) (i : Nat) (hi : i ≤ d.length) :
    sliceBytes d i d.length = GoResult.ok (d.drop i) := by
  simp only [sliceBytes, hi, le_refl, and_self, if_true]
  rw [List.take_of_length_le (by simp)]

theorem skipCallsShorter_nil : skipCallsShorter [] := fun call h => by cases h

theorem skipCallsShorter_cons (d : List Nat) (i : Nat) (calls calls2 : List SkipCall)
    (hi : 1 ≤ i) (hil : i < d.length) (h1 : skipCallsShorter calls)
    (h2 : skipCallsShorter calls2) :
    skipCallsShorter
      ({ fromUnmarshal := false, callerLength := d.length, argument := d.drop i } ::
        calls ++ calls2) := by
  intro call hcall
  rcases List.mem_cons.mp hcall with rfl | hcall
  · refine ⟨rfl, ?_, ?_⟩
    · intro h
      have := congrArg List.length h
      simp only [List.length_drop, List.length_nil] at this
      omega
    · simp only [List.length_drop]
      omega
  · rcases List.mem_append.mp hcall with h | h
    · exact h1 call h
    · exact h2 call h

/-- The index after an addition that did not wrap to a negative value. -/
theorem wrapInt_add_of_nonneg (i : Nat) (next : Int) (l : Nat) (hi : i < IntMax1)
    (hil : i + l < IntMax1) (hnext : skipResultInRange next l)
    (hneg : ¬ wrapInt ((i : Int) + next) < 0) :
    ∃ k : Nat, 1 ≤ k ∧ next = (k : Int) ∧ wrapInt ((i : Int) + next) = ((i + k : Nat) : Int) := by
  have hw := wrapInt_eq ((i : Int) + next)
    (by
      simp only [skipResultInRange, IntMax1, U64] at *
      push_cast at *
      omega)
    (by
      simp only [skipResultInRange, IntMax1, U64] at *
      push_cast at *
      omega)
  rw [hw] at hneg ⊢
  simp only [skipResultInRange, IntMax1, U64] at *
  push_cast at *
  refine ⟨next.toNat, ?_, ?_, ?_⟩ <;> split at hneg <;> omega

/-- Enough fuel makes `skipSssp` and its group loop return: a value in range or an
error, never a panic, and every call made on the way is on a non-empty shorter
slice. -/
theorem skip_total : ∀ fuel : Nat,
    (∀ d : List Nat, 0 < d.length → d.length < IntMax1 → 2 * d.length ≤ fuel →
      ∃ r calls, skipSssp fuel d = some (r, calls) ∧ r ≠ GoResult.panicked ∧
        (∀ n, r = GoResult.ok n → skipResultInRange n d.length) ∧ skipCallsShorter calls) ∧
    (∀ (d : List Nat) (i : Nat), 1 ≤ i → d.length < IntMax1 →
      2 * (d.length - i) + 1 ≤ fuel →
      ∃ r calls, skipGroup fuel d i = some (r, calls) ∧ r ≠ GoResult.panicked ∧
        (∀ n, r = GoResult.ok n → skipResultInRange n d.length) ∧ skipCallsShorter calls) := by
  intro fuel
  induction fuel with
  | zero =>
    constructor
    · intro d h0 _ hf; omega
    · intro d i _ _ hf; omega
  | succ fuel ih =>
    obtain ⟨ih1, ih2⟩ := ih
    constructor
    · intro d h0 hlen hf
      rw [skipSssp]
      simp only [h0, not_true_eq_false, if_false]
      rcases readVarint_bounds 64 d 10 0 0 with ⟨wire, i, hr, hi0, hil⟩ | ⟨err, hr⟩
      · simp only [hr]
        have hres : ∀ k : Nat, k ≤ 8 →
            skipResultInRange (wrapInt ((i : Int) + (k : Int))) d.length := by
          intro k hk
          have hw := wrapInt_eq ((i : Int) + (k : Int))
            (by simp only [IntMax1]; push_cast; omega)
            (by simp only [IntMax1, U64] at *; push_cast; omega)
          rw [hw]
          simp only [skipResultInRange, IntMax1, U64] at *
          push_cast at *
          split <;> omega
        have hpos : ∀ j : Nat, 1 ≤ j → j ≤ d.length → skipResultInRange (j : Int) d.length := by
          intro j hj1 hj2
          simp only [skipResultInRange]
          exact Or.inl ⟨by omega, by omega⟩
        by_cases h0t : wire &&& 0x7 = 0
        · rw [if_pos h0t]
          rcases skipVarint_bounds d 10 i with ⟨j, hs, hj1, hj2⟩ | ⟨err, hs⟩
          · simp only [hs]
            refine ⟨_, _, rfl, (by simp), ?_, skipCallsShorter_nil⟩
            intro n hn
            injection hn with hn
            subst hn
            exact hpos j (by omega) hj2
          · simp only [hs]
            exact ⟨_, _, rfl, (by simp), (fun n h => by cases h), skipCallsShorter_nil⟩
        · rw [if_neg h0t]
          by_cases h1t : wire &&& 0x7 = 1
          · rw [if_pos h1t]
            refine ⟨_, _, rfl, (by simp), ?_, skipCallsShorter_nil⟩
            intro n hn
            injection hn with hn
            subst hn
            exact hres 8 (le_refl _)
          · rw [if_neg h1t]
            by_cases h2t : wire &&& 0x7 = 2
            · rw [if_pos h2t]
              rcases readVarint_bounds 64 d 10 i 0 with ⟨bits, i1, hr2, hi1, hi1l⟩ | ⟨err, hr2⟩
              · simp only [hr2]
                by_cases hneg : toGoInt bits < 0
                · rw [if_pos hneg]
                  exact ⟨_, _, rfl, (by simp), (fun n h => by cases h), skipCallsShorter_nil⟩
                · rw [if_neg hneg]
                  by_cases hneg2 : wrapInt ((i1 : Int) + toGoInt bits) < 0
                  · rw [if_pos hneg2]
                    exact ⟨_, _, rfl, (by simp), (fun n h => by cases h), skipCallsShorter_nil⟩
                  · rw [if_neg hneg2]
                    refine ⟨_, _, rfl, (by simp), ?_, skipCallsShorter_nil⟩
                    intro n hn
                    injection hn with hn
                    subst hn
                    have hrange := toGoInt_range bits
                    have hw := wrapInt_eq ((i1 : Int) + toGoInt bits)
                      (by simp only [IntMax1] at *; push_cast at *; omega)
                      (by simp only [IntMax1, U64] at *; push_cast at *; omega)
                    rw [hw] at hneg2 ⊢
                    simp only [skipResultInRange, IntMax1, U64] at *
                    push_cast at *
                    split at hneg2 <;> split <;> omega
              · simp only [hr2]
                exact ⟨_, _, rfl, (by simp), (fun n h => by cases h), skipCallsShorter_nil⟩
            · rw [if_neg h2t]
              by_cases h3t : wire &&& 0x7 = 3
              · rw [if_pos h3t]
                exact ih2 d i (by omega) hlen (by omega)
              · rw [if_neg h3t]
                by_cases h4t : wire &&& 0x7 = 4
                · rw [if_pos h4t]
                  refine ⟨_, _, rfl, (by simp), ?_, skipCallsShorter_nil⟩
                  intro n hn
                  injection hn with hn
                  subst hn
                  exact hpos i (by omega) hil
                · rw [if_neg h4t]
                  by_cases h5t : wire &&& 0x7 = 5
                  · rw [if_pos h5t]
                    refine ⟨_, _, rfl, (by simp), ?_, skipCallsShorter_nil⟩
                    intro n hn
                    injection hn with hn
                    subst hn
                    exact hres 4 (by decide)
                  · rw [if_neg h5t]
                    exact ⟨_, _, rfl, (by simp), (fun n h => by cases h), skipCallsShorter_nil⟩
      · simp only [hr]
        exact ⟨_, _, rfl, (by simp), (fun n h => by cases h), skipCallsShorter_nil⟩
    · intro d i hi1 hlen hf
      rw [skipGroup]
      rcases readVarint_bounds 64 d 10 i 0 with ⟨w, i1, hr, hii, hil⟩ | ⟨err, hr⟩
      · simp only [hr]
        by_cases h4 : w &&& 0x7 = 4
        · rw [if_pos h4]
          refine ⟨_, _, rfl, (by simp), ?_, skipCallsShorter_nil⟩
          intro n hn
          injection hn with hn
          subst hn
          simp only [skipResultInRange]
          exact Or.inl ⟨by omega, by omega⟩
        · rw [if_neg h4, sliceBytes_suffix d i (by omega)]
          simp only []
          have hdl : (d.drop i).length = d.length - i := List.length_drop i d
          obtain ⟨r, calls, hs, hnp, hrange, hcalls⟩ :=
            ih1 (d.drop i) (by rw [hdl]; omega) (by rw [hdl]; omega) (by rw [hdl]; omega)
          rw [hs]
          have hc1 := skipCallsShorter_cons d i calls [] hi1 (by omega) hcalls
            skipCallsShorter_nil
          simp only [List.append_nil] at hc1
          cases r with
          | error err =>
            simp only []
            exact ⟨_, _, rfl, (by simp), (fun n h => by cases h), hc1⟩
          | panicked => exact absurd rfl hnp
          | ok next =>
            simp only []
            by_cases hneg : wrapInt ((i : Int) + next) < 0
            · rw [if_pos hneg]
              exact ⟨_, _, rfl, (by simp), (fun n h => by cases h), hc1⟩
            · rw [if_neg hneg]
              obtain ⟨k, hk1, hk, hwk⟩ := wrapInt_add_of_nonneg i next (d.drop i).length
                (by omega) (by rw [hdl]; omega) (hrange next rfl) hneg
              rw [hwk, Int.toNat_natCast]
              obtain ⟨r2, calls2, hs2, hnp2, hrange2, hcalls2⟩ :=
                ih2 d (i + k) (by omega) hlen (by omega)
              rw [hs2]
              exact ⟨r2, _, rfl, hnp2, hrange2,
                skipCallsShorter_cons d i calls calls2 hi1 (by omega) hcalls hcalls2⟩
      · simp only [hr]
        exact ⟨_, _, rfl, (by simp), (fun n h => by cases h), skipCallsShorter_nil⟩

theorem skipCallsNonEmpty_nil (l : Nat) : skipCallsNonEmpty l [] := fun call h => by cases h

theorem skipCallsNonEmpty_of_shorter (l : Nat) (calls : List SkipCall)
    (h : skipCallsShorter calls) : skipCallsNonEmpty l calls := by
  intro call hcall
  obtain ⟨h1, h2, h3⟩ := h call hcall
  exact ⟨h2, (by omega), (fun h4 => by rw [h1] at h4; cases h4), (fun _ => h3)⟩

theorem skipCallsNonEmpty_cons (d : List Nat) (i : Nat) (calls calls2 : List SkipCall)
    (hil : i < d.length) (h1 : skipCallsShorter calls)
    (h2 : skipCallsNonEmpty d.length calls2) :
    skipCallsNonEmpty d.length
      ({ fromUnmarshal := true, callerLength := d.length, argument := d.drop i } ::
        calls ++ calls2) := by
  intro call hcall
  rcases List.mem_cons.mp hcall with rfl | hcall
  · refine ⟨?_, ?_, fun _ => rfl, ?_⟩
    · intro h
      have := congrArg List.length h
      simp only [List.length_drop, List.length_nil] at this
      omega
    · simp only [List.length_drop]
      omega
    · intro h
      cases h
  · rcases List.mem_append.mp hcall with h | h
    · exact skipCallsNonEmpty_of_shorter d.length calls h1 call h
    · exact h2 call h

/-- Enough fuel makes the loop of `Unmarshal` return: a message or an error, never
a panic, and every call of `skipSssp` is on a non-empty slice. -/
theorem unmarshalLoop_total : ∀ (fuel : Nat) (m : SSSPMessage) (d : List Nat) (i : Nat),
    i ≤ d.length → d.length < IntMax1 → 2 * (d.length - i) + 2 ≤ fuel →
    ∃ r calls, unmarshalLoop fuel m d i = some (r, calls) ∧ r ≠ GoResult.panicked ∧
      skipCallsNonEmpty d.length calls := by
  intro fuel
  induction fuel with
  | zero => intro m d i _ _ hf; omega
  | succ fuel ih =>
    intro m d i hil hlen hf
    rw [unmarshalLoop]
    by_cases hlt : i < d.length
    · simp only [hlt, not_true_eq_false, if_false]
      rcases readVarint_bounds 64 d 10 i 0 with ⟨wire, i1, hr, hi1, hi1l⟩ | ⟨err, hr⟩
      · simp only [hr]
        by_cases h4 : wire &&& 0x7 = 4
        · rw [if_pos h4]
          exact ⟨_, _, rfl, (by simp), skipCallsNonEmpty_nil _⟩
        · rw [if_neg h4]
          by_cases hf0 : toGoInt32 (wire >>> 3) ≤ 0
          · rw [if_pos hf0]
            exact ⟨_, _, rfl, (by simp), skipCallsNonEmpty_nil _⟩
          · rw [if_neg hf0]
            by_cases hf1 : toGoInt32 (wire >>> 3) = 1
            · rw [if_pos hf1]
              by_cases hw2 : wire &&& 0x7 ≠ 2
              · rw [if_pos hw2]
                exact ⟨_, _, rfl, (by simp), skipCallsNonEmpty_nil _⟩
              · rw [if_neg hw2]
                rcases readVarint_bounds 64 d 10 i1 0 with
                  ⟨bits, i2, hr2, hi2, hi2l⟩ | ⟨err, hr2⟩
                · simp only [hr2]
                  by_cases hneg : toGoInt bits < 0
                  · rw [if_pos hneg]
                    exact ⟨_, _, rfl, (by simp), skipCallsNonEmpty_nil _⟩
                  · rw [if_neg hneg]
                    by_cases hneg2 : wrapInt ((i2 : Int) + toGoInt bits) < 0
                    · rw [if_pos hneg2]
                      exact ⟨_, _, rfl, (by simp), skipCallsNonEmpty_nil _⟩
                    · rw [if_neg hneg2]
                      by_cases hbig : wrapInt ((i2 : Int) + toGoInt bits) > (d.length : Int)
                      · rw [if_pos hbig]
                        exact ⟨_, _, rfl, (by simp), skipCallsNonEmpty_nil _⟩
                      · rw [if_neg hbig]
                        have hrange := toGoInt_range bits
                        have hw := wrapInt_eq ((i2 : Int) + toGoInt bits)
                          (by simp only [IntMax1] at *; push_cast at *; omega)
                          (by simp only [IntMax1, U64] at *; push_cast at *; omega)
                        have hpost : ∃ k : Nat, wrapInt ((i2 : Int) + toGoInt bits) = (k : Int) ∧
                            i2 ≤ k ∧ k ≤ d.length := by
                          refine ⟨(wrapInt ((i2 : Int) + toGoInt bits)).toNat, ?_, ?_, ?_⟩ <;>
                            rw [hw] at hneg2 hbig ⊢ <;>
                            simp only [IntMax1, U64] at * <;> push_cast at * <;>
                            split at hneg2 <;> omega
                        obtain ⟨k, hk, hk1, hk2⟩ := hpost
                        rw [hk, Int.toNat_natCast]
                        have hslice : sliceBytes d i2 k =
                            GoResult.ok ((d.drop i2).take (k - i2)) := by
                          simp only [sliceBytes, hk1, hk2, and_self, if_true]
                        rw [hslice]
                        simp only []
                        exact ih _ d k hk2 hlen (by omega)
                · simp only [hr2]
                  exact ⟨_, _, rfl, (by simp), skipCallsNonEmpty_nil _⟩
            · rw [if_neg hf1]
              by_cases hf2 : toGoInt32 (wire >>> 3) = 2
              · rw [if_pos hf2]
                by_cases hw0 : wire &&& 0x7 ≠ 0
                · rw [if_pos hw0]
                  exact ⟨_, _, rfl, (by simp), skipCallsNonEmpty_nil _⟩
                · rw [if_neg hw0]
                  rcases readVarint_bounds 32 d 10 i1 0 with
                    ⟨value, i2, hr2, hi2, hi2l⟩ | ⟨err, hr2⟩
                  · simp only [hr2]
                    exact ih _ d i2 hi2l hlen (by omega)
                  · simp only [hr2]
                    exact ⟨_, _, rfl, (by simp), skipCallsNonEmpty_nil _⟩
              · rw [if_neg hf2, sliceBytes_suffix d i hil]
                simp only []
                have hdl : (d.drop i).length = d.length - i := List.length_drop i d
                obtain ⟨r, calls, hs, hnp, hrange, hcalls⟩ :=
                  (skip_total fuel).1 (d.drop i) (by rw [hdl]; omega) (by rw [hdl]; omega)
                    (by rw [hdl]; omega)
                rw [hs]
                have hc1 := skipCallsNonEmpty_cons d i calls [] hlt hcalls (skipCallsNonEmpty_nil _)
                simp only [List.append_nil] at hc1
                cases r with
                | error err =>
                  simp only []
                  exact ⟨_, _, rfl, (by simp), hc1⟩
                | panicked => exact absurd rfl hnp
                | ok skippy =>
                  simp only []
                  by_cases hneg : skippy < 0
                  · rw [if_pos hneg]
                    exact ⟨_, _, rfl, (by simp), hc1⟩
                  · rw [if_neg hneg]
                    by_cases hneg2 : wrapInt ((i : Int) + skippy) < 0
                    · rw [if_pos hneg2]
                      exact ⟨_, _, rfl, (by simp), hc1⟩
                    · rw [if_neg hneg2]
                      by_cases hbig : wrapInt ((i : Int) + skippy) > (d.length : Int)
                      · rw [if_pos hbig]
                        exact ⟨_, _, rfl, (by simp), hc1⟩
                      · rw [if_neg hbig]
                        obtain ⟨k, hk1, hk, hwk⟩ :=
                          wrapInt_add_of_nonneg i skippy (d.drop i).length
                            (by omega) (by rw [hdl]; omega) (hrange skippy rfl) hneg2
                        rw [hwk] at hbig ⊢
                        rw [Int.toNat_natCast]
                        obtain ⟨r2, calls2, hs2, hnp2, hcalls2⟩ :=
                          ih m d (i + k) (by omega) hlen (by omega)
                        rw [hs2]
                        exact ⟨r2, _, rfl, hnp2,
                          skipCallsNonEmpty_cons d i calls calls2 hlt hcalls hcalls2⟩
      · simp only [hr]
        exact ⟨_, _, rfl, (by simp), skipCallsNonEmpty_nil _⟩
    · have hnot : ¬ i > d.length := by omega
      simp only [hlt, not_false_eq_true, if_true, hnot, if_false]
      exact ⟨_, _, rfl, (by simp), skipCallsNonEmpty_nil _⟩

/-- More fuel does not change what `skipSssp` and its group loop return. -/
theorem skip_mono : ∀ fuel : Nat,
    (∀ (d : List Nat) (x : GoResult Int × List SkipCall),
      skipSssp fuel d = some x → skipSssp (fuel + 1) d = some x) ∧
    (∀ (d : List Nat) (i : Nat) (x : GoResult Int × List SkipCall),
      skipGroup fuel d i = some x → skipGroup (fuel + 1) d i = some x) := by
  intro fuel
  induction fuel with
  | zero =>
    constructor
    · intro d x h; simp [skipSssp] at h
    · intro d i x h; simp [skipGroup] at h
  | succ fuel ih =>
    obtain ⟨ih1, ih2⟩ := ih
    constructor
    · intro d x h
      rw [skipSssp] at h ⊢
      by_cases h0 : 0 < d.length
      · simp only [h0, not_true_eq_false, if_false] at h ⊢
        cases hr : readVarint 64 d 10 0 0 with
        | error err => simp only [hr] at h ⊢; exact h
        | panicked => simp only [hr] at h ⊢; exact h
        | ok p =>
          obtain ⟨wire, i⟩ := p
          simp only [hr] at h ⊢
          by_cases h0t : wire &&& 0x7 = 0
          · rw [if_pos h0t] at h ⊢; exact h
          · rw [if_neg h0t] at h ⊢
            by_cases h1t : wire &&& 0x7 = 1
            · rw [if_pos h1t] at h ⊢; exact h
            · rw [if_neg h1t] at h ⊢
              by_cases h2t : wire &&& 0x7 = 2
              · rw [if_pos h2t] at h ⊢; exact h
              · rw [if_neg h2t] at h ⊢
                by_cases h3t : wire &&& 0x7 = 3
                · rw [if_pos h3t] at h ⊢; exact ih2 d i x h
                · rw [if_neg h3t] at h ⊢; exact h
      · simp only [h0, not_false_eq_true, if_true] at h ⊢
        exact h
    · intro d i x h
      rw [skipGroup] at h ⊢
      cases hr : readVarint 64 d 10 i 0 with
      | error err => simp only [hr] at h ⊢; exact h
      | panicked => simp only [hr] at h ⊢; exact h
      | ok p =>
        obtain ⟨w, i1⟩ := p
        simp only [hr] at h ⊢
        by_cases h4 : w &&& 0x7 = 4
        · rw [if_pos h4] at h ⊢; exact h
        · rw [if_neg h4] at h ⊢
          cases hsl : sliceBytes d i d.length with
          | error err => simp only [hsl] at h ⊢; exact h
          | panicked => simp only [hsl] at h ⊢; exact h
          | ok inner =>
            simp only [hsl] at h ⊢
            cases hs : skipSssp fuel inner with
            | none => simp only [hs] at h; cases h
            | some y =>
              obtain ⟨r, calls⟩ := y
              rw [hs] at h
              rw [ih1 inner (r, calls) hs]
              cases r with
              | error err => exact h
              | panicked => exact h
              | ok next =>
                simp only [] at h ⊢
                by_cases hneg : wrapInt ((i : Int) + next) < 0
                · rw [if_pos hneg] at h ⊢; exact h
                · rw [if_neg hneg] at h ⊢
                  cases hs2 : skipGroup fuel d (wrapInt ((i : Int) + next)).toNat with
                  | none => simp only [hs2] at h; cases h
                  | some z =>
                    rw [hs2] at h
                    rw [ih2 d _ z hs2]
                    exact h

/-- More fuel does not change what the loop of `Unmarshal` returns. -/
theorem unmarshalLoop_mono : ∀ (fuel : Nat) (m : SSSPMessage) (d : List Nat) (i : Nat)
    (x : GoResult SSSPMessage × List SkipCall),
    unmarshalLoop fuel m d i = some x → unmarshalLoop (fuel + 1) m d i = some x := by
  intro fuel
  induction fuel with
  | zero => intro m d i x h; simp [unmarshalLoop] at h
  | succ fuel ih =>
    intro m d i x h
    rw [unmarshalLoop] at h ⊢
    by_cases hlt : i < d.length
    · simp only [hlt, not_true_eq_false, if_false] at h ⊢
      cases hr : readVarint 64 d 10 i 0 with
      | error err => simp only [hr] at h ⊢; exact h
      | panicked => simp only [hr] at h ⊢; exact h
      | ok p =>
        obtain ⟨wire, i1⟩ := p
        simp only [hr] at h ⊢
        by_cases h4 : wire &&& 0x7 = 4
        · rw [if_pos h4] at h ⊢; exact h
        · rw [if_neg h4] at h ⊢
          by_cases hf0 : toGoInt32 (wire >>> 3) ≤ 0
          · rw [if_pos hf0] at h ⊢; exact h
          · rw [if_neg hf0] at h ⊢
            by_cases hf1 : toGoInt32 (wire >>> 3) = 1
            · rw [if_pos hf1] at h ⊢
              by_cases hw2 : wire &&& 0x7 ≠ 2
              · rw [if_pos hw2] at h ⊢; exact h
              · rw [if_neg hw2] at h ⊢
                cases hr2 : readVarint 64 d 10 i1 0 with
                | error err => simp only [hr2] at h ⊢; exact h
                | panicked => simp only [hr2] at h ⊢; exact h
                | ok q =>
                  obtain ⟨bits, i2⟩ := q
                  simp only [hr2] at h ⊢
                  by_cases hneg : toGoInt bits < 0
                  · rw [if_pos hneg] at h ⊢; exact h
                  · rw [if_neg hneg] at h ⊢
                    by_cases hneg2 : wrapInt ((i2 : Int) + toGoInt bits) < 0
                    · rw [if_pos hneg2] at h ⊢; exact h
                    · rw [if_neg hneg2] at h ⊢
                      by_cases hbig : wrapInt ((i2 : Int) + toGoInt bits) > (d.length : Int)
                      · rw [if_pos hbig] at h ⊢; exact h
                      · rw [if_neg hbig] at h ⊢
                        cases hsl : sliceBytes d i2
                            (wrapInt ((i2 : Int) + toGoInt bits)).toNat with
                        | error err => simp only [hsl] at h ⊢; exact h
                        | panicked => simp only [hsl] at h ⊢; exact h
                        | ok bytes =>
                          simp only [hsl] at h ⊢
                          exact ih _ d _ x h
            · rw [if_neg hf1] at h ⊢
              by_cases hf2 : toGoInt32 (wire >>> 3) = 2
              · rw [if_pos hf2] at h ⊢
                by_cases hw0 : wire &&& 0x7 ≠ 0
                · rw [if_pos hw0] at h ⊢; exact h
                · rw [if_neg hw0] at h ⊢
                  cases hr2 : readVarint 32 d 10 i1 0 with
                  | error err => simp only [hr2] at h ⊢; exact h
                  | panicked => simp only [hr2] at h ⊢; exact h
                  | ok q =>
                    obtain ⟨value, i2⟩ := q
                    simp only [hr2] at h ⊢
                    exact ih _ d _ x h
              · rw [if_neg hf2] at h ⊢
                cases hsl : sliceBytes d i d.length with
                | error err => simp only [hsl] at h ⊢; exact h
                | panicked => simp only [hsl] at h ⊢; exact h
                | ok rest =>
                  simp only [hsl] at h ⊢
                  cases hs : skipSssp fuel rest with
                  | none => simp only [hs] at h; cases h
                  | some y =>
                    obtain ⟨r, calls⟩ := y
                    rw [hs] at h
                    rw [(skip_mono fuel).1 rest (r, calls) hs]
                    cases r with
                    | error err => exact h
                    | panicked => exact h
                    | ok skippy =>
                      simp only [] at h ⊢
                      by_cases hneg : skippy < 0
                      · rw [if_pos hneg] at h ⊢; exact h
                      · rw [if_neg hneg] at h ⊢
                        by_cases hneg2 : wrapInt ((i : Int) + skippy) < 0
                        · rw [if_pos hneg2] at h ⊢; exact h
                        · rw [if_neg hneg2] at h ⊢
                          by_cases hbig : wrapInt ((i : Int) + skippy) > (d.length : Int)
                          · rw [if_pos hbig] at h ⊢; exact h
                          · rw [if_neg hbig] at h ⊢
                            cases hs2 : unmarshalLoop fuel m d
                                (wrapInt ((i : Int) + skippy)).toNat with
                            | none => simp only [hs2] at h; cases h
                            | some z =>
                              rw [hs2] at h
                              rw [ih m d _ z hs2]
                              exact h
    · simp only [hlt, not_false_eq_true, if_true] at h ⊢
      exact h

/-- The result of `Unmarshal` with some fuel is its result with any more fuel. -/
theorem unmarshalLoop_mono_le (m : SSSPMessage) (d : List Nat) (i : Nat)
    (x : GoResult SSSPMessage × List SkipCall) (fuel : Nat) :
    ∀ k, unmarshalLoop fuel m d i = some x → unmarshalLoop (fuel + k) m d i = some x := by
  intro k
  induction k with
  | zero => intro h; exact h
  | succ k ih => intro h; exact unmarshalLoop_mono (fuel + k) m d i x (ih h)

/-! ### Claims on the message of the shortest-path example -/

/-- C28: for every message whose size fits an `int` and whose value is a `uint32`,
`Marshal` returns `Size` bytes, and `Unmarshal` of these bytes into the zero message
returns nil and leaves a message that `Equal` reports equal: the same `FromVertexId`
and the same `Value`. Three iterations of the loop of `Unmarshal` are enough. -/
theorem sssp_message_round_trip (m : SSSPMessage) (hsize : m.Size < 2 ^ 63)
    (hval : m.Value < 2 ^ 32) :
    ∃ bytes, m.Marshal = GoResult.ok bytes ∧ bytes.length = m.Size ∧
      ∀ fuel, ∃ m1,
        SSSPMessage.Unmarshal (fuel + 3) ⟨[], 0⟩ bytes = some (GoResult.ok m1, []) ∧
        SSSPMessage.Equal (some m1) (EqualArgument.pointer (some m)) = true ∧
        SSSPMessage.Equal (some m) (EqualArgument.pointer (some m1)) = true ∧
        m1.FromVertexId = m.FromVertexId ∧ m1.Value = m.Value := by
  refine ⟨wireBytes m, marshal_eq m, (size_eq m).symm, ?_⟩
  intro fuel
  refine ⟨m, unmarshal_wireBytes fuel m (by rw [← size_eq]; exact hsize) hval, ?_, ?_, rfl, rfl⟩
  · simp [SSSPMessage.Equal]
  · simp [SSSPMessage.Equal]

/-- Witness of C28: the message with the string `AB` and the value 300. -/
theorem sssp_message_round_trip_witness :
    ∃ bytes, SSSPMessage.Marshal ⟨[65, 66], 300⟩ = GoResult.ok bytes ∧
      bytes.length = SSSPMessage.Size ⟨[65, 66], 300⟩ ∧
      ∀ fuel, ∃ m1,
        SSSPMessage.Unmarshal (fuel + 3) ⟨[], 0⟩ bytes = some (GoResult.ok m1, []) ∧
        SSSPMessage.Equal (some m1) (EqualArgument.pointer (some ⟨[65, 66], 300⟩)) = true ∧
        SSSPMessage.Equal (some ⟨[65, 66], 300⟩) (EqualArgument.pointer (some m1)) = true ∧
        m1.FromVertexId = [65, 66] ∧ m1.Value = 300 :=
  sssp_message_round_trip ⟨[65, 66], 300⟩
    (by rw [size_eq]; simp [wireBytes, varintBytes_lt, varintBytes_ge]) (by decide)

/-- C29 (amended): on every byte slice whose length fits an `int`, `Unmarshal`
returns, with the same outcome for every bound of at least `2 * len + 2` steps: nil
or an error, never a panic, so that no index is out of range and the
`panic("unreachable")` of `skipSssp`, which an empty slice would reach, is not
reached. `skipSssp` is called on non-empty slices only: by `Unmarshal` on a slice
no longer than the input, by its own group recursion on a slice shorter than the
one it works on. -/
theorem unmarshal_total (m : SSSPMessage) (dAtA : List Nat) (fuel : Nat)
    (hlen : dAtA.length < 2 ^ 63) (hfuel : 2 * dAtA.length + 2 ≤ fuel) :
    ∃ r calls, SSSPMessage.Unmarshal fuel m dAtA = some (r, calls) ∧
      SSSPMessage.Unmarshal (2 * dAtA.length + 2) m dAtA = some (r, calls) ∧
      ((∃ m1, r = GoResult.ok m1) ∨ (∃ err, r = GoResult.error err)) ∧
      (∀ call ∈ calls, call.argument ≠ [] ∧ call.argument.length ≤ call.callerLength ∧
        (call.fromUnmarshal = true → call.callerLength = dAtA.length) ∧
        (call.fromUnmarshal = false → call.argument.length < call.callerLength)) ∧
      skipSssp fuel [] = some (GoResult.panicked, []) := by
  have hlen1 : dAtA.length < IntMax1 := by simpa [IntMax1] using hlen
  obtain ⟨r, calls, hs, hnp, hcalls⟩ :=
    unmarshalLoop_total (2 * dAtA.length + 2) m dAtA 0 (Nat.zero_le _) hlen1 (by omega)
  obtain ⟨k, rfl⟩ : ∃ k, fuel = 2 * dAtA.length + 2 + k :=
    ⟨fuel - (2 * dAtA.length + 2), by omega⟩
  refine ⟨r, calls, unmarshalLoop_mono_le m dAtA 0 (r, calls) _ k hs, hs, ?_, hcalls, ?_⟩
  · cases r with
    | ok m1 => exact Or.inl ⟨m1, rfl⟩
    | error err => exact Or.inr ⟨err, rfl⟩
    | panicked => exact absurd rfl hnp
  · rw [show 2 * dAtA.length + 2 + k = (2 * dAtA.length + 1 + k) + 1 by omega, skipSssp]
    simp

/-- Witness of C29: a group that holds one field, followed by field 2. -/
theorem unmarshal_total_witness :
    ∃ r calls,
      SSSPMessage.Unmarshal 20 ⟨[], 0⟩ [0x1b, 0x18, 0x01, 0x1c, 0x10, 0x05] = some (r, calls) ∧
      SSSPMessage.Unmarshal (2 * [0x1b, 0x18, 0x01, 0x1c, 0x10, 0x05].length + 2) ⟨[], 0⟩
        [0x1b, 0x18, 0x01, 0x1c, 0x10, 0x05] = some (r, calls) ∧
      ((∃ m1, r = GoResult.ok m1) ∨ (∃ err, r = GoResult.error err)) ∧
      (∀ call ∈ calls, call.argument ≠ [] ∧ call.argument.length ≤ call.callerLength ∧
        (call.fromUnmarshal = true →
          call.callerLength = [0x1b, 0x18, 0x01, 0x1c, 0x10, 0x05].length) ∧
        (call.fromUnmarshal = false → call.argument.length < call.callerLength)) ∧
      skipSssp 20 [] = some (GoResult.panicked, []) :=
  unmarshal_total ⟨[], 0⟩ [0x1b, 0x18, 0x01, 0x1c, 0x10, 0x05] 20 (by decide) (by decide)

/-- C29 at its counterexample: for the two bytes of an unknown field 3 of wire type
0, `Unmarshal` calls `skipSssp` on the whole input, a slice that is not shorter
than the input, and returns nil. -/
theorem unmarshal_skips_whole_input :
    SSSPMessage.Unmarshal 6 ⟨[], 0⟩ [0x18, 0x01] =
      some (GoResult.ok ⟨[], 0⟩,
        [{ fromUnmarshal := true, callerLength := 2, argument := [0x18, 0x01] }]) := by
  decide

end Prerogel
